import Mathlib

/-!
Slither clone server: a shallow embedding of `src/server/server.js`.

JavaScript numbers are modelled as real numbers (`ℝ`): `Math.sqrt` is `Real.sqrt`,
`%` is the truncated remainder `jsMod`, `Math.floor` is `Int.floor`.  Rounding of
IEEE doubles is not modelled.  The one computation on numbers that a client chooses
freely, `setDirection`, is carried out on `JSNumber`, which gives the reals the range of
doubles: a result from `OVERFLOW` on is an infinity, a result up to `UNDERFLOW` is
zero, and there is `NaN`.  Arrays are lists, the `Map` of snakes is the list of
its values in insertion order (the key of a snake is its `id`, as `join` sets it),
`Math.random()` is a fixed sequence `rng : ℕ → Random` of draws from `[0, 1)` read at
the position `draws` of the world, and `io.to(..).emit` / `socket.emit` append to the
log `emitted` of the world.  A step that would throw a `TypeError` in JavaScript
(reading `.x` of `undefined`) returns `none`; so does a `setDirection` whose heading
would have a `NaN` component, which the real-valued `Point` cannot hold.
-/

noncomputable section

namespace Slither

/-! ## Configuration (`CONFIG`) -/

namespace CONFIG

def MAP_SIZE : ℝ := 5000
def ORB_COUNT : ℕ := 800
def TICK_RATE : ℕ := 30
def INITIAL_SNAKE_LENGTH : ℕ := 10
def SEGMENT_RADIUS : ℝ := 8
def BASE_SPEED : ℝ := 2.5
def BOOST_SPEED : ℝ := 5
def BOOST_LOSS : ℝ := 0.05
def ORB_VALUE : ℕ := 1
def VIEW_DISTANCE : ℝ := 1200

end CONFIG

open CONFIG

/-! ## Numbers -/

/-- Truncation towards zero, the integer part used by the JavaScript `%`. -/
def jsTrunc (x : ℝ) : ℤ := if 0 ≤ x then ⌊x⌋ else ⌈x⌉

/-- The JavaScript remainder `a % m` on numbers: `a - m * trunc (a / m)`; the result has
the sign of the dividend `a`. -/
def jsMod (a m : ℝ) : ℝ := a - m * (jsTrunc (a / m) : ℝ)

/-- The least magnitude that rounds to an infinity: `2^1024 - 2^970`, half a unit in the
last place above the largest double `Number.MAX_VALUE = 2^1024 - 2^971`. -/
def OVERFLOW : ℝ := 2 ^ 1024 - 2 ^ 970

/-- The greatest magnitude that rounds to zero: `2^(-1075)`, half the least positive double
`Number.MIN_VALUE = 2^(-1074)`. -/
def UNDERFLOW : ℝ := 1 / 2 ^ 1075

/-- The least positive normal double, `2^(-1022)`. -/
def MIN_NORMAL : ℝ := 1 / 2 ^ 1022

/-- A JavaScript number: a finite value, `Infinity` or `-Infinity`, or `NaN`.  The sign of
a zero is not kept. -/
inductive JSNumber where
  | finite (r : ℝ)
  | infinite (negative : Bool)
  | nan

/-- The double an arithmetic result `r` is stored as, as far as its range goes: an infinity
from `OVERFLOW` on, zero up to `UNDERFLOW`, and `r` itself in between (rounding to 53 bits
is not modelled). -/
def toDouble (r : ℝ) : JSNumber :=
  if OVERFLOW ≤ |r| then JSNumber.infinite (decide (r < 0))
  else if |r| ≤ UNDERFLOW then JSNumber.finite 0
  else JSNumber.finite r

/-- The operator `-` on numbers. -/
def JSNumber.sub : JSNumber → JSNumber → JSNumber
  | JSNumber.nan, _ => JSNumber.nan
  | _, JSNumber.nan => JSNumber.nan
  | JSNumber.finite a, JSNumber.finite b => toDouble (a - b)
  | JSNumber.infinite s, JSNumber.finite _ => JSNumber.infinite s
  | JSNumber.finite _, JSNumber.infinite t => JSNumber.infinite (!t)
  | JSNumber.infinite s, JSNumber.infinite t =>
    if s = t then JSNumber.nan else JSNumber.infinite s

/-- The operator `+` on numbers. -/
def JSNumber.add : JSNumber → JSNumber → JSNumber
  | JSNumber.nan, _ => JSNumber.nan
  | _, JSNumber.nan => JSNumber.nan
  | JSNumber.finite a, JSNumber.finite b => toDouble (a + b)
  | JSNumber.infinite s, JSNumber.finite _ => JSNumber.infinite s
  | JSNumber.finite _, JSNumber.infinite t => JSNumber.infinite t
  | JSNumber.infinite s, JSNumber.infinite t =>
    if s = t then JSNumber.infinite s else JSNumber.nan

/-- The operator `*` on numbers. -/
def JSNumber.mul : JSNumber → JSNumber → JSNumber
  | JSNumber.nan, _ => JSNumber.nan
  | _, JSNumber.nan => JSNumber.nan
  | JSNumber.finite a, JSNumber.finite b => toDouble (a * b)
  | JSNumber.infinite s, JSNumber.finite b =>
    if b = 0 then JSNumber.nan else JSNumber.infinite (xor s (decide (b < 0)))
  | JSNumber.finite a, JSNumber.infinite t =>
    if a = 0 then JSNumber.nan else JSNumber.infinite (xor (decide (a < 0)) t)
  | JSNumber.infinite s, JSNumber.infinite t => JSNumber.infinite (xor s t)

/-- The operator `/` on numbers.  A finite number divided by a zero is taken as divided by
`+0`. -/
def JSNumber.div : JSNumber → JSNumber → JSNumber
  | JSNumber.nan, _ => JSNumber.nan
  | _, JSNumber.nan => JSNumber.nan
  | JSNumber.finite a, JSNumber.finite b =>
    if b = 0 then (if a = 0 then JSNumber.nan else JSNumber.infinite (decide (a < 0)))
    else toDouble (a / b)
  | JSNumber.infinite s, JSNumber.finite b => JSNumber.infinite (xor s (decide (b < 0)))
  | JSNumber.finite _, JSNumber.infinite _ => JSNumber.finite 0
  | JSNumber.infinite _, JSNumber.infinite _ => JSNumber.nan

/-- The function `Math.sqrt`. -/
def JSNumber.sqrt : JSNumber → JSNumber
  | JSNumber.nan => JSNumber.nan
  | JSNumber.finite a => if a < 0 then JSNumber.nan else JSNumber.finite (Real.sqrt a)
  | JSNumber.infinite s => if s then JSNumber.nan else JSNumber.infinite false

/-- The test `a > 0`. -/
def JSNumber.gtZero : JSNumber → Bool
  | JSNumber.nan => false
  | JSNumber.finite a => decide (0 < a)
  | JSNumber.infinite s => !s

/-- A value returned by `Math.random()`: a number in `[0, 1)`. -/
abbrev Random : Type := {u : ℝ // 0 ≤ u ∧ u < 1}

/-! ## Data model -/

/-- A point `{ x, y }`. -/
structure Point where
  x : ℝ
  y : ℝ

/-- A colour: one of the hexadecimal strings of `randomColor`, or the string
`hsl(<hue>, 70%, 60%)` of an ordinary orb, kept as its hue. -/
inductive Color where
  | hex (code : String)
  | hsl (hue : ℝ)

/-- An orb `{ x, y, color, radius, value }`.  The value is a count of segments; the source
only ever stores `CONFIG.ORB_VALUE = 1` or `2` there. -/
structure Orb where
  x : ℝ
  y : ℝ
  color : Color
  radius : ℝ
  value : ℕ

/-- The fields of `class Snake`. -/
structure Snake where
  id : String
  nickname : String
  segments : List Point
  direction : Point
  speed : ℝ
  boosting : Bool
  color : Color
  alive : Bool

/-- A message handed to the transport, with the socket id `dest` it is addressed to:
`socket.emit('init', ..)` and `io.to(dest).emit('player_died', ..)`. -/
inductive Emit where
  | init (dest playerId : String) (mapSize : ℝ)
  | player_died (dest killerId killerName : String) (score : ℤ)

/-- The `gameState` object with the two effects of the process around it: `snakes` are the
values of the `Map` in insertion order, `emitted` is the log of messages sent so far and
`draws` the number of `Math.random()` calls made so far.  (`lastUpdate`, a wall-clock
stamp that nothing reads back, is left out.) -/
structure World where
  snakes : List Snake
  orbs : List Orb
  emitted : List Emit
  draws : ℕ

/-! ## `class Snake` -/

/-- The table of `randomColor`. -/
def colors : List String :=
  ["#FF6B6B", "#4ECDC4", "#45B7D1", "#FFA07A", "#98D8C8", "#F7DC6F", "#BB8FCE", "#85C1E2"]

/-- The method `randomColor()`, on the draw `u`: `colors[Math.floor(u * colors.length)]`. -/
def randomColor (u : Random) : Color :=
  Color.hex (colors.getD ⌊u.val * (colors.length : ℝ)⌋.toNat "")

/-- The loop of the constructor: `segments.push({ x: x - i * SEGMENT_RADIUS, y })` for
`i = 0 .. INITIAL_SNAKE_LENGTH - 1`. -/
def initialSegments (x y : ℝ) : List Point :=
  (List.range INITIAL_SNAKE_LENGTH).map
    (fun (i : ℕ) => { x := x - (i : ℝ) * SEGMENT_RADIUS, y := y })

/-- The constructor `new Snake(id, nickname, x, y)`; `u` is the draw of `randomColor`.  A
missing or empty nickname is falsy and replaced by `Player` followed by the first four
characters of the id. -/
def Snake.new (id : String) (nickname : Option String) (x y : ℝ) (u : Random) : Snake :=
  { id := id
    nickname := match nickname with
      | none => "Player" ++ id.take 4
      | some n => if n = "" then "Player" ++ id.take 4 else n
    segments := initialSegments x y
    direction := { x := 1, y := 0 }
    speed := BASE_SPEED
    boosting := false
    color := randomColor u
    alive := true }

/-- The getter `score`: `Math.floor((segments.length - INITIAL_SNAKE_LENGTH) * 10)`. -/
def Snake.score (s : Snake) : ℤ :=
  ⌊((s.segments.length : ℝ) - (INITIAL_SNAKE_LENGTH : ℝ)) * 10⌋

/-- The getter `radius`: `SEGMENT_RADIUS + Math.sqrt(segments.length) * 0.3`. -/
def Snake.radius (s : Snake) : ℝ :=
  SEGMENT_RADIUS + Real.sqrt (s.segments.length : ℝ) * 0.3

/-- The method `setDirection(mouseX, mouseY)`, computed on `JSNumber`s as the program
computes it on doubles.  It is `none` when there is no head to read (a `TypeError`), and
also when a component of the heading it stores is not finite (`NaN`, which comes from an
infinite offset): `direction` is a real-valued `Point` and cannot hold it, so such a call
is outside this model. -/
def Snake.setDirection (s : Snake) (mouseX mouseY : JSNumber) : Option Snake :=
  match s.segments with
  | [] => none
  | head :: _ =>
    let dx := mouseX.sub (JSNumber.finite head.x)
    let dy := mouseY.sub (JSNumber.finite head.y)
    let distance := ((dx.mul dx).add (dy.mul dy)).sqrt
    if distance.gtZero then
      match dx.div distance, dy.div distance with
      | JSNumber.finite a, JSNumber.finite b => some { s with direction := { x := a, y := b } }
      | _, _ => none
    else some s

/-- The boost loop of `update`:
`for (let i = 0; i < lossAmount && segments.length > INITIAL_SNAKE_LENGTH; i++) segments.pop()`,
entered at counter `i`. -/
def boostLoop (i : ℕ) (segs : List Point) : List Point :=
  if (i : ℝ) < BOOST_LOSS ∧ segs.length > INITIAL_SNAKE_LENGTH then
    boostLoop (i + 1) segs.dropLast
  else segs
termination_by segs.length
decreasing_by
  rename_i h
  simp only [List.length_dropLast]
  have := h.2
  omega

/-- The wrap of `update` on one axis: `(v + MAP_SIZE) % MAP_SIZE`. -/
def wrap (v : ℝ) : ℝ := jsMod (v + MAP_SIZE) MAP_SIZE

/-- The local `speed` of `update`: `this.boosting ? BOOST_SPEED : BASE_SPEED`. -/
def Snake.stepSpeed (s : Snake) : ℝ := if s.boosting then BOOST_SPEED else BASE_SPEED

/-- The point `update` prepends when the head is `head`: the head moved by `direction * speed`
and wrapped on each axis. -/
def Snake.newHead (s : Snake) (head : Point) : Point :=
  { x := wrap (head.x + s.direction.x * s.stepSpeed)
    y := wrap (head.y + s.direction.y * s.stepSpeed) }

/-- The method `update()`; `none` when the snake is alive and has no head to read. -/
def Snake.update (s : Snake) : Option Snake :=
  if !s.alive then some s
  else
    match s.segments with
    | [] => none
    | head :: _ =>
      let speed := s.stepSpeed
      let newHead : Point :=
        { x := head.x + s.direction.x * speed, y := head.y + s.direction.y * speed }
      let newHead : Point := { x := wrap newHead.x, y := wrap newHead.y }
      let segments := newHead :: s.segments
      if s.boosting ∧ segments.length > INITIAL_SNAKE_LENGTH + 5 then
        some { s with segments := boostLoop 0 segments }
      else
        some { s with segments := segments.dropLast }

/-- The method `grow(amount)`: pushes `amount` copies of the last segment.  On an empty body the
source pushes objects without coordinates, which `Point` does not represent: `none`. -/
def Snake.grow (s : Snake) (amount : ℕ) : Option Snake :=
  match s.segments.getLast? with
  | none => none
  | some tail => some { s with segments := s.segments ++ List.replicate amount tail }

/-- The loop of `die`: `for (let i = ..; i < segments.length; i += 2) orbs.push(..)`,
entered at index `i` with the orbs pushed so far. -/
def dieLoop (segments : List Point) (color : Color) (i : ℕ) (orbs : List Orb) : List Orb :=
  if h : i < segments.length then
    dieLoop segments color (i + 2)
      (orbs ++ [{ x := segments[i].x, y := segments[i].y, color := color, radius := 6,
                  value := 2 }])
  else orbs
termination_by segments.length - i

/-- The method `die()`: the snake with `alive = false` and the returned orbs. -/
def Snake.die (s : Snake) : Snake × List Orb :=
  ({ s with alive := false }, dieLoop s.segments s.color 0 [])

/-! ## Orbs and collisions -/

/-- The orb literal of `generateOrbs` and of the pickup, from three consecutive draws. -/
def randomOrb (rng : ℕ → Random) (n : ℕ) : Orb :=
  { x := (rng n).val * MAP_SIZE
    y := (rng (n + 1)).val * MAP_SIZE
    color := Color.hsl ((rng (n + 2)).val * 360)
    radius := 4
    value := ORB_VALUE }

/-- The function `checkCollision(x1, y1, r1, x2, y2, r2)`. -/
def checkCollision (x1 y1 r1 x2 y2 r2 : ℝ) : Prop :=
  let dx := x1 - x2
  let dy := y1 - y2
  let distance := Real.sqrt (dx * dx + dy * dy)
  distance < r1 + r2

instance (x1 y1 r1 x2 y2 r2 : ℝ) : Decidable (checkCollision x1 y1 r1 x2 y2 r2) :=
  Classical.propDecidable _

/-- The point `(x, y)` of the Euclidean plane, to state distances against. -/
def euclid (x y : ℝ) : EuclideanSpace ℝ (Fin 2) := (WithLp.equiv 2 (Fin 2 → ℝ)).symm ![x, y]

/-- The function `generateOrbs()`: `ORB_COUNT` orbs, three draws each, from the start of
the random sequence. -/
def generateOrbs (rng : ℕ → Random) : List Orb :=
  (List.range ORB_COUNT).map (fun i => randomOrb rng (3 * i))

/-- Every other element of a list, from the first: the indices `0, 2, 4, ..`. -/
def everyOther {α : Type} : List α → List α
  | a :: _ :: t => a :: everyOther t
  | [a] => [a]
  | [] => []

/-- The orb literal pushed by `die` for one segment. -/
def bodyOrb (color : Color) (seg : Point) : Orb :=
  { x := seg.x, y := seg.y, color := color, radius := 6, value := 2 }

/-! ## `gameLoop` -/

/-- The pickup loop `for (let i = orbs.length - 1; i >= 0; i--)` of `gameLoop` for the snake
`snake` with head `head`, entered with `i + 1` equal to the first argument.  On a hit the
snake grows by the value of the orb, the orb is spliced out and a fresh one is pushed. -/
def orbLoop (rng : ℕ → Random) (head : Point) :
    ℕ → Snake → List Orb → ℕ → Option (Snake × List Orb × ℕ)
  | 0, snake, orbs, draws => some (snake, orbs, draws)
  | i + 1, snake, orbs, draws =>
    match orbs[i]? with
    | none => none
    | some orb =>
      if checkCollision head.x head.y snake.radius orb.x orb.y orb.radius then
        match snake.grow orb.value with
        | none => none
        | some grown =>
          orbLoop rng head i grown (orbs.eraseIdx i ++ [randomOrb rng draws]) (draws + 3)
      else orbLoop rng head i snake orbs draws

/-- The head-versus-body loop `for (let i = ..; i < otherSnake.segments.length; i++)`,
entered at index `i` (the source enters it at 3): `true` when it reaches a segment that
collides, at which point the source runs the death branch and returns. -/
def bodyLoop (head : Point) (snake otherSnake : Snake) (i : ℕ) : Bool :=
  if h : i < otherSnake.segments.length then
    if checkCollision head.x head.y snake.radius
        otherSnake.segments[i].x otherSnake.segments[i].y otherSnake.radius then true
    else bodyLoop head snake otherSnake (i + 1)
  else false
termination_by otherSnake.segments.length - i

/-- The callback of the inner `gameState.snakes.forEach(otherSnake => ..)`, on the snake
being processed, the orbs and the log. -/
def collideWith (head : Point) (st : Snake × List Orb × List Emit) (otherSnake : Snake) :
    Snake × List Orb × List Emit :=
  if st.1.id = otherSnake.id ∨ otherSnake.alive = false then st
  else if bodyLoop head st.1 otherSnake 3 then
    ((st.1.die).1, st.2.1 ++ (st.1.die).2,
      st.2.2 ++ [Emit.player_died st.1.id otherSnake.id otherSnake.nickname (st.1.die).1.score])
  else st

/-- The callback of the outer `gameState.snakes.forEach(snake => ..)` for the snake at
position `k` of the map. -/
def processSnake (rng : ℕ → Random) (k : ℕ) (w : World) : Option World :=
  match w.snakes[k]? with
  | none => some w
  | some snake =>
    if snake.alive = false then some w
    else
      match snake.update with
      | none => none
      | some moved =>
        match moved.segments with
        | [] => none
        | head :: _ =>
          match orbLoop rng head w.orbs.length moved w.orbs w.draws with
          | none => none
          | some (fed, orbs, draws) =>
            let st := (w.snakes.set k fed).foldl (collideWith head) (fed, orbs, w.emitted)
            some { snakes := w.snakes.set k st.1, orbs := st.2.1, emitted := st.2.2,
                   draws := draws }

/-- The outer loop run over the positions `ks` of the map. -/
def runSnakes (rng : ℕ → Random) (ks : List ℕ) (w : World) : Option World :=
  ks.foldlM (fun w k => processSnake rng k w) w

/-- The function `gameLoop()`: every position of the map, in insertion order.  The closing
`forEach` only schedules `gameState.snakes.delete(id)` for the snakes that are not alive;
that deferred removal is the step `disconnect` below. -/
def gameLoop (rng : ℕ → Random) (w : World) : Option World :=
  runSnakes rng (List.range w.snakes.length) w

/-! ## Descriptions of the two passes of `gameLoop`, to state its behaviour against -/

/-- The `m` replacement orbs pushed from the position `draws` of the random sequence on. -/
def freshOrbs (rng : ℕ → Random) (draws m : ℕ) : List Orb :=
  (List.range m).map (fun j => randomOrb rng (draws + 3 * j))

/-- One orb met by the pickup pass of a snake whose last segment is `tail`: when the head
circle overlaps the orb the snake gets `value` more copies of `tail` and the orb is dropped,
otherwise the orb is kept. -/
def pickStep (head tail : Point) (orb : Orb) (acc : Snake × List Orb) : Snake × List Orb :=
  if checkCollision head.x head.y acc.1.radius orb.x orb.y orb.radius then
    ({ acc.1 with segments := acc.1.segments ++ List.replicate orb.value tail }, acc.2)
  else (acc.1, orb :: acc.2)

/-- The pickup pass described on the list of orbs: the orbs are met from the last to the
first, each tested against the snake as grown so far.  Returns the snake after the pass and
the orbs that stay, in their order. -/
def sweep (head tail : Point) (snake : Snake) (orbs : List Orb) : Snake × List Orb :=
  orbs.foldr (pickStep head tail) (snake, [])

/-- The test the inner `forEach` makes on `otherSnake` before it runs its death branch:
another id, alive, and a body segment of index at least 3 that the head circle overlaps. -/
def hits (head : Point) (snake otherSnake : Snake) : Bool :=
  decide (snake.id ≠ otherSnake.id) && otherSnake.alive && bodyLoop head snake otherSnake 3

/-- The snakes of `others` whose body (from index 3 on) the head circle of `snake` overlaps,
among those that are alive and have another id: the snakes for which the inner `forEach`
runs its death branch. -/
def hitters (head : Point) (snake : Snake) (others : List Snake) : List Snake :=
  others.filter (hits head snake)

/-- The snake `update` returns for an alive snake with body `head :: rest`. -/
def Snake.moved (s : Snake) (head : Point) (rest : List Point) : Snake :=
  { s with segments := s.newHead head :: (head :: rest).dropLast }

/-- The world after the callback of the outer `forEach` for the snake at position `k`, which
has moved to `moved` (head `head`, last segment `tail`): the pickup pass is the `sweep` of the
orbs, followed by one death branch for every snake of `hitters`. -/
def processed (rng : ℕ → Random) (k : ℕ) (w : World) (moved : Snake) (head tail : Point) :
    World :=
  let fed := (sweep head tail moved w.orbs).1
  let kept := (sweep head tail moved w.orbs).2
  let struck := hitters head fed w.snakes
  { snakes := w.snakes.set k (if struck.isEmpty then fed else (fed.die).1)
    orbs := kept ++ freshOrbs rng w.draws (w.orbs.length - kept.length)
              ++ struck.flatMap (fun _ => (fed.die).2)
    emitted := w.emitted ++ struck.map
      (fun o => Emit.player_died fed.id o.id o.nickname fed.score)
    draws := w.draws + 3 * (w.orbs.length - kept.length) }

/-- The snake with its `alive` flag set to `b`. -/
def Snake.setAlive (s : Snake) (b : Bool) : Snake := { s with alive := b }

/-- Every snake of the map has a head. -/
def Bodies (w : World) : Prop := ∀ s ∈ w.snakes, s.segments ≠ []

/-- Every snake of the map has at least `INITIAL_SNAKE_LENGTH` segments. -/
def MinLength (w : World) : Prop := ∀ s ∈ w.snakes, INITIAL_SNAKE_LENGTH ≤ s.segments.length

/-! ## The `Map` of snakes and the socket handlers -/

/-- The lookup `gameState.snakes.get(id)`. -/
def mapGet (snakes : List Snake) (id : String) : Option Snake :=
  snakes.find? (fun s => s.id = id)

/-- The update `gameState.snakes.set(snake.id, snake)`: replaces the value of an existing
key in place, appends a new key. -/
def mapSet : List Snake → Snake → List Snake
  | [], v => [v]
  | s :: rest, v => if s.id = v.id then v :: rest else s :: mapSet rest v

/-- The removal `gameState.snakes.delete(id)`. -/
def mapDelete (snakes : List Snake) (id : String) : List Snake :=
  snakes.filter (fun s => s.id ≠ id)

/-- The state after start-up: no snake, the orbs of `generateOrbs()`. -/
def initial (rng : ℕ → Random) : World :=
  { snakes := [], orbs := generateOrbs rng, emitted := [], draws := 3 * ORB_COUNT }

/-- Handler of `join` for the socket `socketId`. -/
def join (rng : ℕ → Random) (socketId : String) (nickname : Option String) (w : World) : World :=
  let x := (rng w.draws).val * MAP_SIZE
  let y := (rng (w.draws + 1)).val * MAP_SIZE
  let snake := Snake.new socketId nickname x y (rng (w.draws + 2))
  { snakes := mapSet w.snakes snake
    orbs := w.orbs
    emitted := w.emitted ++ [Emit.init socketId socketId MAP_SIZE]
    draws := w.draws + 3 }

/-- Handler of `mouse_move` with payload `{ x, y }`, two numbers. -/
def mouse_move (socketId : String) (x y : JSNumber) (w : World) : Option World :=
  match mapGet w.snakes socketId with
  | none => some w
  | some snake =>
    if snake.alive then
      match snake.setDirection x y with
      | none => none
      | some turned => some { w with snakes := mapSet w.snakes turned }
    else some w

/-- Handler of `boost_start`. -/
def boost_start (socketId : String) (w : World) : World :=
  match mapGet w.snakes socketId with
  | none => w
  | some snake =>
    if snake.alive then { w with snakes := mapSet w.snakes { snake with boosting := true } }
    else w

/-- Handler of `boost_end`. -/
def boost_end (socketId : String) (w : World) : World :=
  match mapGet w.snakes socketId with
  | none => w
  | some snake =>
    if snake.alive then { w with snakes := mapSet w.snakes { snake with boosting := false } }
    else w

/-- Handler of `disconnect`; the timer set by `gameLoop` for a dead snake runs the same
`gameState.snakes.delete(id)`. -/
def disconnect (socketId : String) (w : World) : World :=
  { w with snakes := mapDelete w.snakes socketId }

/-- The worlds the server can be in: from start-up through any sequence of handler calls
and ticks that do not throw and that store no heading with a `NaN` component. -/
inductive Reachable (rng : ℕ → Random) : World → Prop where
  | start : Reachable rng (initial rng)
  | join {w : World} (socketId : String) (nickname : Option String) :
      Reachable rng w → Reachable rng (join rng socketId nickname w)
  | mouse_move {w w' : World} (socketId : String) (x y : JSNumber) :
      Reachable rng w → mouse_move socketId x y w = some w' → Reachable rng w'
  | boost_start {w : World} (socketId : String) :
      Reachable rng w → Reachable rng (boost_start socketId w)
  | boost_end {w : World} (socketId : String) :
      Reachable rng w → Reachable rng (boost_end socketId w)
  | disconnect {w : World} (socketId : String) :
      Reachable rng w → Reachable rng (disconnect socketId w)
  | tick {w w' : World} :
      Reachable rng w → gameLoop rng w = some w' → Reachable rng w'

/-! ## Snapshots: `toJSON`, `getLeaderboard`, `getVisibleEntities` -/

/-- The object `toJSON()` returns. -/
structure SnakeJSON where
  id : String
  nickname : String
  segments : List Point
  color : Color
  score : ℤ
  radius : ℝ

/-- The method `toJSON()`; `segments.slice(0, 50)` is the first 50 segments, or all of
them when there are fewer. -/
def Snake.toJSON (s : Snake) : SnakeJSON :=
  { id := s.id
    nickname := s.nickname
    segments := s.segments.take 50
    color := s.color
    score := s.score
    radius := s.radius }

/-- An entry `{ nickname, score }` of the leaderboard. -/
structure LeaderboardEntry where
  nickname : String
  score : ℤ

/-- The comparator `(a, b) => b.score - a.score` of `getLeaderboard`, as the order it asks
for: `a` may stand before `b` when `b.score - a.score` is not positive. -/
def scoreOrder (a b : Snake) : Bool := decide (b.score - a.score ≤ 0)

/-- The function `getLeaderboard()`.  `Array.prototype.sort` is a stable sort (ECMAScript
2019), and the result of a stable sort by a consistent comparator does not depend on the
algorithm: it is modelled by the stable `List.mergeSort`. -/
def getLeaderboard (w : World) : List LeaderboardEntry :=
  ((((w.snakes.filter (fun s => s.alive)).mergeSort scoreOrder).take 10).map
    (fun s => { nickname := s.nickname, score := s.score }))

/-- The object `{ snakes, orbs }` that `getVisibleEntities` returns. -/
structure Visible where
  snakes : List SnakeJSON
  orbs : List Orb

/-- The distance both filters of `getVisibleEntities` compute, from the point `(x, y)` to
the head of the recipient: `Math.sqrt(Math.pow(x - head.x, 2) + Math.pow(y - head.y, 2))`. -/
def viewDist (x y : ℝ) (head : Point) : ℝ :=
  Real.sqrt ((x - head.x) ^ 2 + (y - head.y) ^ 2)

/-- The second `filter` over the snakes in `getVisibleEntities`, which reads the head
`s.segments[0]` of every snake it meets: `none` when one of them has no head. -/
def visibleSnakes (head : Point) : List Snake → Option (List Snake)
  | [] => some []
  | s :: rest =>
    match s.segments with
    | [] => none
    | h :: _ =>
      match visibleSnakes head rest with
      | none => none
      | some vis =>
        if viewDist h.x h.y head < VIEW_DISTANCE then some (s :: vis) else some vis

/-- The function `getVisibleEntities(playerId)`.  When the recipient is alive and has no
head, the first snake the filter meets makes it read `.x` of `undefined`: `none`. -/
def getVisibleEntities (playerId : String) (w : World) : Option Visible :=
  match mapGet w.snakes playerId with
  | none => some { snakes := [], orbs := [] }
  | some snake =>
    if snake.alive = false then some { snakes := [], orbs := [] }
    else
      match snake.segments with
      | [] => none
      | head :: _ =>
        match visibleSnakes head (w.snakes.filter (fun s => s.alive)) with
        | none => none
        | some vis =>
          some { snakes := vis.map Snake.toJSON
                 orbs := w.orbs.filter
                   (fun orb => decide (viewDist orb.x orb.y head < VIEW_DISTANCE)) }

/-! ## Descriptions to state the remaining claims against -/

/-- The point `p` is in view of a recipient whose head is `head`: its Euclidean distance to
the head is strictly less than `VIEW_DISTANCE`. -/
def inView (head p : Point) : Prop :=
  dist (euclid p.x p.y) (euclid head.x head.y) < VIEW_DISTANCE

/-- The snake `s` has a head, and it is in view of a recipient whose head is `head`. -/
def headInView (head : Point) (s : Snake) : Prop :=
  ∃ h tl, s.segments = h :: tl ∧ inView head h

/-- The snake `s` is one a recipient with head `head` sees: it is alive and its head is in
view. -/
def seenFrom (head : Point) (s : Snake) : Prop :=
  s.alive = true ∧ headInView head s

instance (head p : Point) : Decidable (inView head p) := Classical.propDecidable _

instance (head : Point) (s : Snake) : Decidable (headInView head s) :=
  Classical.propDecidable _

instance (head : Point) (s : Snake) : Decidable (seenFrom head s) := Classical.propDecidable _

/-- The collision test without the square root: the squared distance of the centres against
the squared sum of the radii. -/
def checkCollisionSq (x1 y1 r1 x2 y2 r2 : ℝ) : Prop :=
  (x1 - x2) ^ 2 + (y1 - y2) ^ 2 < (r1 + r2) ^ 2

/-- The snake after `n` calls of `update()` in a row. -/
def updateN : ℕ → Snake → Option Snake
  | 0, s => some s
  | n + 1, s => (s.update).bind (updateN n)

/-- The offsets `dx`, `dy` of a target from the head are in range for `setDirection`:
each is zero or has a square of at least `MIN_NORMAL` (a magnitude of at least `2^(-511)`),
and the squared distance `dx² + dy²` stays below `OVERFLOW`. -/
def InRange (dx dy : ℝ) : Prop :=
  (dx = 0 ∨ MIN_NORMAL ≤ dx ^ 2) ∧ (dy = 0 ∨ MIN_NORMAL ≤ dy ^ 2) ∧ dx ^ 2 + dy ^ 2 < OVERFLOW

/-- The target `(x, y)` of a `mouse_move` is in range in the world `w`: when the socket has
an alive snake with a head in `w`, both coordinates are finite and their offsets from that
head are in range. -/
def TargetInRange (w : World) (socketId : String) (x y : JSNumber) : Prop :=
  ∀ snake head tl, mapGet w.snakes socketId = some snake → snake.alive = true →
    snake.segments = head :: tl →
    ∃ a b, x = JSNumber.finite a ∧ y = JSNumber.finite b ∧ InRange (a - head.x) (b - head.y)

/-- The worlds the server can be in when every `mouse_move` it has received had its target
in range: `Reachable` with that one condition more. -/
inductive ReachableInRange (rng : ℕ → Random) : World → Prop where
  | start : ReachableInRange rng (initial rng)
  | join {w : World} (socketId : String) (nickname : Option String) :
      ReachableInRange rng w → ReachableInRange rng (join rng socketId nickname w)
  | mouse_move {w w' : World} (socketId : String) (x y : JSNumber) :
      ReachableInRange rng w → TargetInRange w socketId x y →
      mouse_move socketId x y w = some w' → ReachableInRange rng w'
  | boost_start {w : World} (socketId : String) :
      ReachableInRange rng w → ReachableInRange rng (boost_start socketId w)
  | boost_end {w : World} (socketId : String) :
      ReachableInRange rng w → ReachableInRange rng (boost_end socketId w)
  | disconnect {w : World} (socketId : String) :
      ReachableInRange rng w → ReachableInRange rng (disconnect socketId w)
  | tick {w w' : World} :
      ReachableInRange rng w → gameLoop rng w = some w' → ReachableInRange rng w'

/-- The heading `d` has Euclidean norm 1. -/
def UnitHeading (d : Point) : Prop := d.x ^ 2 + d.y ^ 2 = 1

/-- Both components of the heading `d` are at most 1 in magnitude. -/
def BoundedHeading (d : Point) : Prop := |d.x| ≤ 1 ∧ |d.y| ≤ 1

/-- The snake has a head inside the map and a heading that satisfies `N`. -/
def PlacedWith (N : Point → Prop) (s : Snake) : Prop :=
  ∃ head tl, s.segments = head :: tl ∧ (0 ≤ head.x ∧ head.x < MAP_SIZE) ∧
    (0 ≤ head.y ∧ head.y < MAP_SIZE) ∧ N s.direction

/-- The snake has a head inside the map and a heading of Euclidean norm 1. -/
def Placed (s : Snake) : Prop := PlacedWith UnitHeading s

/-! ## Concrete inputs -/

/-- The draw `0`. -/
def draw0 : Random := ⟨0, le_refl 0, one_pos⟩

/-- A snake as `new Snake("a", undefined, 4999, 100)` builds it: its head is one unit
from the right edge of the map and it heads right. -/
def edgeSnake : Snake := Snake.new "a" none 4999 100 draw0

/-- A snake as `new Snake("a", undefined, -6000, 0)` builds it: its head is more than one
map width left of the map. -/
def farSnake : Snake := Snake.new "a" none (-6000) 0 draw0

/-- The snake of the scenario: `new Snake("a", undefined, 100, 100)`, ten segments, head
`(100, 100)`, heading `(1, 0)`, not boosting. -/
def scenarioSnake : Snake := Snake.new "a" none 100 100 draw0

/-- The random sequence that always draws `0`. -/
def rng0 : ℕ → Random := fun _ => draw0

/-- A snake heading left along `y = 110`, its head at `(80, 110)` and its ten segments 2.5
apart, as left behind by ten base-speed steps to the left. -/
def leftSnake : Snake :=
  { id := "b"
    nickname := "b"
    segments := [⟨80, 110⟩, ⟨82.5, 110⟩, ⟨85, 110⟩, ⟨87.5, 110⟩, ⟨90, 110⟩, ⟨92.5, 110⟩,
      ⟨95, 110⟩, ⟨97.5, 110⟩, ⟨100, 110⟩, ⟨102.5, 110⟩]
    direction := { x := -1, y := 0 }
    speed := BASE_SPEED
    boosting := false
    color := Color.hex "#4ECDC4"
    alive := true }

/-- Two snakes side by side, heading in opposite directions: `scenarioSnake` heads right
along `y = 100` and `leftSnake` heads left along `y = 110`; after one step the head of each
is over the body of the other.  There is no orb. -/
def duelWorld : World :=
  { snakes := [scenarioSnake, leftSnake], orbs := [], emitted := [], draws := 0 }

/-- A world with `scenarioSnake` alone and no orb. -/
def soloWorld : World :=
  { snakes := [scenarioSnake], orbs := [], emitted := [], draws := 0 }

/-- A snake as `new Snake("a", undefined, 4997.5, 0)` builds it: one base-speed step right
takes its head across the edge to `(0, 0)`. -/
def cornerSnake : Snake := Snake.new "a" none 4997.5 0 draw0

/-- The snake `cornerSnake.update()` returns. -/
def cornerMoved : Snake :=
  cornerSnake.moved ⟨4997.5, 0⟩ [⟨4997.5 - 8, 0⟩, ⟨4997.5 - 16, 0⟩, ⟨4997.5 - 24, 0⟩,
    ⟨4997.5 - 32, 0⟩, ⟨4997.5 - 40, 0⟩, ⟨4997.5 - 48, 0⟩, ⟨4997.5 - 56, 0⟩,
    ⟨4997.5 - 64, 0⟩, ⟨4997.5 - 72, 0⟩]

/-- The world of the pickup scenario: `cornerSnake` alone and one orb of radius 4 and value
1 at `(8, 0)`. -/
def pickupWorld : World :=
  { snakes := [cornerSnake]
    orbs := [{ x := 8, y := 0, color := Color.hsl 0, radius := 4, value := 1 }]
    emitted := []
    draws := 0 }

/-- The snake `scenarioSnake.update()` returns. -/
def scenarioMoved : Snake :=
  scenarioSnake.moved ⟨100, 100⟩ [⟨100 - 8, 100⟩, ⟨100 - 16, 100⟩, ⟨100 - 24, 100⟩,
    ⟨100 - 32, 100⟩, ⟨100 - 40, 100⟩, ⟨100 - 48, 100⟩, ⟨100 - 56, 100⟩, ⟨100 - 64, 100⟩,
    ⟨100 - 72, 100⟩]

/-- A snake as `new Snake("b", "B", 126.5, 109.5)` builds it: it lies 9.5 above the line of
`scenarioSnake`, its head 26.5 further right. -/
def upperSnake : Snake := Snake.new "b" (some "B") 126.5 109.5 draw0

/-- The snake `upperSnake.update()` returns. -/
def upperMoved : Snake :=
  upperSnake.moved ⟨126.5, 109.5⟩ [⟨126.5 - 8, 109.5⟩, ⟨126.5 - 16, 109.5⟩,
    ⟨126.5 - 24, 109.5⟩, ⟨126.5 - 32, 109.5⟩, ⟨126.5 - 40, 109.5⟩, ⟨126.5 - 48, 109.5⟩,
    ⟨126.5 - 56, 109.5⟩, ⟨126.5 - 64, 109.5⟩, ⟨126.5 - 72, 109.5⟩]

/-- A snake as `new Snake("c", "C", 126.5, 90.5)` builds it: it lies 9.5 below the line of
`scenarioSnake`, its head 26.5 further right. -/
def lowerSnake : Snake := Snake.new "c" (some "C") 126.5 90.5 draw0

/-- The snake `lowerSnake.update()` returns. -/
def lowerMoved : Snake :=
  lowerSnake.moved ⟨126.5, 90.5⟩ [⟨126.5 - 8, 90.5⟩, ⟨126.5 - 16, 90.5⟩,
    ⟨126.5 - 24, 90.5⟩, ⟨126.5 - 32, 90.5⟩, ⟨126.5 - 40, 90.5⟩, ⟨126.5 - 48, 90.5⟩,
    ⟨126.5 - 56, 90.5⟩, ⟨126.5 - 64, 90.5⟩, ⟨126.5 - 72, 90.5⟩]

/-- Three snakes built by the constructor, no orb: `scenarioSnake`, last in the map, heads
right between the bodies of `upperSnake` and `lowerSnake`, so that after its step its head
circle overlaps a body segment of each. -/
def tripleWorld : World :=
  { snakes := [upperSnake, lowerSnake, scenarioSnake], orbs := [], emitted := [], draws := 0 }

/-- An alive snake of 20 segments that is boosting, heading right along `y = 100`. -/
def boostSnake : Snake :=
  { id := "a"
    nickname := "a"
    segments := (List.range 20).map (fun (i : ℕ) => ({ x := 1000 - (i : ℝ) * 8, y := 100 } : Point))
    direction := { x := 1, y := 0 }
    speed := BASE_SPEED
    boosting := true
    color := Color.hex "#FF6B6B"
    alive := true }

/-- A world with `scenarioSnake` (head `(100, 100)`) and two orbs on its line: one exactly
`VIEW_DISTANCE` from its head, at `(1300, 100)`, and one a unit closer, at `(1299, 100)`. -/
def viewWorld : World :=
  { snakes := [scenarioSnake]
    orbs := [{ x := 1300, y := 100, color := Color.hsl 0, radius := 4, value := 1 },
             { x := 1299, y := 100, color := Color.hsl 0, radius := 4, value := 1 }]
    emitted := []
    draws := 0 }

/-- A world whose only snake, `"a"`, is not alive: the state between the tick in which a
snake dies and its removal by the timer. -/
def deadWorld : World :=
  { snakes := [scenarioSnake.setAlive false], orbs := [], emitted := [], draws := 0 }

/-- A snake as `new Snake("a", undefined, 0, 0)` builds it: its head is at `(0, 0)` and it
heads right. -/
def joinedSnake : Snake := Snake.new "a" none 0 0 draw0

/-- The world after start-up and `join` of the socket `"a"`, with the draws of `rng0`: its
one snake is `joinedSnake`. -/
def joinedWorld : World := join rng0 "a" none (initial rng0)

/-! ## Basic facts -/

theorem dist_euclid (x1 y1 x2 y2 : ℝ) :
    dist (euclid x1 y1) (euclid x2 y2)
      = Real.sqrt ((x1 - x2) * (x1 - x2) + (y1 - y2) * (y1 - y2)) := by
  rw [EuclideanSpace.dist_eq]
  simp [Fin.sum_univ_two, sq, euclid, Real.dist_eq, abs_mul_abs_self]

/-- On a non-negative dividend and a positive divisor the remainder is the mathematical
one: it lies in `[0, m)`. -/
theorem jsMod_mem (a m : ℝ) (ha : 0 ≤ a) (hm : 0 < m) : 0 ≤ jsMod a m ∧ jsMod a m < m := by
  have hq : 0 ≤ a / m := div_nonneg ha hm.le
  have h1 : (⌊a / m⌋ : ℝ) ≤ a / m := Int.floor_le _
  have h2 : a / m < (⌊a / m⌋ : ℝ) + 1 := Int.lt_floor_add_one _
  have h3 : a = m * (a / m) := by field_simp
  unfold jsMod jsTrunc
  rw [if_pos hq]
  constructor
  · nlinarith
  · nlinarith

/-- The remainder of `k * m + r` for a natural `k` and `r` in `[0, m)` is `r`. -/
theorem jsMod_add_mul (r m : ℝ) (k : ℕ) (hr : 0 ≤ r) (hrm : r < m) :
    jsMod ((k : ℝ) * m + r) m = r := by
  have hm : 0 < m := lt_of_le_of_lt hr hrm
  have hq : (k : ℝ) * m + r = m * ((k : ℝ) + r / m) := by field_simp
  have hfl : ⌊((k : ℝ) * m + r) / m⌋ = (k : ℤ) := by
    rw [Int.floor_eq_iff]
    have e : ((k : ℝ) * m + r) / m = (k : ℝ) + r / m := by field_simp
    rw [e]
    have h0 : 0 ≤ r / m := div_nonneg hr hm.le
    have h1 : r / m < 1 := (div_lt_one hm).2 hrm
    push_cast
    constructor <;> linarith
  have hnn : 0 ≤ ((k : ℝ) * m + r) / m :=
    div_nonneg (add_nonneg (mul_nonneg (Nat.cast_nonneg k) hm.le) hr) hm.le
  unfold jsMod jsTrunc
  rw [if_pos hnn, hfl]
  push_cast
  ring

theorem wrap_mem (v : ℝ) (hv : -MAP_SIZE ≤ v) : 0 ≤ wrap v ∧ wrap v < MAP_SIZE := by
  unfold wrap
  exact jsMod_mem _ _ (by linarith) (by norm_num [MAP_SIZE])

theorem boostLoop_zero (segs : List Point) :
    boostLoop 0 segs = if segs.length > INITIAL_SNAKE_LENGTH then segs.dropLast else segs := by
  rw [boostLoop]
  by_cases h : segs.length > INITIAL_SNAKE_LENGTH
  · have h0 : ((0 : ℕ) : ℝ) < BOOST_LOSS := by norm_num [BOOST_LOSS]
    rw [if_pos ⟨h0, h⟩, if_pos h, boostLoop]
    have h1 : ¬ ((((0 : ℕ) + 1 : ℕ) : ℝ) < BOOST_LOSS) := by norm_num [BOOST_LOSS]
    rw [if_neg (fun hh => h1 hh.1)]
  · rw [if_neg (fun hh => h hh.2), if_neg h]

/-- What `update` does to an alive snake with a head: in both branches of the boost test
exactly one tail segment goes. -/
theorem Snake.update_eq (s : Snake) (head : Point) (rest : List Point)
    (hs : s.segments = head :: rest) (ha : s.alive = true) :
    s.update = some { s with segments := s.newHead head :: (head :: rest).dropLast } := by
  unfold Snake.update
  simp only [ha, hs, Bool.not_true, Bool.false_eq_true, if_false]
  split
  · rename_i hb
    rw [boostLoop_zero, if_pos]
    · simp [Snake.newHead]
    · have := hb.2
      simp only [INITIAL_SNAKE_LENGTH] at this ⊢
      omega
  · simp [Snake.newHead]

theorem initialSegments_eq (x y : ℝ) :
    initialSegments x y =
      [⟨x, y⟩, ⟨x - 8, y⟩, ⟨x - 16, y⟩, ⟨x - 24, y⟩, ⟨x - 32, y⟩, ⟨x - 40, y⟩, ⟨x - 48, y⟩,
        ⟨x - 56, y⟩, ⟨x - 64, y⟩, ⟨x - 72, y⟩] := by
  simp [initialSegments, INITIAL_SNAKE_LENGTH, SEGMENT_RADIUS, List.range_succ]
  norm_num

/-! ## C5: overlap is strict -/

/-- C5: `checkCollision` holds exactly when the Euclidean distance between the two centres
is strictly less than `r1 + r2`; circles that exactly touch do not collide. -/
theorem checkCollision_iff_dist_lt (x1 y1 r1 x2 y2 r2 : ℝ) :
    (checkCollision x1 y1 r1 x2 y2 r2 ↔ dist (euclid x1 y1) (euclid x2 y2) < r1 + r2) ∧
    (dist (euclid x1 y1) (euclid x2 y2) = r1 + r2 → ¬ checkCollision x1 y1 r1 x2 y2 r2) := by
  have h : checkCollision x1 y1 r1 x2 y2 r2 ↔ dist (euclid x1 y1) (euclid x2 y2) < r1 + r2 := by
    rw [dist_euclid]
    rfl
  refine ⟨h, fun he hc => ?_⟩
  have := h.1 hc
  linarith

/-! ## C1: wrap-around -/

theorem stepSpeed_pos (s : Snake) : 0 < s.stepSpeed := by
  unfold Snake.stepSpeed
  split <;> norm_num [BOOST_SPEED, BASE_SPEED]

theorem stepSpeed_lt_map (s : Snake) : s.stepSpeed < MAP_SIZE := by
  unfold Snake.stepSpeed
  split <;> norm_num [BOOST_SPEED, BASE_SPEED, MAP_SIZE]

/-- C1, as stated, fails: the snake built by `new Snake("a", undefined, -6000, 0)` is alive,
and after `update()` the x coordinate of its head is `-997.5`, outside `[0, MAP_SIZE)`:
`(-6000 + 2.5 + 5000) % 5000` keeps the sign of its negative dividend. -/
theorem update_head_outside_map :
    farSnake.alive = true ∧
    ∃ s' p tl, farSnake.update = some s' ∧ s'.segments = p :: tl ∧ p.x = -997.5 ∧
      ¬ (0 ≤ p.x) := by
  refine ⟨rfl, ?_⟩
  have hs : farSnake.segments = ⟨-6000, 0⟩ :: [⟨-6000 - 8, 0⟩, ⟨-6000 - 16, 0⟩,
      ⟨-6000 - 24, 0⟩, ⟨-6000 - 32, 0⟩, ⟨-6000 - 40, 0⟩, ⟨-6000 - 48, 0⟩, ⟨-6000 - 56, 0⟩,
      ⟨-6000 - 64, 0⟩, ⟨-6000 - 72, 0⟩] := initialSegments_eq _ _
  have hx : (farSnake.newHead ⟨-6000, 0⟩).x = -997.5 := by
    have hc : ⌈(-6000 + 1 * 2.5 + 5000 : ℝ) / 5000⌉ = 0 := by
      rw [Int.ceil_eq_iff]
      norm_num
    have hneg : ¬ (0 ≤ (-6000 + 1 * 2.5 + 5000 : ℝ) / 5000) := by norm_num
    simp only [Snake.newHead, wrap, jsMod, jsTrunc, Snake.stepSpeed, farSnake, Snake.new,
      MAP_SIZE, BASE_SPEED, Bool.false_eq_true, if_false, if_neg hneg, hc]
    norm_num
  refine ⟨_, _, _, Snake.update_eq farSnake _ _ hs rfl, rfl, hx, ?_⟩
  rw [hx]
  norm_num

/-- C1 (amended): for an alive snake with head `head`, `update()` returns a snake whose new
head `p` has, on each axis where the moved coordinate `head + direction * speed` is at
least `-MAP_SIZE`, a coordinate in `[0, MAP_SIZE)`; that is so in particular on each axis
where the head coordinate is not negative and the heading component is at most 1 in
absolute value; and a head at `x = MAP_SIZE - e` with `0 < e ≤ speed` and `direction.x = 1`
gets the new `x = speed - e`. -/
theorem update_head_in_map (s : Snake) (head : Point) (rest : List Point)
    (hs : s.segments = head :: rest) (ha : s.alive = true) :
    ∃ s' p tl, s.update = some s' ∧ s'.segments = p :: tl ∧
      (-MAP_SIZE ≤ head.x + s.direction.x * s.stepSpeed → 0 ≤ p.x ∧ p.x < MAP_SIZE) ∧
      (-MAP_SIZE ≤ head.y + s.direction.y * s.stepSpeed → 0 ≤ p.y ∧ p.y < MAP_SIZE) ∧
      (0 ≤ head.x → |s.direction.x| ≤ 1 → 0 ≤ p.x ∧ p.x < MAP_SIZE) ∧
      (0 ≤ head.y → |s.direction.y| ≤ 1 → 0 ≤ p.y ∧ p.y < MAP_SIZE) ∧
      (∀ e : ℝ, 0 < e → e ≤ s.stepSpeed → head.x = MAP_SIZE - e → s.direction.x = 1 →
        p.x = s.stepSpeed - e) := by
  have hpos := stepSpeed_pos s
  have hlt := stepSpeed_lt_map s
  have hstep : ∀ h d : ℝ, 0 ≤ h → |d| ≤ 1 → -MAP_SIZE ≤ h + d * s.stepSpeed := by
    intro h d h0 hd
    have h1 : -1 ≤ d := (abs_le.1 hd).1
    nlinarith
  refine ⟨_, _, _, Snake.update_eq s head rest hs ha, rfl, ?_, ?_, ?_, ?_, ?_⟩
  · exact fun h => wrap_mem _ h
  · exact fun h => wrap_mem _ h
  · exact fun h0 hd => wrap_mem _ (hstep _ _ h0 hd)
  · exact fun h0 hd => wrap_mem _ (hstep _ _ h0 hd)
  · intro e he hes hx hd
    show wrap (head.x + s.direction.x * s.stepSpeed) = s.stepSpeed - e
    have key := jsMod_add_mul (s.stepSpeed - e) MAP_SIZE 2 (by linarith) (by linarith)
    unfold wrap
    rw [← key, hx, hd]
    congr 1
    push_cast
    ring

/-- The snake built at `(4999, 100)` heading right crosses the right edge: its new head is
at `x = 1.5`, and its `y` stays inside the map. -/
theorem update_head_in_map_witness :
    ∃ s' p tl, edgeSnake.update = some s' ∧ s'.segments = p :: tl ∧ p.x = 1.5 ∧
      (0 ≤ p.y ∧ p.y < MAP_SIZE) := by
  have hs : edgeSnake.segments = ⟨4999, 100⟩ :: [⟨4999 - 8, 100⟩, ⟨4999 - 16, 100⟩,
      ⟨4999 - 24, 100⟩, ⟨4999 - 32, 100⟩, ⟨4999 - 40, 100⟩, ⟨4999 - 48, 100⟩,
      ⟨4999 - 56, 100⟩, ⟨4999 - 64, 100⟩, ⟨4999 - 72, 100⟩] := initialSegments_eq _ _
  obtain ⟨s', p, tl, h1, h2, _, _, _, hy, hx⟩ := update_head_in_map edgeSnake _ _ hs rfl
  have hsp : edgeSnake.stepSpeed = 2.5 := by
    simp [Snake.stepSpeed, edgeSnake, Snake.new, BASE_SPEED]
  have hdy : edgeSnake.direction.y = 0 := rfl
  refine ⟨s', p, tl, h1, h2, ?_, hy (by norm_num) ?_⟩
  · rw [hx 1 one_pos (by rw [hsp]; norm_num) (by norm_num [MAP_SIZE]) rfl, hsp]
    norm_num
  · rw [hdy]
    norm_num

/-! ## C2: the integration step -/

/-- C2: for an alive snake with head `head`, `update()` returns a snake whose body starts
with the point `wrap (head + direction * s)`, `s` the boost speed when boosting and the
base speed otherwise, `wrap v = (v + MAP_SIZE) % MAP_SIZE`; when the snake is not boosting
the rest of the body is the old body without its last segment and the length is unchanged;
a snake of length 10 at `(100, 100)` heading `(1, 0)` that is not boosting gets the head
`(102.5, 100)` and keeps length 10. -/
theorem update_prepends_moved_head (s : Snake) (head : Point) (rest : List Point)
    (hs : s.segments = head :: rest) (ha : s.alive = true) :
    ∃ s' tl, s.update = some s' ∧
      s'.segments =
        { x := jsMod (head.x + s.direction.x *
                (if s.boosting then BOOST_SPEED else BASE_SPEED) + MAP_SIZE) MAP_SIZE
          y := jsMod (head.y + s.direction.y *
                (if s.boosting then BOOST_SPEED else BASE_SPEED) + MAP_SIZE) MAP_SIZE } :: tl ∧
      (s.boosting = false →
        tl = s.segments.dropLast ∧ s'.segments.length = s.segments.length) ∧
      (s.segments.length = 10 → head = ⟨100, 100⟩ → s.direction = ⟨1, 0⟩ →
        s.boosting = false →
        s'.segments.head? = some ⟨102.5, 100⟩ ∧ s'.segments.length = 10) := by
  have hlen : (s.newHead head :: (head :: rest).dropLast).length = s.segments.length := by
    rw [hs]
    simp
  refine ⟨_, _, Snake.update_eq s head rest hs ha, rfl, ?_, ?_⟩
  · intro _
    exact ⟨by rw [hs], hlen⟩
  · intro h10 hh hd hb
    refine ⟨?_, by rw [← h10]; exact hlen⟩
    have e1 : jsMod ((100 : ℝ) + 1 * 2.5 + 5000) 5000 = 102.5 := by
      have e : ((100 : ℝ) + 1 * 2.5 + 5000) = ((1 : ℕ) : ℝ) * 5000 + 102.5 := by norm_num
      rw [e]
      exact jsMod_add_mul 102.5 5000 1 (by norm_num) (by norm_num)
    have e2 : jsMod ((100 : ℝ) + 0 * 2.5 + 5000) 5000 = 100 := by
      have e : ((100 : ℝ) + 0 * 2.5 + 5000) = ((1 : ℕ) : ℝ) * 5000 + 100 := by norm_num
      rw [e]
      exact jsMod_add_mul 100 5000 1 (by norm_num) (by norm_num)
    simp only [List.head?_cons, Snake.newHead, wrap, Snake.stepSpeed, hb, hh, hd, MAP_SIZE,
      BASE_SPEED, Bool.false_eq_true, if_false, e1, e2]

/-- The scenario of C2 on the snake built at `(100, 100)`: one `update()` gives the head
`(102.5, 100)` and length 10. -/
theorem update_prepends_moved_head_witness :
    ∃ s', scenarioSnake.update = some s' ∧
      s'.segments.head? = some ⟨102.5, 100⟩ ∧ s'.segments.length = 10 := by
  have hs : scenarioSnake.segments = ⟨100, 100⟩ :: [⟨100 - 8, 100⟩, ⟨100 - 16, 100⟩,
      ⟨100 - 24, 100⟩, ⟨100 - 32, 100⟩, ⟨100 - 40, 100⟩, ⟨100 - 48, 100⟩,
      ⟨100 - 56, 100⟩, ⟨100 - 64, 100⟩, ⟨100 - 72, 100⟩] := initialSegments_eq _ _
  obtain ⟨s', tl, h1, _, _, h4⟩ := update_prepends_moved_head scenarioSnake _ _ hs rfl
  exact ⟨s', h1, h4 (by rw [hs]; rfl) rfl rfl rfl⟩

/-! ## C8: the death effect -/

theorem everyOther_length {α : Type} :
    ∀ l : List α, (everyOther l).length = (l.length + 1) / 2
  | [] => by simp [everyOther]
  | [_] => by simp [everyOther]
  | _ :: _ :: t => by
    simp only [everyOther, List.length_cons, everyOther_length t]
    omega

theorem everyOther_getElem? {α : Type} :
    ∀ (l : List α) (k : ℕ), (everyOther l)[k]? = l[2 * k]?
  | [], k => by simp [everyOther]
  | [a], k => by
    cases k with
    | zero => simp [everyOther]
    | succ k => simp [everyOther, Nat.mul_succ]
  | a :: b :: t, k => by
    cases k with
    | zero => simp [everyOther]
    | succ k =>
      simp only [everyOther, List.getElem?_cons_succ, Nat.mul_succ, everyOther_getElem? t k]

theorem ceil_half (n : ℕ) : ⌈(n : ℝ) / 2⌉₊ = (n + 1) / 2 := by
  rcases Nat.even_or_odd' n with ⟨m, rfl | rfl⟩
  · have : ((2 * m : ℕ) : ℝ) / 2 = (m : ℝ) := by push_cast; ring
    rw [this, Nat.ceil_natCast]
    omega
  · have e : (2 * m + 1 + 1) / 2 = m + 1 := by omega
    rw [e, Nat.ceil_eq_iff (Nat.succ_ne_zero m)]
    push_cast
    constructor
    · linarith
    · linarith

theorem everyOther_drop_step {α : Type} (l : List α) (i : ℕ) (h : i < l.length) :
    everyOther (l.drop i) = l[i] :: everyOther (l.drop (i + 2)) := by
  rw [List.drop_eq_getElem_cons h]
  cases hd : l.drop (i + 1) with
  | nil =>
    have : l.drop (i + 2) = [] := by
      rw [← List.drop_drop 1 (i + 1), hd]
      rfl
    rw [this]
    simp [everyOther]
  | cons b t =>
    have : l.drop (i + 2) = t := by
      rw [← List.drop_drop 1 (i + 1), hd]
      rfl
    rw [this]
    simp [everyOther]

/-- The loop of `die` entered at `i` pushes one orb for every other segment from `i` on. -/
theorem dieLoop_eq (segs : List Point) (color : Color) :
    ∀ (m i : ℕ) (orbs : List Orb), segs.length - i ≤ m →
      dieLoop segs color i orbs = orbs ++ (everyOther (segs.drop i)).map (bodyOrb color) := by
  intro m
  induction m with
  | zero =>
    intro i orbs h
    have hi : ¬ i < segs.length := by omega
    rw [dieLoop, dif_neg hi, List.drop_of_length_le (by omega)]
    simp [everyOther]
  | succ m ih =>
    intro i orbs h
    rw [dieLoop]
    by_cases hi : i < segs.length
    · rw [dif_pos hi, ih (i + 2) _ (by omega), everyOther_drop_step segs i hi]
      simp [bodyOrb]
    · rw [dif_neg hi, List.drop_of_length_le (by omega)]
      simp [everyOther]

theorem die_orbs (s : Snake) : (s.die).2 = (everyOther s.segments).map (bodyOrb s.color) := by
  unfold Snake.die
  simp only
  rw [dieLoop_eq s.segments s.color s.segments.length 0 [] (by omega)]
  simp

/-- C8: `die()` sets `alive` to false, leaves the body unchanged and returns exactly
`ceil(n / 2)` orbs for a body of `n` segments, the `k`-th at `segments[2k]` with radius 6,
value 2 and the colour of the snake. -/
theorem die_effect (s : Snake) :
    (s.die).1.alive = false ∧ (s.die).1.segments = s.segments ∧
    (s.die).2.length = ⌈(s.segments.length : ℝ) / 2⌉₊ ∧
    ∀ k : ℕ, k < ⌈(s.segments.length : ℝ) / 2⌉₊ →
      ∃ seg, s.segments[2 * k]? = some seg ∧
        (s.die).2[k]? =
          some { x := seg.x, y := seg.y, color := s.color, radius := 6, value := 2 } := by
  refine ⟨rfl, rfl, ?_, ?_⟩
  · rw [die_orbs, List.length_map, everyOther_length, ceil_half]
  · intro k hk
    rw [ceil_half] at hk
    have h2 : 2 * k < s.segments.length := by omega
    refine ⟨s.segments[2 * k], List.getElem?_eq_getElem h2, ?_⟩
    rw [die_orbs, List.getElem?_map, everyOther_getElem?, List.getElem?_eq_getElem h2]
    rfl

/-! ## The pickup pass -/

theorem getLast?_append_replicate (l : List Point) (tail : Point) (n : ℕ)
    (h : l.getLast? = some tail) : (l ++ List.replicate n tail).getLast? = some tail := by
  induction n with
  | zero => simpa using h
  | succ n ih =>
    rw [List.replicate_succ', ← List.append_assoc, List.getLast?_append]
    simp

theorem grow_eq (s : Snake) (tail : Point) (n : ℕ) (h : s.segments.getLast? = some tail) :
    s.grow n = some { s with segments := s.segments ++ List.replicate n tail } := by
  unfold Snake.grow
  rw [h]

theorem pickStep_acc (head tail : Point) (orb : Orb) (snake : Snake) (acc : List Orb) :
    pickStep head tail orb (snake, acc)
      = ((pickStep head tail orb (snake, [])).1,
          (pickStep head tail orb (snake, [])).2 ++ acc) := by
  unfold pickStep
  split <;> simp

theorem foldr_pickStep_acc (head tail : Point) (orbs : List Orb) (snake : Snake)
    (acc : List Orb) :
    orbs.foldr (pickStep head tail) (snake, acc)
      = ((sweep head tail snake orbs).1, (sweep head tail snake orbs).2 ++ acc) := by
  induction orbs with
  | nil => simp [sweep]
  | cons o orbs ih =>
    simp only [sweep, List.foldr_cons] at ih ⊢
    rw [ih]
    rw [pickStep_acc head tail o _ ((List.foldr (pickStep head tail) (snake, []) orbs).2 ++ acc),
      pickStep_acc head tail o _ (List.foldr (pickStep head tail) (snake, []) orbs).2]
    simp

theorem sweep_append_singleton (head tail : Point) (snake : Snake) (pre : List Orb) (o : Orb) :
    sweep head tail snake (pre ++ [o]) =
      if checkCollision head.x head.y snake.radius o.x o.y o.radius then
        sweep head tail { snake with segments := snake.segments ++ List.replicate o.value tail } pre
      else ((sweep head tail snake pre).1, (sweep head tail snake pre).2 ++ [o]) := by
  unfold sweep
  rw [List.foldr_append, List.foldr_cons, List.foldr_nil]
  unfold pickStep
  split
  · rfl
  · exact foldr_pickStep_acc head tail pre snake [o]

theorem sweep_kept_sublist (head tail : Point) (orbs : List Orb) :
    ∀ snake : Snake, ((sweep head tail snake orbs).2).Sublist orbs := by
  induction orbs with
  | nil => intro snake; simp [sweep]
  | cons o orbs ih =>
    intro snake
    have h := ih snake
    simp only [sweep, List.foldr_cons] at h ⊢
    unfold pickStep
    split
    · exact h.cons o
    · exact h.cons₂ o

theorem sweep_kept_length_le (head tail : Point) (orbs : List Orb) (snake : Snake) :
    ((sweep head tail snake orbs).2).length ≤ orbs.length :=
  (sweep_kept_sublist head tail orbs snake).length_le

theorem freshOrbs_succ (rng : ℕ → Random) (draws m : ℕ) :
    freshOrbs rng draws (m + 1) = randomOrb rng draws :: freshOrbs rng (draws + 3) m := by
  unfold freshOrbs
  rw [List.range_succ_eq_map, List.map_cons, List.map_map]
  congr 1
  apply List.map_congr_left
  intro j _
  simp only [Function.comp, Nat.succ_eq_add_one]
  congr 1
  ring

/-- The pickup loop, entered when the orbs `pre` are still to be tested and the orbs
`post` stand behind them, is the sweep of `pre`: the orbs that stay keep their place and the
replacements are pushed behind `post`, where the loop never looks. -/
theorem orbLoop_eq_sweep (rng : ℕ → Random) (head tail : Point) (pre : List Orb) :
    ∀ (snake : Snake) (post : List Orb) (draws : ℕ), snake.segments.getLast? = some tail →
      orbLoop rng head pre.length snake (pre ++ post) draws =
        some ((sweep head tail snake pre).1,
          (sweep head tail snake pre).2 ++ post ++
            freshOrbs rng draws (pre.length - ((sweep head tail snake pre).2).length),
          draws + 3 * (pre.length - ((sweep head tail snake pre).2).length)) := by
  induction pre using List.reverseRecOn with
  | nil =>
    intro snake post draws _
    simp [orbLoop, sweep, freshOrbs]
  | append_singleton pre o ih =>
    intro snake post draws hl
    have hget : (pre ++ [o] ++ post)[pre.length]? = some o := by
      rw [List.append_assoc, List.getElem?_append_right (le_refl _)]
      simp
    have herase : (pre ++ [o] ++ post).eraseIdx pre.length = pre ++ post := by
      rw [List.append_assoc, List.eraseIdx_append_of_length_le (le_refl _)]
      simp
    have hlen : (pre ++ [o]).length = pre.length + 1 := by simp
    rw [hlen, orbLoop, hget]
    simp only
    rw [sweep_append_singleton]
    by_cases hc : checkCollision head.x head.y snake.radius o.x o.y o.radius
    · rw [if_pos hc, if_pos hc, grow_eq snake tail o.value hl]
      simp only
      rw [herase, List.append_assoc pre post, ih _ _ _ (getLast?_append_replicate _ _ _ hl)]
      have hk := sweep_kept_length_le head tail pre
        { snake with segments := snake.segments ++ List.replicate o.value tail }
      have e : pre.length + 1 - ((sweep head tail
          { snake with segments := snake.segments ++ List.replicate o.value tail } pre).2).length
          = (pre.length - ((sweep head tail
          { snake with segments := snake.segments ++ List.replicate o.value tail } pre).2).length)
            + 1 := by omega
      rw [e, freshOrbs_succ]
      simp only [List.append_assoc, List.singleton_append, Option.some.injEq, Prod.mk.injEq,
        true_and]
      omega
    · rw [if_neg hc, if_neg hc, List.append_assoc pre [o] post, ih _ _ _ hl]
      simp only [List.length_append, List.length_singleton, List.append_assoc,
        List.singleton_append]
      have e : pre.length + 1 - (((sweep head tail snake pre).2).length + 1)
          = pre.length - ((sweep head tail snake pre).2).length := by omega
      rw [e]

/-- The snake after the sweep is the snake with copies of `tail` appended: as many as the
values of the orbs that went add up to. -/
theorem sweep_snake (head tail : Point) (orbs : List Orb) :
    ∀ snake : Snake, ∃ g : ℕ,
      (sweep head tail snake orbs).1
        = { snake with segments := snake.segments ++ List.replicate g tail } ∧
      g + (((sweep head tail snake orbs).2).map Orb.value).sum = (orbs.map Orb.value).sum := by
  induction orbs using List.reverseRecOn with
  | nil =>
    intro snake
    refine ⟨0, ?_, ?_⟩
    · cases snake
      simp only [sweep, List.foldr_nil, List.replicate_zero, List.append_nil]
    · simp only [sweep, List.foldr_nil, List.map_nil, List.sum_nil, Nat.add_zero]
  | append_singleton pre o ih =>
    intro snake
    rw [sweep_append_singleton]
    by_cases hc : checkCollision head.x head.y snake.radius o.x o.y o.radius
    · rw [if_pos hc]
      obtain ⟨g, h1, h2⟩ :=
        ih { snake with segments := snake.segments ++ List.replicate o.value tail }
      refine ⟨o.value + g, ?_, ?_⟩
      · rw [h1]
        simp only [List.append_assoc, List.replicate_add]
      · simp only [List.map_append, List.sum_append, List.map_cons, List.map_nil,
          List.sum_cons, List.sum_nil]
        omega
    · rw [if_neg hc]
      obtain ⟨g, h1, h2⟩ := ih snake
      refine ⟨g, h1, ?_⟩
      simp only [List.map_append, List.sum_append, List.map_cons, List.map_nil,
        List.sum_cons, List.sum_nil]
      omega

/-! ## The collision pass -/

theorem bodyLoop_iff (head : Point) (snake other : Snake) :
    ∀ (m i : ℕ), other.segments.length - i ≤ m →
      (bodyLoop head snake other i = true ↔
        ∃ j seg, i ≤ j ∧ other.segments[j]? = some seg ∧
          checkCollision head.x head.y snake.radius seg.x seg.y other.radius) := by
  intro m
  induction m with
  | zero =>
    intro i h
    have hi : ¬ i < other.segments.length := by omega
    rw [bodyLoop, dif_neg hi]
    constructor
    · intro hf
      exact absurd hf (by simp)
    · rintro ⟨j, seg, hij, hj, _⟩
      have := (List.getElem?_eq_some_iff.1 hj).1
      omega
  | succ m ih =>
    intro i h
    rw [bodyLoop]
    by_cases hi : i < other.segments.length
    · rw [dif_pos hi]
      by_cases hc : checkCollision head.x head.y snake.radius
          other.segments[i].x other.segments[i].y other.radius
      · rw [if_pos hc]
        exact ⟨fun _ => ⟨i, other.segments[i], le_refl i, List.getElem?_eq_getElem hi, hc⟩,
          fun _ => rfl⟩
      · rw [if_neg hc, ih (i + 1) (by omega)]
        constructor
        · rintro ⟨j, seg, hij, hj, hcj⟩
          exact ⟨j, seg, by omega, hj, hcj⟩
        · rintro ⟨j, seg, hij, hj, hcj⟩
          rcases Nat.eq_or_lt_of_le hij with rfl | hlt
          · rw [List.getElem?_eq_getElem hi] at hj
            cases hj
            exact absurd hcj hc
          · exact ⟨j, seg, hlt, hj, hcj⟩
    · rw [dif_neg hi]
      constructor
      · intro hf
        exact absurd hf (by simp)
      · rintro ⟨j, seg, hij, hj, _⟩
        have := (List.getElem?_eq_some_iff.1 hj).1
        omega

/-- The head-versus-body loop entered at 3 finds a hit exactly when some segment of index
at least 3 collides. -/
theorem bodyLoop_three (head : Point) (snake other : Snake) :
    bodyLoop head snake other 3 = true ↔
      ∃ j seg, 3 ≤ j ∧ other.segments[j]? = some seg ∧
        checkCollision head.x head.y snake.radius seg.x seg.y other.radius :=
  bodyLoop_iff head snake other _ 3 (le_refl _)

theorem bodyLoop_die (head : Point) (snake other : Snake) :
    bodyLoop head (snake.die).1 other 3 = bodyLoop head snake other 3 := by
  rw [Bool.eq_iff_iff, bodyLoop_three, bodyLoop_three]
  rfl

theorem hits_congr (head : Point) (s s' o : Snake) (hid : s'.id = s.id)
    (hr : s'.radius = s.radius) : hits head s' o = hits head s o := by
  unfold hits
  rw [Bool.eq_iff_iff]
  simp only [Bool.and_eq_true, bodyLoop_three, hid, hr]

theorem hits_die (head : Point) (snake o : Snake) :
    hits head (snake.die).1 o = hits head snake o := by
  unfold hits
  rw [bodyLoop_die]
  rfl

theorem hitters_die (head : Point) (snake : Snake) (others : List Snake) :
    hitters head (snake.die).1 others = hitters head snake others := by
  unfold hitters
  apply List.filter_congr
  intro o _
  exact hits_die head snake o

theorem collideWith_eq (head : Point) (snake : Snake) (orbs : List Orb) (em : List Emit)
    (o : Snake) :
    collideWith head (snake, orbs, em) o =
      if hits head snake o = true then
        ((snake.die).1, orbs ++ (snake.die).2,
          em ++ [Emit.player_died snake.id o.id o.nickname snake.score])
      else (snake, orbs, em) := by
  unfold collideWith hits
  by_cases h1 : snake.id = o.id
  · simp [h1]
  · by_cases h2 : o.alive = false
    · simp [h1, h2]
    · have h2t : o.alive = true := by simpa using h2
      by_cases h3 : bodyLoop head snake o 3 = true
      · simp only [h1, h2, h2t, h3, or_self, if_false, if_true, ne_eq, not_false_eq_true,
          decide_True, Bool.and_self]
        rfl
      · simp [h1, h2, h2t, h3]

/-- The inner `forEach` as a whole: the snake dies when some other snake is hit, and the
death branch (orbs of the body pushed, one `player_died` sent) runs once for every snake
that is hit. -/
theorem foldl_collideWith (head : Point) (others : List Snake) :
    ∀ (snake : Snake) (orbs : List Orb) (em : List Emit),
      others.foldl (collideWith head) (snake, orbs, em) =
        (if (hitters head snake others).isEmpty then snake else (snake.die).1,
          orbs ++ (hitters head snake others).flatMap (fun _ => (snake.die).2),
          em ++ (hitters head snake others).map
            (fun o => Emit.player_died snake.id o.id o.nickname snake.score)) := by
  induction others with
  | nil => intro snake orbs em; simp [hitters]
  | cons o rest ih =>
    intro snake orbs em
    rw [List.foldl_cons, collideWith_eq]
    by_cases h : hits head snake o = true
    · rw [if_pos h, ih, hitters_die]
      have hh : hitters head snake (o :: rest) = o :: hitters head snake rest := by
        unfold hitters
        rw [List.filter_cons_of_pos h]
      rw [hh]
      have hd : ((snake.die).1.die).1 = (snake.die).1 := rfl
      have hd2 : ((snake.die).1.die).2 = (snake.die).2 := rfl
      have hid : (snake.die).1.id = snake.id := rfl
      have hsc : (snake.die).1.score = snake.score := rfl
      simp only [hd, hd2, hid, hsc, List.isEmpty_cons, ite_self, List.flatMap_cons,
        List.map_cons, List.append_assoc, List.singleton_append, Bool.false_eq_true, if_false]
    · rw [if_neg h, ih]
      have hh : hitters head snake (o :: rest) = hitters head snake rest := by
        unfold hitters
        rw [List.filter_cons_of_neg h]
      rw [hh]

theorem filter_set_of_neg {α : Type} (p : α → Bool) :
    ∀ (l : List α) (k : ℕ) (x a : α), l[k]? = some a → p a = false → p x = false →
      (l.set k x).filter p = l.filter p := by
  intro l
  induction l with
  | nil => intro k x a h; simp at h
  | cons b l ih =>
    intro k x a h ha hx
    cases k with
    | zero =>
      simp only [List.getElem?_cons_zero, Option.some.injEq] at h
      subst h
      simp [List.filter_cons, ha, hx]
    | succ k =>
      simp only [List.getElem?_cons_succ] at h
      simp only [List.set_cons_succ, List.filter_cons, ih k x a h ha hx]

theorem hits_same_id (head : Point) (snake o : Snake) (h : snake.id = o.id) :
    hits head snake o = false := by
  simp [hits, h]

theorem update_eq_moved (s : Snake) (head : Point) (rest : List Point)
    (hs : s.segments = head :: rest) (ha : s.alive = true) :
    s.update = some (s.moved head rest) :=
  Snake.update_eq s head rest hs ha

theorem sweep_id (head tail : Point) (orbs : List Orb) (snake : Snake) :
    (sweep head tail snake orbs).1.id = snake.id := by
  obtain ⟨g, h, _⟩ := sweep_snake head tail orbs snake
  rw [h]

theorem sweep_alive (head tail : Point) (orbs : List Orb) (snake : Snake) :
    (sweep head tail snake orbs).1.alive = snake.alive := by
  obtain ⟨g, h, _⟩ := sweep_snake head tail orbs snake
  rw [h]

/-- The callback of the outer `forEach` on an alive snake with a head returns, and its
result is `processed`. -/
theorem processSnake_eq (rng : ℕ → Random) (k : ℕ) (w : World) (A : Snake)
    (head : Point) (rest : List Point) (tail : Point)
    (hk : w.snakes[k]? = some A) (ha : A.alive = true) (hs : A.segments = head :: rest)
    (hl : (A.moved head rest).segments.getLast? = some tail) :
    processSnake rng k w
      = some (processed rng k w (A.moved head rest) (A.newHead head) tail) := by
  unfold processSnake
  rw [hk]
  simp only [ha, Bool.true_eq_false, if_false, update_eq_moved A head rest hs ha]
  have hm : (A.moved head rest).segments = A.newHead head :: (head :: rest).dropLast := rfl
  rw [hm]
  simp only
  have ho := orbLoop_eq_sweep rng (A.newHead head) tail w.orbs (A.moved head rest) [] w.draws hl
  rw [List.append_nil] at ho
  rw [ho]
  simp only [List.append_nil]
  rw [foldl_collideWith]
  have hid : (sweep (A.newHead head) tail (A.moved head rest) w.orbs).1.id = A.id := by
    rw [sweep_id]
    rfl
  have hh : hitters (A.newHead head) (sweep (A.newHead head) tail (A.moved head rest) w.orbs).1
      (w.snakes.set k (sweep (A.newHead head) tail (A.moved head rest) w.orbs).1)
      = hitters (A.newHead head) (sweep (A.newHead head) tail (A.moved head rest) w.orbs).1
          w.snakes := by
    unfold hitters
    exact filter_set_of_neg _ _ _ _ _ hk (hits_same_id _ _ _ hid) (hits_same_id _ _ _ rfl)
  rw [hh]
  rfl

theorem moved_length (A : Snake) (head : Point) (rest : List Point)
    (hs : A.segments = head :: rest) :
    (A.moved head rest).segments.length = A.segments.length := by
  rw [hs]
  simp [Snake.moved]

theorem exists_getLast? (l : List Point) (h : l ≠ []) : ∃ tail, l.getLast? = some tail := by
  cases hl : l.getLast? with
  | none => exact absurd (List.getLast?_eq_none_iff.1 hl) h
  | some t => exact ⟨t, rfl⟩

theorem moved_getLast? (A : Snake) (head : Point) (rest : List Point) :
    ∃ tail, (A.moved head rest).segments.getLast? = some tail :=
  exists_getLast? _ (by simp [Snake.moved])

/-- The snake written back at position `k` by `processed`: the snake after the pickup pass,
not alive when some snake was hit. -/
theorem processed_snakes (rng : ℕ → Random) (k : ℕ) (w : World) (moved : Snake)
    (head tail : Point) :
    (processed rng k w moved head tail).snakes = w.snakes.set k
      ((sweep head tail moved w.orbs).1.setAlive
        (if (hitters head (sweep head tail moved w.orbs).1 w.snakes).isEmpty
          then (sweep head tail moved w.orbs).1.alive else false)) := by
  unfold processed
  simp only
  congr 1
  split
  · rfl
  · rfl

theorem getElem?_set_self_of_lt {α : Type} (l : List α) (k : ℕ) (x a : α)
    (h : l[k]? = some a) : (l.set k x)[k]? = some x := by
  have hk : k < l.length := (List.getElem?_eq_some_iff.1 h).1
  simp [List.getElem?_set, hk]

theorem mem_set_cases {α : Type} (l : List α) (k : ℕ) (x y : α) (h : y ∈ l.set k x) :
    y = x ∨ y ∈ l := by
  rcases List.mem_or_eq_of_mem_set h with h | h
  · exact Or.inr h
  · exact Or.inl h

/-- The two ways the callback of the outer `forEach` goes on a world whose snakes all have
a head: nothing happens (no snake at `k`, or a snake that is not alive), or the snake at
`k` is alive and the result is `processed`. -/
theorem processSnake_cases (rng : ℕ → Random) (k : ℕ) (w : World) (hB : Bodies w) :
    (processSnake rng k w = some w ∧ ∀ A, w.snakes[k]? = some A → A.alive = false) ∨
    (∃ A head rest tail, w.snakes[k]? = some A ∧ A.alive = true ∧ A.segments = head :: rest ∧
      (A.moved head rest).segments.getLast? = some tail ∧
      processSnake rng k w
        = some (processed rng k w (A.moved head rest) (A.newHead head) tail)) := by
  cases hk : w.snakes[k]? with
  | none =>
    left
    refine ⟨?_, fun A h => by cases h⟩
    unfold processSnake
    rw [hk]
  | some A =>
    by_cases ha : A.alive = true
    · right
      have hne := hB A (List.getElem?_mem hk)
      obtain ⟨head, rest, hs⟩ := List.exists_cons_of_ne_nil hne
      obtain ⟨tail, hl⟩ := moved_getLast? A head rest
      exact ⟨A, head, rest, tail, rfl, ha, hs, hl,
        processSnake_eq rng k w A head rest tail hk ha hs hl⟩
    · left
      have ha2 : A.alive = false := by simpa using ha
      refine ⟨?_, fun B h => by cases h; exact ha2⟩
      unfold processSnake
      rw [hk]
      simp [ha2]

/-! ## The outer loop -/

theorem processed_orbs_length (rng : ℕ → Random) (k : ℕ) (w : World) (moved : Snake)
    (head tail : Point) :
    (processed rng k w moved head tail).orbs.length
      = w.orbs.length
        + ((hitters head (sweep head tail moved w.orbs).1 w.snakes).flatMap
            (fun _ => ((sweep head tail moved w.orbs).1.die).2)).length := by
  have hk := sweep_kept_length_le head tail w.orbs moved
  unfold processed
  simp only [List.length_append, freshOrbs, List.length_map, List.length_range]
  omega

/-- What one callback of the outer `forEach` keeps: it returns, every snake still has a
head, the map keeps its size, only position `k` changes, and there the id stays, the body
does not get shorter and a snake that was not alive stays so. -/
theorem processSnake_total (rng : ℕ → Random) (k : ℕ) (w : World) (hB : Bodies w) :
    ∃ w', processSnake rng k w = some w' ∧ Bodies w' ∧
      w'.snakes.length = w.snakes.length ∧
      (∀ j, j ≠ k → w'.snakes[j]? = w.snakes[j]?) ∧
      w.orbs.length ≤ w'.orbs.length ∧
      (∀ A, w.snakes[k]? = some A → ∃ A', w'.snakes[k]? = some A' ∧ A'.id = A.id ∧
        A.segments.length ≤ A'.segments.length ∧ (A.alive = false → A' = A)) := by
  rcases processSnake_cases rng k w hB with ⟨h, hd⟩ | ⟨A, head, rest, tail, hk, ha, hs, hl, h⟩
  · exact ⟨w, h, hB, rfl, fun _ _ => rfl, le_refl _,
      fun A hA => ⟨A, hA, rfl, le_refl _, fun _ => rfl⟩⟩
  · have hsn := processed_snakes rng k w (A.moved head rest) (A.newHead head) tail
    obtain ⟨g, hfed, _⟩ := sweep_snake (A.newHead head) tail w.orbs (A.moved head rest)
    refine ⟨_, h, ?_, ?_, ?_, ?_, ?_⟩
    · intro s hsmem
      rw [hsn] at hsmem
      rcases mem_set_cases _ _ _ _ hsmem with rfl | hmem
      · show (sweep (A.newHead head) tail (A.moved head rest) w.orbs).1.segments ≠ []
        rw [hfed]
        simp [Snake.moved]
      · exact hB s hmem
    · rw [hsn, List.length_set]
    · intro j hj
      rw [hsn, List.getElem?_set_ne (Ne.symm hj)]
    · rw [processed_orbs_length]
      omega
    · intro B hB2
      rw [hk] at hB2
      cases hB2
      refine ⟨_, by rw [hsn]; exact getElem?_set_self_of_lt _ _ _ _ hk, ?_, ?_, ?_⟩
      · show (sweep (A.newHead head) tail (A.moved head rest) w.orbs).1.id = A.id
        rw [hfed]
        rfl
      · have := moved_length A head rest hs
        show A.segments.length
          ≤ (sweep (A.newHead head) tail (A.moved head rest) w.orbs).1.segments.length
        rw [hfed]
        simp only [List.length_append, List.length_replicate]
        omega
      · intro hf
        rw [ha] at hf
        cases hf

theorem runSnakes_nil (rng : ℕ → Random) (w : World) : runSnakes rng [] w = some w := rfl

theorem runSnakes_cons (rng : ℕ → Random) (k : ℕ) (ks : List ℕ) (w : World) :
    runSnakes rng (k :: ks) w = (processSnake rng k w).bind (runSnakes rng ks) := by
  unfold runSnakes
  rw [List.foldlM_cons]
  rfl

theorem runSnakes_append (rng : ℕ → Random) (ks ls : List ℕ) (w : World) :
    runSnakes rng (ks ++ ls) w = (runSnakes rng ks w).bind (runSnakes rng ls) := by
  unfold runSnakes
  rw [List.foldlM_append]
  rfl

/-- The outer loop over any positions returns on a world whose snakes all have a head, and
keeps what each callback keeps; the positions it does not visit are untouched. -/
theorem runSnakes_total (rng : ℕ → Random) (ks : List ℕ) :
    ∀ w : World, Bodies w →
      ∃ w', runSnakes rng ks w = some w' ∧ Bodies w' ∧
        w'.snakes.length = w.snakes.length ∧
        (∀ j, j ∉ ks → w'.snakes[j]? = w.snakes[j]?) ∧
        w.orbs.length ≤ w'.orbs.length ∧
        (∀ (j : ℕ) (A : Snake), w.snakes[j]? = some A →
          ∃ A', w'.snakes[j]? = some A' ∧ A'.id = A.id ∧
          A.segments.length ≤ A'.segments.length ∧ (A.alive = false → A' = A)) := by
  induction ks with
  | nil =>
    intro w hB
    exact ⟨w, rfl, hB, rfl, fun _ _ => rfl, le_refl _,
      fun j A hA => ⟨A, hA, rfl, le_refl _, fun _ => rfl⟩⟩
  | cons k ks ih =>
    intro w hB
    obtain ⟨w1, h1, hB1, hlen1, hfr1, horb1, hk1⟩ := processSnake_total rng k w hB
    obtain ⟨w2, h2, hB2, hlen2, hfr2, horb2, hk2⟩ := ih w1 hB1
    refine ⟨w2, ?_, hB2, by rw [hlen2, hlen1], ?_, le_trans horb1 horb2, ?_⟩
    · rw [runSnakes_cons, h1]
      exact h2
    · intro j hj
      rw [List.mem_cons, not_or] at hj
      rw [hfr2 j hj.2, hfr1 j hj.1]
    · intro j A hA
      have h1A : ∃ A1 : Snake, w1.snakes[j]? = some A1 ∧ A1.id = A.id ∧
          A.segments.length ≤ A1.segments.length ∧ (A.alive = false → A1 = A) := by
        by_cases hjk : j = k
        · subst hjk
          exact hk1 A hA
        · exact ⟨A, by rw [hfr1 j hjk]; exact hA, rfl, le_refl _, fun _ => rfl⟩
      obtain ⟨A1, hA1, hid1, hl1, hd1⟩ := h1A
      obtain ⟨A2, hA2, hid2, hl2, hd2⟩ := hk2 j A1 hA1
      refine ⟨A2, hA2, by rw [hid2, hid1], le_trans hl1 hl2, ?_⟩
      intro hf
      have e1 := hd1 hf
      subst e1
      exact hd2 hf

theorem range_split (n k : ℕ) (h : k < n) :
    List.range n = List.range k ++ k :: List.range' (k + 1) (n - k - 1) := by
  rw [List.range_eq_range', List.range_eq_range']
  have e : List.range' 0 n = List.range' 0 ((n - k - 1 + 1) + k) := by
    congr 1
    omega
  rw [e, ← List.range'_append_1, List.range'_succ, Nat.zero_add]

/-- The outer loop over the first `n` positions, seen from the position `k < n` of an alive
snake `A`: the loop over the positions before `k` returns a world `wk` in which the
positions from `k` on are untouched, the callback for `k` returns `processed`, and the rest
of the loop returns the final world `w'`, in which the positions up to `k` are as the
callback left them. -/
theorem runSnakes_range_at (rng : ℕ → Random) (w : World) (n k : ℕ) (A : Snake)
    (hB : Bodies w) (hkn : k < n) (hk : w.snakes[k]? = some A) (ha : A.alive = true) :
    ∃ wk w' head rest tail, runSnakes rng (List.range k) w = some wk ∧ Bodies wk ∧
      (∀ j, k ≤ j → wk.snakes[j]? = w.snakes[j]?) ∧
      A.segments = head :: rest ∧ (A.moved head rest).segments.getLast? = some tail ∧
      runSnakes rng (List.range' (k + 1) (n - k - 1))
        (processed rng k wk (A.moved head rest) (A.newHead head) tail) = some w' ∧
      runSnakes rng (List.range n) w = some w' ∧
      (∀ j, j ≤ k → w'.snakes[j]?
        = (processed rng k wk (A.moved head rest) (A.newHead head) tail).snakes[j]?) := by
  obtain ⟨wk, hwk, hBk, _, hfrk, _, _⟩ := runSnakes_total rng (List.range k) w hB
  have hge : ∀ j, k ≤ j → wk.snakes[j]? = w.snakes[j]? := by
    intro j hj
    apply hfrk
    rw [List.mem_range]
    omega
  have hkA : wk.snakes[k]? = some A := by rw [hge k (le_refl k)]; exact hk
  rcases processSnake_cases rng k wk hBk with ⟨_, hd⟩ | ⟨A2, head, rest, tail, hk2, _, hs, hl, h1⟩
  · have := hd A hkA
    rw [ha] at this
    cases this
  · rw [hkA] at hk2
    cases hk2
    obtain ⟨w1, hw1, hB1, _, _, _, _⟩ := processSnake_total rng k wk hBk
    rw [h1] at hw1
    cases hw1
    obtain ⟨w', hw', _, _, hfr', _, _⟩ := runSnakes_total rng (List.range' (k + 1) (n - k - 1))
      (processed rng k wk (A.moved head rest) (A.newHead head) tail) hB1
    refine ⟨wk, w', head, rest, tail, hwk, hBk, hge, hs, hl, hw', ?_, ?_⟩
    · rw [range_split _ k hkn, runSnakes_append, hwk, Option.some_bind,
        runSnakes_cons, h1, Option.some_bind, hw']
    · intro j hj
      apply hfr'
      rw [List.mem_range'_1]
      omega

theorem hitters_isEmpty_eq_false_iff (head : Point) (snake : Snake) (others : List Snake) :
    (hitters head snake others).isEmpty = false ↔
      ∃ (j : ℕ) (B : Snake) (i : ℕ) (seg : Point), others[j]? = some B ∧ B.id ≠ snake.id ∧
        B.alive = true ∧ 3 ≤ i ∧ B.segments[i]? = some seg ∧
        checkCollision head.x head.y snake.radius seg.x seg.y B.radius := by
  rw [List.isEmpty_eq_false_iff_exists_mem]
  constructor
  · rintro ⟨B, hB⟩
    unfold hitters at hB
    rw [List.mem_filter] at hB
    obtain ⟨hmem, hh⟩ := hB
    obtain ⟨j, hj⟩ := List.mem_iff_getElem?.1 hmem
    unfold hits at hh
    simp only [Bool.and_eq_true, decide_eq_true_eq] at hh
    obtain ⟨i, seg, hi, hseg, hc⟩ := (bodyLoop_three head snake B).1 hh.2
    exact ⟨j, B, i, seg, hj, fun e => hh.1.1 e.symm, hh.1.2, hi, hseg, hc⟩
  · rintro ⟨j, B, i, seg, hj, hid, hal, hi, hseg, hc⟩
    refine ⟨B, ?_⟩
    unfold hitters
    rw [List.mem_filter]
    refine ⟨List.getElem?_mem hj, ?_⟩
    unfold hits
    simp only [Bool.and_eq_true, decide_eq_true_eq]
    exact ⟨⟨fun e => hid e.symm, hal⟩, (bodyLoop_three head snake B).2 ⟨i, seg, hi, hseg, hc⟩⟩

/-- After the callback for an alive snake that has moved to `moved`, the snake at `k` keeps
its new head and its id, and it is not alive exactly when its head circle, with the radius
it has after the pickup pass, overlaps a segment of index at least 3 of a snake of the map
that is alive and has another id. -/
theorem processed_death_iff (rng : ℕ → Random) (k : ℕ) (w : World) (A moved : Snake)
    (head : Point) (tl : List Point) (tail : Point) (hk : w.snakes[k]? = some A)
    (hm : moved.segments = head :: tl) (ha : moved.alive = true) :
    ∃ A' tl', (processed rng k w moved head tail).snakes[k]? = some A' ∧
      A'.segments = head :: tl' ∧ A'.id = moved.id ∧
      (hitters head A' w.snakes).isEmpty
        = (hitters head (sweep head tail moved w.orbs).1 w.snakes).isEmpty ∧
      (A'.alive = false ↔
        ∃ (j : ℕ) (B : Snake) (i : ℕ) (seg : Point), w.snakes[j]? = some B ∧ B.id ≠ moved.id ∧
          B.alive = true ∧ 3 ≤ i ∧ B.segments[i]? = some seg ∧
          checkCollision head.x head.y A'.radius seg.x seg.y B.radius) := by
  have hsn := processed_snakes rng k w moved head tail
  obtain ⟨g, hfed, _⟩ := sweep_snake head tail w.orbs moved
  have hrad : ∀ b : Bool, ((sweep head tail moved w.orbs).1.setAlive b).radius
      = (sweep head tail moved w.orbs).1.radius := fun _ => rfl
  have hemp := hitters_isEmpty_eq_false_iff head (sweep head tail moved w.orbs).1 w.snakes
  have hfa : (sweep head tail moved w.orbs).1.alive = true := by
    rw [sweep_alive]
    exact ha
  have hfid : (sweep head tail moved w.orbs).1.id = moved.id := sweep_id _ _ _ _
  refine ⟨_, tl ++ List.replicate g tail, by rw [hsn]; exact getElem?_set_self_of_lt _ _ _ _ hk,
    ?_, ?_, ?_, ?_⟩
  · show (sweep head tail moved w.orbs).1.segments = head :: (tl ++ List.replicate g tail)
    rw [hfed]
    simp only [hm, List.cons_append]
  · exact hfid
  · unfold hitters
    congr 1
    apply List.filter_congr
    intro o _
    exact hits_congr head _ _ o rfl (hrad _)
  · simp only [hrad, hfa]
    rw [← hfid, ← hemp]
    cases (hitters head (sweep head tail moved w.orbs).1 w.snakes).isEmpty <;>
      simp [Snake.setAlive]

theorem radius_mono (s s' : Snake) (h : s.segments.length ≤ s'.segments.length) :
    s.radius ≤ s'.radius := by
  unfold Snake.radius
  have : Real.sqrt (s.segments.length : ℝ) ≤ Real.sqrt (s'.segments.length : ℝ) :=
    Real.sqrt_le_sqrt (by exact_mod_cast h)
  linarith

theorem radius_ge (s : Snake) : 8 ≤ s.radius := by
  unfold Snake.radius SEGMENT_RADIUS
  have := Real.sqrt_nonneg (s.segments.length : ℝ)
  linarith

theorem checkCollision_mono (x1 y1 r1 r1' x2 y2 r2 : ℝ) (h : r1 ≤ r1')
    (hc : checkCollision x1 y1 r1 x2 y2 r2) : checkCollision x1 y1 r1' x2 y2 r2 := by
  unfold checkCollision at hc ⊢
  simp only at hc ⊢
  linarith

/-- The fate of an alive snake `A` at position `k` in the outer loop over the first `n`
positions: with `wk` the world when its turn comes and `w'` the world after the loop, the
snake found at `k` in `w'` has the head `update` gave it and is not alive exactly when that
head, with the radius it has after the pickup pass, overlaps a segment of index at least 3
of a snake of `wk` that is alive and has another id. -/
theorem snake_fate (rng : ℕ → Random) (w : World) (n k : ℕ) (A : Snake)
    (hB : Bodies w) (hkn : k < n) (hk : w.snakes[k]? = some A) (ha : A.alive = true) :
    ∃ wk w' A' head rest tl', runSnakes rng (List.range k) w = some wk ∧
      (∀ j, k ≤ j → wk.snakes[j]? = w.snakes[j]?) ∧
      runSnakes rng (List.range n) w = some w' ∧
      w'.snakes[k]? = some A' ∧ A'.id = A.id ∧
      A.segments = head :: rest ∧ A'.segments = A.newHead head :: tl' ∧
      A.segments.length ≤ A'.segments.length ∧
      (A'.alive = false ↔
        ∃ (j : ℕ) (B : Snake) (i : ℕ) (seg : Point), wk.snakes[j]? = some B ∧ B.id ≠ A.id ∧
          B.alive = true ∧ 3 ≤ i ∧ B.segments[i]? = some seg ∧
          checkCollision (A.newHead head).x (A.newHead head).y A'.radius
            seg.x seg.y B.radius) := by
  obtain ⟨wk, w', head, rest, tail, hwk, hBk, hge, hs, hl, _, hw', hle⟩ :=
    runSnakes_range_at rng w n k A hB hkn hk ha
  have hkA : wk.snakes[k]? = some A := by rw [hge k (le_refl k)]; exact hk
  obtain ⟨A', tl', hA', hseg, hid, _, hiff⟩ :=
    processed_death_iff rng k wk A (A.moved head rest) (A.newHead head) _ tail hkA rfl ha
  refine ⟨wk, w', A', head, rest, tl', hwk, hge, hw', by rw [hle k (le_refl k)]; exact hA',
    hid, hs, hseg, ?_, hiff⟩
  obtain ⟨w1, hw1, _, _, _, _, hk1⟩ := processSnake_total rng k wk hBk
  rw [processSnake_eq rng k wk A head rest tail hkA ha hs hl] at hw1
  cases hw1
  obtain ⟨A1, hA1, _, hlen, _⟩ := hk1 A hkA
  rw [hA'] at hA1
  cases hA1
  exact hlen

/-- Two alive snakes `A` (position `a`) and `B` (a later position `b`) with different ids,
the moved head of `A` overlapping a segment of index at least 3 of `B`: `A` ends the tick not
alive, and `B` ends it not alive exactly when its own head overlaps such a segment of a
snake other than `A` that is alive when the turn of `B` comes. -/
theorem first_dies_core (rng : ℕ → Random) (w : World) (a b : ℕ) (A B : Snake)
    (head : Point) (rest : List Point) (hB : Bodies w) (hab : a < b)
    (hA : w.snakes[a]? = some A) (hBb : w.snakes[b]? = some B)
    (haA : A.alive = true) (haB : B.alive = true) (hid : A.id ≠ B.id)
    (hs : A.segments = head :: rest)
    (hhit : ∃ (i : ℕ) (seg : Point), 3 ≤ i ∧ B.segments[i]? = some seg ∧
      checkCollision (A.newHead head).x (A.newHead head).y A.radius seg.x seg.y B.radius) :
    ∃ wb w' A' B' headB tlB, runSnakes rng (List.range b) w = some wb ∧
      gameLoop rng w = some w' ∧
      w'.snakes[a]? = some A' ∧ A'.alive = false ∧
      w'.snakes[b]? = some B' ∧ B'.segments = headB :: tlB ∧
      (B'.alive = false ↔
        ∃ (j : ℕ) (C : Snake) (i : ℕ) (seg : Point), j ≠ a ∧ wb.snakes[j]? = some C ∧
          C.id ≠ B.id ∧ C.alive = true ∧ 3 ≤ i ∧ C.segments[i]? = some seg ∧
          checkCollision headB.x headB.y B'.radius seg.x seg.y C.radius) ∧
      (w.snakes.length = 2 → B'.alive = true) := by
  have hb : b < w.snakes.length := (List.getElem?_eq_some_iff.1 hBb).1
  -- the fate of `A`, in the whole loop and in the loop up to the turn of `B`
  have fateA : ∀ n, a < n → ∃ wn An, runSnakes rng (List.range n) w = some wn ∧
      wn.snakes[a]? = some An ∧ An.alive = false := by
    intro n han
    obtain ⟨wa, wn, An, head2, rest2, tl, _, hge, hwn, hAn, _, hs2, _, hlen, hiff⟩ :=
      snake_fate rng w n a A hB han hA haA
    rw [hs] at hs2
    cases hs2
    refine ⟨wn, An, hwn, hAn, hiff.2 ?_⟩
    obtain ⟨i, seg, hi, hseg, hc⟩ := hhit
    exact ⟨b, B, i, seg, by rw [hge b hab.le]; exact hBb, fun e => hid e.symm, haB, hi, hseg,
      checkCollision_mono _ _ _ _ _ _ _ (radius_mono A An hlen) hc⟩
  obtain ⟨w1, A', hw1, hA', hdead⟩ := fateA w.snakes.length (by omega)
  obtain ⟨wb1, Ab, hwb1, hAb, hdeadb⟩ := fateA b hab
  obtain ⟨wb, w', B', headB, restB, tlB, hwb, hgeb, hw', hB', _, _, hsegB, _, hiffB⟩ :=
    snake_fate rng w w.snakes.length b B hB hb hBb haB
  rw [hw1] at hw'
  cases hw'
  rw [hwb1] at hwb
  cases hwb
  have hiff2 : B'.alive = false ↔
      ∃ (j : ℕ) (C : Snake) (i : ℕ) (seg : Point), j ≠ a ∧ wb1.snakes[j]? = some C ∧
        C.id ≠ B.id ∧ C.alive = true ∧ 3 ≤ i ∧ C.segments[i]? = some seg ∧
        checkCollision (B.newHead headB).x (B.newHead headB).y B'.radius seg.x seg.y C.radius := by
    rw [hiffB]
    constructor
    · rintro ⟨j, C, i, seg, hj, h1, h2, h3, h4, h5⟩
      refine ⟨j, C, i, seg, ?_, hj, h1, h2, h3, h4, h5⟩
      rintro rfl
      rw [hAb] at hj
      cases hj
      rw [hdeadb] at h2
      cases h2
    · rintro ⟨j, C, i, seg, _, hj, h1, h2, h3, h4, h5⟩
      exact ⟨j, C, i, seg, hj, h1, h2, h3, h4, h5⟩
  refine ⟨wb1, w1, A', B', B.newHead headB, tlB, hwb1, hw1, hA', hdead, hB', hsegB, hiff2, ?_⟩
  intro h2
  by_contra hne
  have hf : B'.alive = false := by simpa using hne
  obtain ⟨j, C, i, seg, hja, hj, h1, _⟩ := hiff2.1 hf
  have hlenb : wb1.snakes.length = w.snakes.length := by
    obtain ⟨x, hx, _, hl, _⟩ := runSnakes_total rng (List.range b) w hB
    rw [hwb1] at hx
    cases hx
    exact hl
  have hjlt : j < wb1.snakes.length := (List.getElem?_eq_some_iff.1 hj).1
  have hjb : j = b := by omega
  subst hjb
  rw [hgeb j (le_refl j), hBb] at hj
  cases hj
  exact h1 rfl

/-! ## C4: the agent-versus-agent rule -/

/-- C4: an alive snake `A` at position `k` of the map is not alive after `gameLoop()` if and
only if, in the world `wk` in which its turn comes, there is a snake `B` with another id
that is alive and has a segment of index at least 3 that `checkCollision` finds overlapping
the head circle of `A` (its new head, its radius after the pickup pass); in particular it
stays alive when every alive snake of `wk` has its id. -/
theorem gameLoop_death_iff (rng : ℕ → Random) (w : World) (k : ℕ) (A : Snake)
    (hB : Bodies w) (hk : w.snakes[k]? = some A) (ha : A.alive = true) :
    ∃ wk w' A' head' tl', runSnakes rng (List.range k) w = some wk ∧
      wk.snakes[k]? = some A ∧ gameLoop rng w = some w' ∧
      w'.snakes[k]? = some A' ∧ A'.segments = head' :: tl' ∧
      (A'.alive = false ↔
        ∃ (j : ℕ) (B : Snake) (i : ℕ) (seg : Point), wk.snakes[j]? = some B ∧ B.id ≠ A.id ∧
          B.alive = true ∧ 3 ≤ i ∧ B.segments[i]? = some seg ∧
          checkCollision head'.x head'.y A'.radius seg.x seg.y B.radius) ∧
      ((∀ (j : ℕ) (B : Snake), wk.snakes[j]? = some B → B.alive = true → B.id = A.id) →
        A'.alive = true) := by
  have hlt : k < w.snakes.length := (List.getElem?_eq_some_iff.1 hk).1
  obtain ⟨wk, w', A', head, rest, tl', hwk, hge, hw', hA', _, _, hseg, _, hiff⟩ :=
    snake_fate rng w w.snakes.length k A hB hlt hk ha
  refine ⟨wk, w', A', A.newHead head, tl', hwk, by rw [hge k (le_refl k)]; exact hk, hw', hA',
    hseg, hiff, ?_⟩
  intro honly
  by_contra hne
  have hf : A'.alive = false := by simpa using hne
  obtain ⟨j, B, _, _, hj, hid, hal, _⟩ := hiff.1 hf
  exact hid (honly j B hj hal)

/-! ## Facts about the concrete inputs -/

theorem wrap_eq_self (v : ℝ) (h0 : 0 ≤ v) (h1 : v < MAP_SIZE) : wrap v = v := by
  unfold wrap
  have e : v + MAP_SIZE = ((1 : ℕ) : ℝ) * MAP_SIZE + v := by
    push_cast
    ring
  rw [e]
  exact jsMod_add_mul v MAP_SIZE 1 h0 h1

theorem checkCollision_of_sq_lt (x1 y1 r1 x2 y2 r2 : ℝ) (h1 : 8 ≤ r1) (h2 : 8 ≤ r2)
    (h : (x1 - x2) * (x1 - x2) + (y1 - y2) * (y1 - y2) < 256) :
    checkCollision x1 y1 r1 x2 y2 r2 := by
  unfold checkCollision
  simp only
  have : Real.sqrt ((x1 - x2) * (x1 - x2) + (y1 - y2) * (y1 - y2)) < 16 := by
    rw [Real.sqrt_lt' (by norm_num)]
    norm_num
    linarith
  linarith

theorem scenarioSnake_segments :
    scenarioSnake.segments = ⟨100, 100⟩ :: [⟨100 - 8, 100⟩, ⟨100 - 16, 100⟩,
      ⟨100 - 24, 100⟩, ⟨100 - 32, 100⟩, ⟨100 - 40, 100⟩, ⟨100 - 48, 100⟩,
      ⟨100 - 56, 100⟩, ⟨100 - 64, 100⟩, ⟨100 - 72, 100⟩] :=
  initialSegments_eq _ _

theorem scenarioSnake_newHead : scenarioSnake.newHead ⟨100, 100⟩ = ⟨102.5, 100⟩ := by
  have e1 : wrap ((100 : ℝ) + 1 * 2.5) = 102.5 := by
    rw [wrap_eq_self _ (by norm_num) (by norm_num [MAP_SIZE])]
    norm_num
  have e2 : wrap ((100 : ℝ) + 0 * 2.5) = 100 := by
    rw [wrap_eq_self _ (by norm_num) (by norm_num [MAP_SIZE])]
    norm_num
  simp only [Snake.newHead, Snake.stepSpeed, scenarioSnake, Snake.new, BASE_SPEED,
    Bool.false_eq_true, if_false, e1, e2]

theorem leftSnake_newHead : leftSnake.newHead ⟨80, 110⟩ = ⟨77.5, 110⟩ := by
  have e1 : wrap ((80 : ℝ) + -1 * 2.5) = 77.5 := by
    rw [wrap_eq_self _ (by norm_num) (by norm_num [MAP_SIZE])]
    norm_num
  have e2 : wrap ((110 : ℝ) + 0 * 2.5) = 110 := by
    rw [wrap_eq_self _ (by norm_num) (by norm_num [MAP_SIZE])]
    norm_num
  simp only [Snake.newHead, Snake.stepSpeed, leftSnake, BASE_SPEED,
    Bool.false_eq_true, if_false, e1, e2]

theorem duelWorld_bodies : Bodies duelWorld := by
  intro s hs
  simp only [duelWorld, List.mem_cons, List.mem_singleton, List.not_mem_nil, or_false] at hs
  rcases hs with rfl | rfl
  · rw [scenarioSnake_segments]
    exact List.cons_ne_nil _ _
  · exact List.cons_ne_nil _ _

/-- The moved head of `scenarioSnake` is over the last segment of `leftSnake`. -/
theorem duel_hit :
    ∃ (i : ℕ) (seg : Point), 3 ≤ i ∧ leftSnake.segments[i]? = some seg ∧
      checkCollision (scenarioSnake.newHead ⟨100, 100⟩).x (scenarioSnake.newHead ⟨100, 100⟩).y
        scenarioSnake.radius seg.x seg.y leftSnake.radius := by
  refine ⟨9, ⟨102.5, 110⟩, by norm_num, rfl, ?_⟩
  rw [scenarioSnake_newHead]
  exact checkCollision_of_sq_lt _ _ _ _ _ _ (radius_ge _) (radius_ge _) (by norm_num)

theorem duel_ids : scenarioSnake.id ≠ leftSnake.id := by
  simp [scenarioSnake, leftSnake, Snake.new]

theorem scenarioSnake_update :
    scenarioSnake.update = some (scenarioSnake.moved ⟨100, 100⟩ [⟨100 - 8, 100⟩,
      ⟨100 - 16, 100⟩, ⟨100 - 24, 100⟩, ⟨100 - 32, 100⟩, ⟨100 - 40, 100⟩, ⟨100 - 48, 100⟩,
      ⟨100 - 56, 100⟩, ⟨100 - 64, 100⟩, ⟨100 - 72, 100⟩]) :=
  update_eq_moved _ _ _ scenarioSnake_segments rfl

theorem leftSnake_update :
    leftSnake.update = some (leftSnake.moved ⟨80, 110⟩ [⟨82.5, 110⟩, ⟨85, 110⟩, ⟨87.5, 110⟩,
      ⟨90, 110⟩, ⟨92.5, 110⟩, ⟨95, 110⟩, ⟨97.5, 110⟩, ⟨100, 110⟩, ⟨102.5, 110⟩]) :=
  update_eq_moved _ _ _ rfl rfl

/-! ## C3: collision symmetry -/

/-- C3, as stated, fails: in `duelWorld` both snakes are alive and have different ids; the
head circle of the first after its `update()` overlaps segment 9 of the second, before and
after the second has moved, and the head circle of the second after its `update()` overlaps
segment 3 of the first, before and after the first has moved; yet after `gameLoop()` the
second snake is alive.  The first snake dies in its own turn, and in the turn of the second
the test `!otherSnake.alive` skips it. -/
theorem mutual_collision_one_survives :
    scenarioSnake.alive = true ∧ leftSnake.alive = true ∧ scenarioSnake.id ≠ leftSnake.id ∧
    (∃ A1 B1 hA tlA hB tlB, scenarioSnake.update = some A1 ∧ leftSnake.update = some B1 ∧
      A1.segments = hA :: tlA ∧ B1.segments = hB :: tlB ∧
      (∃ seg, leftSnake.segments[9]? = some seg ∧
        checkCollision hA.x hA.y A1.radius seg.x seg.y leftSnake.radius) ∧
      (∃ seg, B1.segments[9]? = some seg ∧
        checkCollision hA.x hA.y A1.radius seg.x seg.y B1.radius) ∧
      (∃ seg, scenarioSnake.segments[3]? = some seg ∧
        checkCollision hB.x hB.y B1.radius seg.x seg.y scenarioSnake.radius) ∧
      (∃ seg, A1.segments[3]? = some seg ∧
        checkCollision hB.x hB.y B1.radius seg.x seg.y A1.radius)) ∧
    ∃ w' B', gameLoop rng0 duelWorld = some w' ∧ w'.snakes[1]? = some B' ∧
      B'.alive = true := by
  refine ⟨rfl, rfl, duel_ids, ?_, ?_⟩
  · refine ⟨_, _, _, _, _, _, scenarioSnake_update, leftSnake_update, rfl, rfl, ?_, ?_, ?_, ?_⟩
    · refine ⟨⟨102.5, 110⟩, rfl, ?_⟩
      rw [scenarioSnake_newHead]
      exact checkCollision_of_sq_lt _ _ _ _ _ _ (radius_ge _) (radius_ge _) (by norm_num)
    · refine ⟨⟨100, 110⟩, rfl, ?_⟩
      rw [scenarioSnake_newHead]
      exact checkCollision_of_sq_lt _ _ _ _ _ _ (radius_ge _) (radius_ge _) (by norm_num)
    · refine ⟨⟨100 - 24, 100⟩, by rw [scenarioSnake_segments]; rfl, ?_⟩
      rw [leftSnake_newHead]
      exact checkCollision_of_sq_lt _ _ _ _ _ _ (radius_ge _) (radius_ge _) (by norm_num)
    · refine ⟨⟨100 - 16, 100⟩, rfl, ?_⟩
      rw [leftSnake_newHead]
      exact checkCollision_of_sq_lt _ _ _ _ _ _ (radius_ge _) (radius_ge _) (by norm_num)
  · obtain ⟨_, w', _, B', _, _, _, hw', _, _, hB', _, _, halive⟩ :=
      first_dies_core rng0 duelWorld 0 1 scenarioSnake leftSnake _ _ duelWorld_bodies
        (by norm_num) rfl rfl rfl rfl duel_ids scenarioSnake_segments duel_hit
    exact ⟨w', B', hw', hB', halive rfl⟩

/-- C3 (amended): for two alive snakes with different ids, `A` earlier in the iteration order
of the map than `B`, such that the head circle of `A` after its `update()` overlaps a body
segment of `B` of index at least 3: `gameLoop()` returns, `A` is not alive after it, and `B`
is not alive after it exactly when its own head circle overlaps a body segment (index at
least 3) of a snake other than `A` that is alive and has another id when the turn of `B`
comes; with no third snake in the map `B` stays alive. -/
theorem gameLoop_first_dies (rng : ℕ → Random) (w : World) (a b : ℕ) (A B : Snake)
    (head : Point) (rest : List Point) (hB : Bodies w) (hab : a < b)
    (hA : w.snakes[a]? = some A) (hBb : w.snakes[b]? = some B)
    (haA : A.alive = true) (haB : B.alive = true) (hid : A.id ≠ B.id)
    (hs : A.segments = head :: rest)
    (hhit : ∃ (i : ℕ) (seg : Point), 3 ≤ i ∧ B.segments[i]? = some seg ∧
      checkCollision (A.newHead head).x (A.newHead head).y A.radius seg.x seg.y B.radius) :
    ∃ wb w' A' B' headB tlB, runSnakes rng (List.range b) w = some wb ∧
      gameLoop rng w = some w' ∧
      w'.snakes[a]? = some A' ∧ A'.alive = false ∧
      w'.snakes[b]? = some B' ∧ B'.segments = headB :: tlB ∧
      (B'.alive = false ↔
        ∃ (j : ℕ) (C : Snake) (i : ℕ) (seg : Point), j ≠ a ∧ wb.snakes[j]? = some C ∧
          C.id ≠ B.id ∧ C.alive = true ∧ 3 ≤ i ∧ C.segments[i]? = some seg ∧
          checkCollision headB.x headB.y B'.radius seg.x seg.y C.radius) ∧
      (w.snakes.length = 2 → B'.alive = true) :=
  first_dies_core rng w a b A B head rest hB hab hA hBb haA haB hid hs hhit

/-- In `duelWorld` the tick leaves the first snake not alive and the second alive. -/
theorem gameLoop_first_dies_witness :
    ∃ w' A' B', gameLoop rng0 duelWorld = some w' ∧
      w'.snakes[0]? = some A' ∧ A'.alive = false ∧
      w'.snakes[1]? = some B' ∧ B'.alive = true := by
  obtain ⟨_, w', A', B', _, _, _, hw', hA', hdead, hB', _, _, halive⟩ :=
    gameLoop_first_dies rng0 duelWorld 0 1 scenarioSnake leftSnake _ _ duelWorld_bodies
      (by norm_num) rfl rfl rfl rfl duel_ids scenarioSnake_segments duel_hit
  exact ⟨w', A', B', hw', hA', hdead, hB', halive rfl⟩

/-- In `soloWorld` the only snake is alive after the tick. -/
theorem gameLoop_death_iff_witness :
    ∃ w' A', gameLoop rng0 soloWorld = some w' ∧ w'.snakes[0]? = some A' ∧
      A'.alive = true := by
  have hB : Bodies soloWorld := by
    intro s hs
    simp only [soloWorld, List.mem_singleton] at hs
    subst hs
    rw [scenarioSnake_segments]
    exact List.cons_ne_nil _ _
  obtain ⟨wk, w', A', _, _, hwk, _, hw', hA', _, _, honly⟩ :=
    gameLoop_death_iff rng0 soloWorld 0 scenarioSnake hB rfl rfl
  refine ⟨w', A', hw', hA', honly ?_⟩
  have e : wk = soloWorld := by
    have : runSnakes rng0 (List.range 0) soloWorld = some soloWorld := rfl
    rw [this] at hwk
    exact (Option.some.inj hwk).symm
  subst e
  intro j B hj _
  have hj0 : j = 0 := by
    have := (List.getElem?_eq_some_iff.1 hj).1
    simp only [soloWorld, List.length_singleton] at this
    omega
  subst hj0
  simp only [soloWorld, List.getElem?_cons_zero, Option.some.injEq] at hj
  rw [← hj]

/-! ## C6: growth on pickup -/

theorem sqrt_scenario : Real.sqrt (((0 : ℝ) - 8) * (0 - 8) + (0 - 0) * (0 - 0)) = 8 := by
  rw [show (((0 : ℝ) - 8) * (0 - 8) + (0 - 0) * (0 - 0)) = 8 ^ 2 by norm_num]
  exact Real.sqrt_sq (by norm_num)

theorem checkCollision_scenario (snake : Snake) :
    checkCollision (0 : ℝ) 0 snake.radius 8 0 4 := by
  have h8 := radius_ge snake
  unfold checkCollision
  simp only
  rw [sqrt_scenario]
  linarith

/-- C6: `grow(n)` on a non-empty body appends exactly `n` copies of the last segment and
leaves the segments before them as they were (length `+ n`); the pickup loop of `gameLoop()`
returns and is the `sweep` of the orbs: met from the last to the first, every orb whose
circle the head circle overlaps when it is met (radius of the snake as grown so far) is
removed and the snake gets `value` more copies of its last segment, the other orbs stay in
their order and the replacements follow them; an orb of radius 4 and value 1 at `(8, 0)` is
picked up by a head at `(0, 0)` (also with radius exactly 10) and the body grows by one. -/
theorem pickup_growth (rng : ℕ → Random) :
    (∀ (s : Snake) (n : ℕ), s.segments ≠ [] →
      ∃ tail s', s.segments.getLast? = some tail ∧ s.grow n = some s' ∧
        s'.segments = s.segments ++ List.replicate n tail ∧
        s'.segments.length = s.segments.length + n) ∧
    (∀ (head : Point) (snake : Snake) (orbs : List Orb) (draws : ℕ), snake.segments ≠ [] →
      ∃ tail g, snake.segments.getLast? = some tail ∧
        orbLoop rng head orbs.length snake orbs draws =
          some ((sweep head tail snake orbs).1,
            (sweep head tail snake orbs).2 ++
              freshOrbs rng draws (orbs.length - ((sweep head tail snake orbs).2).length),
            draws + 3 * (orbs.length - ((sweep head tail snake orbs).2).length)) ∧
        (sweep head tail snake orbs).1.segments = snake.segments ++ List.replicate g tail ∧
        g + (((sweep head tail snake orbs).2).map Orb.value).sum
          = (orbs.map Orb.value).sum) ∧
    (∀ (head tail : Point) (snake : Snake) (pre : List Orb) (o : Orb),
      sweep head tail snake [] = (snake, []) ∧
      sweep head tail snake (pre ++ [o]) =
        if checkCollision head.x head.y snake.radius o.x o.y o.radius then
          sweep head tail
            { snake with segments := snake.segments ++ List.replicate o.value tail } pre
        else ((sweep head tail snake pre).1, (sweep head tail snake pre).2 ++ [o])) ∧
    checkCollision 0 0 10 8 0 4 ∧
    (∀ (snake : Snake) (draws : ℕ) (color : Color), snake.segments ≠ [] →
      ∃ fed, orbLoop rng ⟨0, 0⟩ 1 snake
          [{ x := 8, y := 0, color := color, radius := 4, value := 1 }] draws
          = some (fed, [randomOrb rng draws], draws + 3) ∧
        fed.segments.length = snake.segments.length + 1) := by
  refine ⟨?_, ?_, ?_, ?_, ?_⟩
  · intro s n hs
    obtain ⟨tail, ht⟩ := exists_getLast? s.segments hs
    exact ⟨tail, _, ht, grow_eq s tail n ht, rfl, by simp⟩
  · intro head snake orbs draws hs
    obtain ⟨tail, ht⟩ := exists_getLast? snake.segments hs
    obtain ⟨g, h1, h2⟩ := sweep_snake head tail orbs snake
    refine ⟨tail, g, ht, ?_, by rw [h1], h2⟩
    have := orbLoop_eq_sweep rng head tail orbs snake [] draws ht
    simpa only [List.append_nil] using this
  · intro head tail snake pre o
    exact ⟨rfl, sweep_append_singleton head tail snake pre o⟩
  · unfold checkCollision
    simp only
    rw [sqrt_scenario]
    norm_num
  · intro snake draws color hs
    obtain ⟨tail, ht⟩ := exists_getLast? snake.segments hs
    have hc : checkCollision (0 : ℝ) 0 snake.radius 8 0 4 := checkCollision_scenario snake
    refine ⟨{ snake with segments := snake.segments ++ List.replicate 1 tail }, ?_, by simp⟩
    rw [orbLoop]
    simp only [List.getElem?_cons_zero, if_pos hc, grow_eq snake tail 1 ht]
    simp [orbLoop]

theorem cornerSnake_segments :
    cornerSnake.segments = ⟨4997.5, 0⟩ :: [⟨4997.5 - 8, 0⟩, ⟨4997.5 - 16, 0⟩,
      ⟨4997.5 - 24, 0⟩, ⟨4997.5 - 32, 0⟩, ⟨4997.5 - 40, 0⟩, ⟨4997.5 - 48, 0⟩,
      ⟨4997.5 - 56, 0⟩, ⟨4997.5 - 64, 0⟩, ⟨4997.5 - 72, 0⟩] :=
  initialSegments_eq _ _

theorem cornerSnake_newHead : cornerSnake.newHead ⟨4997.5, 0⟩ = ⟨0, 0⟩ := by
  have e1 : wrap ((4997.5 : ℝ) + 1 * 2.5) = 0 := by
    unfold wrap
    have e : (4997.5 : ℝ) + 1 * 2.5 + MAP_SIZE = ((2 : ℕ) : ℝ) * MAP_SIZE + 0 := by
      norm_num [MAP_SIZE]
    rw [e]
    exact jsMod_add_mul 0 MAP_SIZE 2 (le_refl 0) (by norm_num [MAP_SIZE])
  have e2 : wrap ((0 : ℝ) + 0 * 2.5) = 0 := by
    rw [wrap_eq_self _ (by norm_num) (by norm_num [MAP_SIZE])]
    norm_num
  simp only [Snake.newHead, Snake.stepSpeed, cornerSnake, Snake.new, BASE_SPEED,
    Bool.false_eq_true, if_false, e1, e2]

theorem setAlive_self (s : Snake) : s.setAlive s.alive = s := rfl

theorem hitters_singleton_self (head : Point) (snake A : Snake) (h : snake.id = A.id) :
    hitters head snake [A] = [] := by
  unfold hitters
  rw [List.filter_cons_of_neg (by rw [hits_same_id head snake A h]; simp)]
  rfl

/-- The pickup scenario through a whole tick: in `pickupWorld` the snake steps to `(0, 0)`,
picks up the orb at `(8, 0)` and has 11 segments after `gameLoop()`; the orb is replaced. -/
theorem pickup_growth_witness :
    ∃ w' A', gameLoop rng0 pickupWorld = some w' ∧ w'.snakes[0]? = some A' ∧
      A'.segments.length = 11 ∧ A'.alive = true ∧ w'.orbs = [randomOrb rng0 0] := by
  have hl : cornerMoved.segments.getLast? = some ⟨4997.5 - 64, 0⟩ := by
    simp [cornerMoved, Snake.moved]
  have hp := processSnake_eq rng0 0 pickupWorld cornerSnake _ _ _ rfl rfl
    cornerSnake_segments hl
  have hg : gameLoop rng0 pickupWorld = runSnakes rng0 [0] pickupWorld := rfl
  rw [hg, runSnakes_cons, hp, Option.some_bind, runSnakes_nil, cornerSnake_newHead]
  obtain ⟨_, _, hsw, _, _⟩ := pickup_growth rng0
  have hs2 := (hsw ⟨0, 0⟩ ⟨4997.5 - 64, 0⟩ cornerMoved []
    { x := 8, y := 0, color := Color.hsl 0, radius := 4, value := 1 }).2
  rw [List.nil_append, if_pos (checkCollision_scenario cornerMoved),
    (hsw ⟨0, 0⟩ ⟨4997.5 - 64, 0⟩ _ []
      { x := 8, y := 0, color := Color.hsl 0, radius := 4, value := 1 }).1] at hs2
  have hfed : sweep ⟨0, 0⟩ ⟨4997.5 - 64, 0⟩ cornerMoved pickupWorld.orbs
      = ({ cornerMoved with
            segments := cornerMoved.segments ++ List.replicate 1 ⟨4997.5 - 64, 0⟩ }, []) := hs2
  have hst : hitters ⟨0, 0⟩ (sweep ⟨0, 0⟩ ⟨4997.5 - 64, 0⟩ cornerMoved pickupWorld.orbs).1
      pickupWorld.snakes = [] := by
    rw [hfed]
    apply hitters_singleton_self
    rfl
  have hsn := processed_snakes rng0 0 pickupWorld cornerMoved ⟨0, 0⟩ ⟨4997.5 - 64, 0⟩
  rw [hst, List.isEmpty_nil, if_pos rfl, setAlive_self, hfed] at hsn
  refine ⟨_, { cornerMoved with
      segments := cornerMoved.segments ++ List.replicate 1 ⟨4997.5 - 64, 0⟩ }, rfl, ?_, ?_, ?_, ?_⟩
  · show (processed rng0 0 pickupWorld cornerMoved ⟨0, 0⟩ ⟨4997.5 - 64, 0⟩).snakes[0]? = _
    rw [hsn]
    rfl
  · simp [cornerMoved, Snake.moved]
  · rfl
  · show (processed rng0 0 pickupWorld cornerMoved ⟨0, 0⟩ ⟨4997.5 - 64, 0⟩).orbs = _
    unfold processed
    simp only [hfed]
    rw [show pickupWorld.snakes = [cornerSnake] from rfl, hitters_singleton_self]
    · simp [pickupWorld, freshOrbs]
      rfl
    · rfl

/-! ## C7: the orb population -/

/-- A snake alone in the map is alive after the tick. -/
theorem alone_survives (rng : ℕ → Random) (w : World) (A : Snake) (hw : w.snakes = [A])
    (hs : A.segments ≠ []) (ha : A.alive = true) :
    ∃ w' A', gameLoop rng w = some w' ∧ w'.snakes[0]? = some A' ∧ A'.alive = true := by
  have hB : Bodies w := by
    intro s hmem
    rw [hw, List.mem_singleton] at hmem
    subst hmem
    exact hs
  have hk : w.snakes[0]? = some A := by rw [hw]; rfl
  obtain ⟨wk, w', A', _, _, _, hwk, _, hw', hA', _, _, _, _, hiff⟩ :=
    snake_fate rng w w.snakes.length 0 A hB (by rw [hw]; exact Nat.one_pos) hk ha
  refine ⟨w', A', hw', hA', ?_⟩
  by_contra hne
  have hf : A'.alive = false := by simpa using hne
  obtain ⟨j, B, _, _, hj, hid, _⟩ := hiff.1 hf
  have e : wk = w := by
    have : runSnakes rng (List.range 0) w = some w := rfl
    rw [this] at hwk
    exact (Option.some.inj hwk).symm
  subst e
  rw [hw] at hj
  have hj0 : j = 0 := by
    have := (List.getElem?_eq_some_iff.1 hj).1
    simp only [List.length_singleton] at this
    omega
  subst hj0
  simp only [List.getElem?_cons_zero, Option.some.injEq] at hj
  exact hid (by rw [hj])

/-- A callback of the outer `forEach` after which the snake at `k` is still alive (if it was)
leaves the number of orbs unchanged. -/
theorem processSnake_orbs_of_alive (rng : ℕ → Random) (k : ℕ) (w w1 : World) (hB : Bodies w)
    (h1 : processSnake rng k w = some w1)
    (hal : ∀ A A1 : Snake, w.snakes[k]? = some A → w1.snakes[k]? = some A1 →
      A.alive = true → A1.alive = true) :
    w1.orbs.length = w.orbs.length := by
  rcases processSnake_cases rng k w hB with ⟨h, _⟩ | ⟨A, head, rest, tail, hk, ha, hs, hl, h⟩
  · rw [h] at h1
    cases h1
    rfl
  · rw [h] at h1
    cases h1
    have hsn := processed_snakes rng k w (A.moved head rest) (A.newHead head) tail
    have hA1 := getElem?_set_self_of_lt w.snakes k
      ((sweep (A.newHead head) tail (A.moved head rest) w.orbs).1.setAlive
        (if (hitters (A.newHead head)
            (sweep (A.newHead head) tail (A.moved head rest) w.orbs).1 w.snakes).isEmpty
          then (sweep (A.newHead head) tail (A.moved head rest) w.orbs).1.alive else false))
      A hk
    rw [← hsn] at hA1
    have halive := hal A _ hk hA1 ha
    have hemp : (hitters (A.newHead head)
        (sweep (A.newHead head) tail (A.moved head rest) w.orbs).1 w.snakes).isEmpty = true := by
      by_contra hne
      rw [if_neg hne] at halive
      cases halive
    rw [processed_orbs_length, List.isEmpty_iff.1 hemp]
    rfl

theorem runSnakes_orbs_of_alive (rng : ℕ → Random) (ks : List ℕ) :
    ks.Nodup → ∀ w w' : World, Bodies w → runSnakes rng ks w = some w' →
      (∀ (k : ℕ) (A A' : Snake), w.snakes[k]? = some A → w'.snakes[k]? = some A' →
        A.alive = true → A'.alive = true) →
      w'.orbs.length = w.orbs.length := by
  induction ks with
  | nil =>
    intro _ w w' _ h _
    rw [runSnakes_nil] at h
    cases h
    rfl
  | cons k ks ih =>
    intro hnd w w' hB h hal
    rw [List.nodup_cons] at hnd
    obtain ⟨w1, h1, hB1, _, hfr1, _, _⟩ := processSnake_total rng k w hB
    rw [runSnakes_cons, h1, Option.some_bind] at h
    obtain ⟨w2, h2, _, _, hfr2, _, _⟩ := runSnakes_total rng ks w1 hB1
    rw [h] at h2
    cases h2
    have hk' : w'.snakes[k]? = w1.snakes[k]? := hfr2 k hnd.1
    have e1 : w1.orbs.length = w.orbs.length := by
      apply processSnake_orbs_of_alive rng k w w1 hB h1
      intro A A1 hA hA1 ha
      exact hal k A A1 hA (by rw [hk']; exact hA1) ha
    have e2 : w'.orbs.length = w1.orbs.length := by
      apply ih hnd.2 w1 w' hB1 h
      intro j B B' hB1j hB'j hb
      by_cases hjk : j = k
      · subst hjk
        rw [hk', hB1j] at hB'j
        cases hB'j
        exact hb
      · rw [hfr1 j hjk] at hB1j
        exact hal j B B' hB1j hB'j hb
    rw [e2, e1]

/-- C7: the pickup pass of `gameLoop()` for a snake (which has a head whenever the pass
runs) returns and leaves the number of orbs unchanged: the orbs after it are orbs that were
there, in their order, followed by one replacement for each orb that went, and no
replacement was tested; hence `gameLoop()` returns, and a tick after which every snake that
was alive is still alive ends with the orb count it started with. -/
theorem orb_count_invariant (rng : ℕ → Random) :
    (∀ (head : Point) (snake : Snake) (orbs : List Orb) (draws : ℕ), snake.segments ≠ [] →
      ∃ fed orbs' draws' kept, orbLoop rng head orbs.length snake orbs draws
          = some (fed, orbs', draws') ∧
        orbs'.length = orbs.length ∧ kept.Sublist orbs ∧
        orbs' = kept ++ freshOrbs rng draws (orbs.length - kept.length) ∧
        draws' = draws + 3 * (orbs.length - kept.length)) ∧
    (∀ w : World, Bodies w →
      ∃ w', gameLoop rng w = some w' ∧
        ((∀ (k : ℕ) (A A' : Snake), w.snakes[k]? = some A → w'.snakes[k]? = some A' →
            A.alive = true → A'.alive = true) →
          w'.orbs.length = w.orbs.length)) := by
  constructor
  · intro head snake orbs draws hs
    obtain ⟨tail, ht⟩ := exists_getLast? snake.segments hs
    have h := orbLoop_eq_sweep rng head tail orbs snake [] draws ht
    simp only [List.append_nil] at h
    have hle := sweep_kept_length_le head tail orbs snake
    refine ⟨_, _, _, (sweep head tail snake orbs).2, h, ?_, sweep_kept_sublist head tail orbs snake,
      rfl, rfl⟩
    simp only [List.length_append, freshOrbs, List.length_map, List.length_range]
    omega
  · intro w hB
    obtain ⟨w', hw', _⟩ := runSnakes_total rng (List.range w.snakes.length) w hB
    exact ⟨w', hw', runSnakes_orbs_of_alive rng _ (List.nodup_range _) w w' hB hw'⟩

/-- In `pickupWorld` one orb is picked up and nobody dies: the tick ends with one orb. -/
theorem orb_count_invariant_witness :
    ∃ w', gameLoop rng0 pickupWorld = some w' ∧ w'.orbs.length = 1 := by
  have hB : Bodies pickupWorld := by
    intro s hs
    simp only [pickupWorld, List.mem_singleton] at hs
    subst hs
    rw [cornerSnake_segments]
    exact List.cons_ne_nil _ _
  obtain ⟨w', hw', hlen⟩ := (orb_count_invariant rng0).2 pickupWorld hB
  refine ⟨w', hw', hlen ?_⟩
  intro k A A' hA hA' _
  have hk0 : k = 0 := by
    have := (List.getElem?_eq_some_iff.1 hA).1
    simp only [pickupWorld, List.length_singleton] at this
    omega
  subst hk0
  obtain ⟨w2, A2, hw2, hA2, halive⟩ := alone_survives rng0 pickupWorld cornerSnake rfl
    (by rw [cornerSnake_segments]; exact List.cons_ne_nil _ _) rfl
  rw [hw'] at hw2
  cases hw2
  rw [hA'] at hA2
  cases hA2
  exact halive

/-! ## C10: the score in reachable worlds -/

theorem mem_mapSet (l : List Snake) (v s : Snake) (h : s ∈ mapSet l v) : s = v ∨ s ∈ l := by
  induction l with
  | nil =>
    simp only [mapSet, List.mem_singleton] at h
    exact Or.inl h
  | cons a l ih =>
    unfold mapSet at h
    split at h
    · rcases List.mem_cons.1 h with h | h
      · exact Or.inl h
      · exact Or.inr (List.mem_cons_of_mem _ h)
    · rcases List.mem_cons.1 h with h | h
      · exact Or.inr (by rw [h]; exact List.mem_cons_self _ _)
      · rcases ih h with h | h
        · exact Or.inl h
        · exact Or.inr (List.mem_cons_of_mem _ h)

theorem mapGet_mem (l : List Snake) (id : String) (s : Snake) (h : mapGet l id = some s) :
    s ∈ l :=
  List.mem_of_find?_eq_some h

theorem initialSegments_length (x y : ℝ) :
    (initialSegments x y).length = INITIAL_SNAKE_LENGTH := by
  rw [initialSegments_eq]
  rfl

theorem setDirection_segments (s s' : Snake) (x y : JSNumber)
    (h : s.setDirection x y = some s') : s'.segments = s.segments := by
  unfold Snake.setDirection at h
  split at h
  · cases h
  · rename_i head tl hs
    simp only at h
    split at h
    · split at h
      · cases h
        rfl
      · cases h
    · cases h
      rfl

theorem minLength_bodies {w : World} (h : MinLength w) : Bodies w := by
  intro s hs hnil
  have := h s hs
  rw [hnil] at this
  simp [INITIAL_SNAKE_LENGTH] at this

theorem minLength_mapSet {w : World} (h : MinLength w) (v : Snake)
    (hv : INITIAL_SNAKE_LENGTH ≤ v.segments.length) :
    ∀ s ∈ mapSet w.snakes v, INITIAL_SNAKE_LENGTH ≤ s.segments.length := by
  intro s hs
  rcases mem_mapSet _ _ _ hs with rfl | hs
  · exact hv
  · exact h s hs

theorem minLength_gameLoop (rng : ℕ → Random) {w w' : World} (h : MinLength w)
    (ht : gameLoop rng w = some w') : MinLength w' := by
  obtain ⟨w2, h2, _, hlen, _, _, hk⟩ :=
    runSnakes_total rng (List.range w.snakes.length) w (minLength_bodies h)
  unfold gameLoop at ht
  rw [ht] at h2
  cases h2
  intro s hs
  obtain ⟨j, hj⟩ := List.mem_iff_getElem?.1 hs
  have hjlt : j < w.snakes.length := by
    rw [← hlen]
    exact (List.getElem?_eq_some_iff.1 hj).1
  obtain ⟨A', hA', _, hle, _⟩ := hk j w.snakes[j] (List.getElem?_eq_getElem hjlt)
  rw [hj] at hA'
  cases hA'
  exact le_trans (h _ (List.getElem_mem _)) hle

/-- Every snake of a reachable world has at least `INITIAL_SNAKE_LENGTH` segments. -/
theorem reachable_minLength (rng : ℕ → Random) {w : World} (h : Reachable rng w) :
    MinLength w := by
  induction h with
  | start => intro s hs; cases hs
  | join socketId nickname _ ih =>
    exact minLength_mapSet ih _ (le_of_eq (initialSegments_length _ _).symm)
  | mouse_move socketId x y _ hm ih =>
    rename_i w1 w2
    unfold mouse_move at hm
    split at hm
    · cases hm
      exact ih
    · rename_i snake hg
      split at hm
      · split at hm
        · cases hm
        · rename_i turned ht
          cases hm
          apply minLength_mapSet ih
          rw [setDirection_segments _ _ _ _ ht]
          exact ih _ (mapGet_mem _ _ _ hg)
      · cases hm
        exact ih
  | boost_start socketId _ ih =>
    rename_i w1
    unfold boost_start
    split
    · exact ih
    · rename_i snake hg
      split
      · exact minLength_mapSet ih _ (ih snake (mapGet_mem _ _ snake hg))
      · exact ih
  | boost_end socketId _ ih =>
    rename_i w1
    unfold boost_end
    split
    · exact ih
    · rename_i snake hg
      split
      · exact minLength_mapSet ih _ (ih snake (mapGet_mem _ _ snake hg))
      · exact ih
  | disconnect socketId _ ih =>
    intro s hs
    exact ih s (List.mem_of_mem_filter hs)
  | tick _ ht ih => exact minLength_gameLoop rng ih ht

theorem score_eq (s : Snake) :
    s.score = ((s.segments.length : ℤ) - (INITIAL_SNAKE_LENGTH : ℤ)) * 10 := by
  unfold Snake.score
  have : ((s.segments.length : ℝ) - (INITIAL_SNAKE_LENGTH : ℝ)) * 10
      = ((((s.segments.length : ℤ) - (INITIAL_SNAKE_LENGTH : ℤ)) * 10 : ℤ) : ℝ) := by
    push_cast
    ring
  rw [this, Int.floor_intCast]

/-- C10: in every world reachable from start-up through `join`, the other handlers and
ticks, the score of every snake of the map is
`max(0, (segments.length - INITIAL_SNAKE_LENGTH) * 10)`. -/
theorem score_pure_function (rng : ℕ → Random) (w : World) (h : Reachable rng w) :
    ∀ s ∈ w.snakes,
      s.score = max 0 (((s.segments.length : ℤ) - (INITIAL_SNAKE_LENGTH : ℤ)) * 10) := by
  intro s hs
  have hmin := reachable_minLength rng h s hs
  rw [score_eq, max_eq_right]
  have : (INITIAL_SNAKE_LENGTH : ℤ) ≤ (s.segments.length : ℤ) := by exact_mod_cast hmin
  nlinarith

/-- After start-up, a `join`, a `boost_start` and one tick, `gameLoop()` has returned and the
score of every snake is as C10 says. -/
theorem score_pure_function_witness :
    ∃ w', gameLoop rng0 (boost_start "a" (join rng0 "a" none (initial rng0))) = some w' ∧
      ∀ s ∈ w'.snakes,
        s.score = max 0 (((s.segments.length : ℤ) - (INITIAL_SNAKE_LENGTH : ℤ)) * 10) := by
  have hr : Reachable rng0 (boost_start "a" (join rng0 "a" none (initial rng0))) :=
    Reachable.boost_start "a" (Reachable.join "a" none Reachable.start)
  obtain ⟨w', hw', _⟩ := runSnakes_total rng0 (List.range _) _
    (minLength_bodies (reachable_minLength rng0 hr))
  exact ⟨w', hw', score_pure_function rng0 w' (Reachable.tick hr hw')⟩

/-! ## C9: how often the death branch runs -/

theorem radius_le (s : Snake) (h : s.segments.length ≤ 25) : s.radius ≤ 9.5 := by
  unfold Snake.radius SEGMENT_RADIUS
  have h1 : Real.sqrt (s.segments.length : ℝ) ≤ Real.sqrt 25 :=
    Real.sqrt_le_sqrt (by exact_mod_cast h)
  have h2 : Real.sqrt 25 = 5 := by
    rw [show (25 : ℝ) = 5 ^ 2 by norm_num]
    exact Real.sqrt_sq (by norm_num)
  rw [h2] at h1
  linarith

theorem not_checkCollision_of_far_y (x1 y1 r1 x2 y2 r2 d : ℝ) (hr : r1 + r2 ≤ d)
    (hd : d ≤ |y1 - y2|) : ¬ checkCollision x1 y1 r1 x2 y2 r2 := by
  unfold checkCollision
  simp only
  have : |y1 - y2| ≤ Real.sqrt ((x1 - x2) * (x1 - x2) + (y1 - y2) * (y1 - y2)) :=
    Real.abs_le_sqrt (by nlinarith [mul_self_nonneg (x1 - x2)])
  linarith

theorem not_checkCollision_of_far_x (x1 y1 r1 x2 y2 r2 d : ℝ) (hr : r1 + r2 ≤ d)
    (hd : d ≤ |x1 - x2|) : ¬ checkCollision x1 y1 r1 x2 y2 r2 := by
  unfold checkCollision
  simp only
  have : |x1 - x2| ≤ Real.sqrt ((x1 - x2) * (x1 - x2) + (y1 - y2) * (y1 - y2)) :=
    Real.abs_le_sqrt (by nlinarith [mul_self_nonneg (y1 - y2)])
  linarith

/-- No segment test succeeds against a snake none of whose segments allows it. -/
theorem hits_eq_false (head : Point) (snake other : Snake)
    (h : ∀ seg ∈ other.segments,
      ¬ checkCollision head.x head.y snake.radius seg.x seg.y other.radius) :
    hits head snake other = false := by
  have hb : bodyLoop head snake other 3 = false := by
    rw [← Bool.not_eq_true, bodyLoop_three]
    rintro ⟨j, seg, _, hj, hc⟩
    exact h seg (List.getElem?_mem hj) hc
  simp [hits, hb]

theorem hits_eq_true (head : Point) (snake other : Snake) (hid : snake.id ≠ other.id)
    (ha : other.alive = true) (j : ℕ) (seg : Point) (hj : 3 ≤ j)
    (hseg : other.segments[j]? = some seg)
    (hc : checkCollision head.x head.y snake.radius seg.x seg.y other.radius) :
    hits head snake other = true := by
  have hb : bodyLoop head snake other 3 = true :=
    (bodyLoop_three head snake other).2 ⟨j, seg, hj, hseg, hc⟩
  simp [hits, hb, hid, ha]

/-- The callback of the outer `forEach` when there is no orb. -/
theorem processed_no_orbs (rng : ℕ → Random) (k : ℕ) (w : World) (moved : Snake)
    (head tail : Point) (ho : w.orbs = []) :
    processed rng k w moved head tail =
      { snakes := w.snakes.set k
          (if (hitters head moved w.snakes).isEmpty then moved else (moved.die).1)
        orbs := (hitters head moved w.snakes).flatMap (fun _ => (moved.die).2)
        emitted := w.emitted ++ (hitters head moved w.snakes).map
          (fun o => Emit.player_died moved.id o.id o.nickname moved.score)
        draws := w.draws } := by
  have hsw : sweep head tail moved [] = (moved, []) := rfl
  unfold processed
  simp only [ho, hsw]
  simp [freshOrbs]

theorem upperSnake_segments :
    upperSnake.segments = ⟨126.5, 109.5⟩ :: [⟨126.5 - 8, 109.5⟩, ⟨126.5 - 16, 109.5⟩,
      ⟨126.5 - 24, 109.5⟩, ⟨126.5 - 32, 109.5⟩, ⟨126.5 - 40, 109.5⟩, ⟨126.5 - 48, 109.5⟩,
      ⟨126.5 - 56, 109.5⟩, ⟨126.5 - 64, 109.5⟩, ⟨126.5 - 72, 109.5⟩] :=
  initialSegments_eq _ _

theorem lowerSnake_segments :
    lowerSnake.segments = ⟨126.5, 90.5⟩ :: [⟨126.5 - 8, 90.5⟩, ⟨126.5 - 16, 90.5⟩,
      ⟨126.5 - 24, 90.5⟩, ⟨126.5 - 32, 90.5⟩, ⟨126.5 - 40, 90.5⟩, ⟨126.5 - 48, 90.5⟩,
      ⟨126.5 - 56, 90.5⟩, ⟨126.5 - 64, 90.5⟩, ⟨126.5 - 72, 90.5⟩] :=
  initialSegments_eq _ _

theorem upperSnake_newHead : upperSnake.newHead ⟨126.5, 109.5⟩ = ⟨129, 109.5⟩ := by
  have e1 : wrap ((126.5 : ℝ) + 1 * 2.5) = 129 := by
    rw [wrap_eq_self _ (by norm_num) (by norm_num [MAP_SIZE])]
    norm_num
  have e2 : wrap ((109.5 : ℝ) + 0 * 2.5) = 109.5 := by
    rw [wrap_eq_self _ (by norm_num) (by norm_num [MAP_SIZE])]
    norm_num
  simp only [Snake.newHead, Snake.stepSpeed, upperSnake, Snake.new, BASE_SPEED,
    Bool.false_eq_true, if_false, e1, e2]

theorem lowerSnake_newHead : lowerSnake.newHead ⟨126.5, 90.5⟩ = ⟨129, 90.5⟩ := by
  have e1 : wrap ((126.5 : ℝ) + 1 * 2.5) = 129 := by
    rw [wrap_eq_self _ (by norm_num) (by norm_num [MAP_SIZE])]
    norm_num
  have e2 : wrap ((90.5 : ℝ) + 0 * 2.5) = 90.5 := by
    rw [wrap_eq_self _ (by norm_num) (by norm_num [MAP_SIZE])]
    norm_num
  simp only [Snake.newHead, Snake.stepSpeed, lowerSnake, Snake.new, BASE_SPEED,
    Bool.false_eq_true, if_false, e1, e2]

theorem upperMoved_segments :
    upperMoved.segments = [⟨129, 109.5⟩, ⟨126.5, 109.5⟩, ⟨126.5 - 8, 109.5⟩,
      ⟨126.5 - 16, 109.5⟩, ⟨126.5 - 24, 109.5⟩, ⟨126.5 - 32, 109.5⟩, ⟨126.5 - 40, 109.5⟩,
      ⟨126.5 - 48, 109.5⟩, ⟨126.5 - 56, 109.5⟩, ⟨126.5 - 64, 109.5⟩] := by
  show upperSnake.newHead ⟨126.5, 109.5⟩ :: _ = _
  rw [upperSnake_newHead]
  rfl

theorem lowerMoved_segments :
    lowerMoved.segments = [⟨129, 90.5⟩, ⟨126.5, 90.5⟩, ⟨126.5 - 8, 90.5⟩,
      ⟨126.5 - 16, 90.5⟩, ⟨126.5 - 24, 90.5⟩, ⟨126.5 - 32, 90.5⟩, ⟨126.5 - 40, 90.5⟩,
      ⟨126.5 - 48, 90.5⟩, ⟨126.5 - 56, 90.5⟩, ⟨126.5 - 64, 90.5⟩] := by
  show lowerSnake.newHead ⟨126.5, 90.5⟩ :: _ = _
  rw [lowerSnake_newHead]
  rfl

theorem scenarioMoved_segments :
    scenarioMoved.segments = [⟨102.5, 100⟩, ⟨100, 100⟩, ⟨100 - 8, 100⟩,
      ⟨100 - 16, 100⟩, ⟨100 - 24, 100⟩, ⟨100 - 32, 100⟩, ⟨100 - 40, 100⟩,
      ⟨100 - 48, 100⟩, ⟨100 - 56, 100⟩, ⟨100 - 64, 100⟩] := by
  show scenarioSnake.newHead ⟨100, 100⟩ :: _ = _
  rw [scenarioSnake_newHead]
  rfl

theorem radius_le_of_ten (s : Snake) (h : s.segments.length = 10) : s.radius ≤ 9.5 :=
  radius_le s (by rw [h]; norm_num)

theorem scenarioSnake_far (seg : Point) (h : seg ∈ scenarioSnake.segments) :
    (19 : ℝ) ≤ |129 - seg.x| := by
  rw [scenarioSnake_segments] at h
  simp only [List.mem_cons, List.mem_singleton, List.not_mem_nil, or_false] at h
  have hx : seg.x ≤ 100 := by
    rcases h with h | h | h | h | h | h | h | h | h | h <;> subst h <;> norm_num
  rw [abs_of_nonneg (by linarith)]
  linarith

theorem lowerSnake_far (seg : Point) (h : seg ∈ lowerSnake.segments) :
    (19 : ℝ) ≤ |109.5 - seg.y| := by
  rw [lowerSnake_segments] at h
  simp only [List.mem_cons, List.mem_singleton, List.not_mem_nil, or_false] at h
  have hy : seg.y = 90.5 := by
    rcases h with h | h | h | h | h | h | h | h | h | h <;> subst h <;> rfl
  rw [hy]
  norm_num

theorem upperMoved_far (seg : Point) (h : seg ∈ upperMoved.segments) :
    (19 : ℝ) ≤ |90.5 - seg.y| := by
  rw [upperMoved_segments] at h
  simp only [List.mem_cons, List.mem_singleton, List.not_mem_nil, or_false] at h
  have hy : seg.y = 109.5 := by
    rcases h with h | h | h | h | h | h | h | h | h | h <;> subst h <;> rfl
  rw [hy, abs_of_nonpos (by norm_num)]
  norm_num

theorem radius_sum_le (s o : Snake) (hs : s.segments.length = 10)
    (ho : o.segments.length = 10) : s.radius + o.radius ≤ 19 := by
  have h1 := radius_le_of_ten s hs
  have h2 := radius_le_of_ten o ho
  linarith

theorem upperMoved_length : upperMoved.segments.length = 10 := by
  rw [upperMoved_segments]
  rfl

theorem lowerMoved_length : lowerMoved.segments.length = 10 := by
  rw [lowerMoved_segments]
  rfl

theorem scenarioMoved_length : scenarioMoved.segments.length = 10 := by
  rw [scenarioMoved_segments]
  rfl

theorem scenarioSnake_length : scenarioSnake.segments.length = 10 := by
  rw [scenarioSnake_segments]
  rfl

theorem lowerSnake_length : lowerSnake.segments.length = 10 := by
  rw [lowerSnake_segments]
  rfl

/-- First callback of the tick in `tripleWorld`: `upperSnake` moves and hits nobody. -/
theorem triple_step0 :
    processSnake rng0 0 tripleWorld =
      some { snakes := [upperMoved, lowerSnake, scenarioSnake], orbs := [], emitted := [],
             draws := 0 } := by
  have hl : upperMoved.segments.getLast? = some ⟨126.5 - 64, 109.5⟩ := by
    rw [upperMoved_segments]
    rfl
  have hp := processSnake_eq rng0 0 tripleWorld upperSnake _ _ _ rfl rfl upperSnake_segments hl
  have h2 : hits ⟨129, 109.5⟩ upperMoved lowerSnake = false :=
    hits_eq_false _ _ _ (fun seg h => not_checkCollision_of_far_y _ _ _ _ _ _ 19
      (radius_sum_le _ _ upperMoved_length lowerSnake_length) (lowerSnake_far seg h))
  have h3 : hits ⟨129, 109.5⟩ upperMoved scenarioSnake = false :=
    hits_eq_false _ _ _ (fun seg h => not_checkCollision_of_far_x _ _ _ _ _ _ 19
      (radius_sum_le _ _ upperMoved_length scenarioSnake_length) (scenarioSnake_far seg h))
  have h1 : hits ⟨129, 109.5⟩ upperMoved upperSnake = false :=
    hits_same_id _ upperMoved upperSnake rfl
  have hh : hitters ⟨129, 109.5⟩ upperMoved tripleWorld.snakes = [] := by
    show List.filter _ [upperSnake, lowerSnake, scenarioSnake] = []
    rw [List.filter_cons_of_neg (by rw [h1]; simp),
      List.filter_cons_of_neg (by rw [h2]; simp), List.filter_cons_of_neg (by rw [h3]; simp)]
    rfl
  rw [hp, upperSnake_newHead]
  show some (processed rng0 0 tripleWorld upperMoved ⟨129, 109.5⟩ ⟨126.5 - 64, 109.5⟩) = _
  rw [processed_no_orbs _ _ _ _ _ _ rfl, hh]
  rfl

/-- Second callback: `lowerSnake` moves and hits nobody. -/
theorem triple_step1 :
    processSnake rng0 1
        { snakes := [upperMoved, lowerSnake, scenarioSnake], orbs := [], emitted := [],
          draws := 0 } =
      some { snakes := [upperMoved, lowerMoved, scenarioSnake], orbs := [], emitted := [],
             draws := 0 } := by
  have hl : lowerMoved.segments.getLast? = some ⟨126.5 - 64, 90.5⟩ := by
    rw [lowerMoved_segments]
    rfl
  have hp := processSnake_eq rng0 1
    { snakes := [upperMoved, lowerSnake, scenarioSnake], orbs := [], emitted := [], draws := 0 }
    lowerSnake _ _ _ rfl rfl lowerSnake_segments hl
  have h1 : hits ⟨129, 90.5⟩ lowerMoved upperMoved = false :=
    hits_eq_false _ _ _ (fun seg h => not_checkCollision_of_far_y _ _ _ _ _ _ 19
      (radius_sum_le _ _ lowerMoved_length upperMoved_length) (upperMoved_far seg h))
  have h2 : hits ⟨129, 90.5⟩ lowerMoved lowerSnake = false :=
    hits_same_id _ lowerMoved lowerSnake rfl
  have h3 : hits ⟨129, 90.5⟩ lowerMoved scenarioSnake = false :=
    hits_eq_false _ _ _ (fun seg h => not_checkCollision_of_far_x _ _ _ _ _ _ 19
      (radius_sum_le _ _ lowerMoved_length scenarioSnake_length) (scenarioSnake_far seg h))
  have hh : hitters ⟨129, 90.5⟩ lowerMoved [upperMoved, lowerSnake, scenarioSnake] = [] := by
    show List.filter _ [upperMoved, lowerSnake, scenarioSnake] = []
    rw [List.filter_cons_of_neg (by rw [h1]; simp),
      List.filter_cons_of_neg (by rw [h2]; simp), List.filter_cons_of_neg (by rw [h3]; simp)]
    rfl
  rw [hp, lowerSnake_newHead]
  show some (processed rng0 1 _ lowerMoved ⟨129, 90.5⟩ ⟨126.5 - 64, 90.5⟩) = _
  rw [processed_no_orbs _ _ _ _ _ _ rfl]
  simp only [hh]
  rfl

theorem triple_ids : scenarioMoved.id ≠ upperMoved.id ∧ scenarioMoved.id ≠ lowerMoved.id := by
  constructor <;>
    simp [scenarioMoved, upperMoved, lowerMoved, Snake.moved, scenarioSnake, upperSnake,
      lowerSnake, Snake.new]

/-- The snakes the head of `scenarioSnake` hits after its step: both neighbours. -/
theorem triple_hitters :
    hitters ⟨102.5, 100⟩ scenarioMoved [upperMoved, lowerMoved, scenarioSnake]
      = [upperMoved, lowerMoved] := by
  have h1 : hits ⟨102.5, 100⟩ scenarioMoved upperMoved = true :=
    hits_eq_true _ _ _ triple_ids.1 rfl 4 ⟨126.5 - 24, 109.5⟩ (by norm_num)
      (by rw [upperMoved_segments]; rfl)
      (checkCollision_of_sq_lt _ _ _ _ _ _ (radius_ge _) (radius_ge _) (by norm_num))
  have h2 : hits ⟨102.5, 100⟩ scenarioMoved lowerMoved = true :=
    hits_eq_true _ _ _ triple_ids.2 rfl 4 ⟨126.5 - 24, 90.5⟩ (by norm_num)
      (by rw [lowerMoved_segments]; rfl)
      (checkCollision_of_sq_lt _ _ _ _ _ _ (radius_ge _) (radius_ge _) (by norm_num))
  have h3 : hits ⟨102.5, 100⟩ scenarioMoved scenarioSnake = false :=
    hits_same_id _ scenarioMoved scenarioSnake rfl
  show List.filter _ [upperMoved, lowerMoved, scenarioSnake] = _
  rw [List.filter_cons_of_pos h1, List.filter_cons_of_pos h2,
    List.filter_cons_of_neg (by rw [h3]; simp)]
  rfl

theorem scenarioMoved_score : scenarioMoved.score = 0 := by
  rw [score_eq, scenarioMoved_length]
  norm_num [INITIAL_SNAKE_LENGTH]

/-- Third callback: the head of `scenarioSnake` is over both neighbours, and the death
branch runs once for each. -/
theorem triple_step2 :
    processSnake rng0 2
        { snakes := [upperMoved, lowerMoved, scenarioSnake], orbs := [], emitted := [],
          draws := 0 } =
      some { snakes := [upperMoved, lowerMoved, (scenarioMoved.die).1]
             orbs := (scenarioMoved.die).2 ++ (scenarioMoved.die).2
             emitted := [Emit.player_died "a" "b" "B" 0, Emit.player_died "a" "c" "C" 0]
             draws := 0 } := by
  have hl : scenarioMoved.segments.getLast? = some ⟨100 - 64, 100⟩ := by
    rw [scenarioMoved_segments]
    rfl
  have hp := processSnake_eq rng0 2
    { snakes := [upperMoved, lowerMoved, scenarioSnake], orbs := [], emitted := [], draws := 0 }
    scenarioSnake _ _ _ rfl rfl scenarioSnake_segments hl
  rw [hp, scenarioSnake_newHead]
  show some (processed rng0 2 _ scenarioMoved ⟨102.5, 100⟩ ⟨100 - 64, 100⟩) = _
  rw [processed_no_orbs _ _ _ _ _ _ rfl]
  simp only [triple_hitters, scenarioMoved_score]
  have e1 : scenarioMoved.id = "a" := rfl
  have e2 : upperMoved.id = "b" := rfl
  have e3 : lowerMoved.id = "c" := rfl
  have e4 : upperMoved.nickname = "B" := by
    simp [upperMoved, Snake.moved, upperSnake, Snake.new]
  have e5 : lowerMoved.nickname = "C" := by
    simp [lowerMoved, Snake.moved, lowerSnake, Snake.new]
  simp [e1, e2, e3, e4, e5]

/-! The tick in `tripleWorld`, the failing input of C9: one snake dies, with its head over
the bodies of two other alive snakes. -/

/-- C9 fails on the code: in `tripleWorld`, which has no orb, the snake `"a"` (10 segments)
dies in the tick, but `gameLoop()` emits two `player_died` events addressed to it and adds
10 orbs, twice the `ceil(10 / 2) = 5` of one conversion of its body. -/
theorem double_death :
    ∃ w', gameLoop rng0 tripleWorld = some w' ∧
      w'.emitted = [Emit.player_died "a" "b" "B" 0, Emit.player_died "a" "c" "C" 0] ∧
      w'.snakes.map (fun s => (s.id, s.alive)) = [("b", true), ("c", true), ("a", false)] ∧
      tripleWorld.orbs.length = 0 ∧ w'.orbs.length = 10 ∧
      scenarioSnake.segments.length = 10 ∧ ⌈((10 : ℕ) : ℝ) / 2⌉₊ = 5 := by
  have hg : gameLoop rng0 tripleWorld = runSnakes rng0 [0, 1, 2] tripleWorld := rfl
  have hw : gameLoop rng0 tripleWorld =
      some { snakes := [upperMoved, lowerMoved, (scenarioMoved.die).1]
             orbs := (scenarioMoved.die).2 ++ (scenarioMoved.die).2
             emitted := [Emit.player_died "a" "b" "B" 0, Emit.player_died "a" "c" "C" 0]
             draws := 0 } := by
    rw [hg, runSnakes_cons, triple_step0, Option.some_bind, runSnakes_cons, triple_step1,
      Option.some_bind, runSnakes_cons, triple_step2, Option.some_bind, runSnakes_nil]
  refine ⟨_, hw, rfl, ?_, rfl, ?_, scenarioSnake_length, ?_⟩
  · rfl
  · show ((scenarioMoved.die).2 ++ (scenarioMoved.die).2).length = 10
    rw [List.length_append, die_orbs, List.length_map, everyOther_length, scenarioMoved_length]
  · rw [ceil_half]

/-! ## C11: the minimum length -/

theorem update_dead (s : Snake) (ha : s.alive = false) : s.update = some s := by
  unfold Snake.update
  simp [ha]

theorem update_no_head (s : Snake) (ha : s.alive = true) (hs : s.segments = []) :
    s.update = none := by
  unfold Snake.update
  simp [ha, hs]

/-- Whenever `update()` returns, the body has the length it had. -/
theorem update_length (s s' : Snake) (h : s.update = some s') :
    s'.segments.length = s.segments.length := by
  by_cases ha : s.alive = true
  · cases hs : s.segments with
    | nil =>
      rw [update_no_head s ha hs] at h
      cases h
    | cons head rest =>
      rw [Snake.update_eq s head rest hs ha] at h
      cases h
      simp
  · have ha2 : s.alive = false := by simpa using ha
    rw [update_dead s ha2] at h
    cases h
    rfl

theorem grow_length (s s' : Snake) (n : ℕ) (h : s.grow n = some s') :
    s'.segments.length = s.segments.length + n := by
  unfold Snake.grow at h
  split at h
  · cases h
  · cases h
    simp

/-- C11: the constructor builds exactly `INITIAL_SNAKE_LENGTH` segments; `update()` keeps the
length of the body, `grow(n)` adds `n` to it and `die()` leaves the body as it is; and in
every world reachable through the handlers and `gameLoop()` every alive snake has at least
`INITIAL_SNAKE_LENGTH` segments. -/
theorem min_length_invariant (rng : ℕ → Random) :
    (∀ (id : String) (nickname : Option String) (x y : ℝ) (u : Random),
      (Snake.new id nickname x y u).segments.length = INITIAL_SNAKE_LENGTH) ∧
    (∀ s s' : Snake, s.update = some s' → s'.segments.length = s.segments.length) ∧
    (∀ (s s' : Snake) (n : ℕ), s.grow n = some s' →
      s'.segments.length = s.segments.length + n) ∧
    (∀ s : Snake, (s.die).1.segments = s.segments) ∧
    (∀ w : World, Reachable rng w →
      ∀ s ∈ w.snakes, s.alive = true → INITIAL_SNAKE_LENGTH ≤ s.segments.length) := by
  refine ⟨fun _ _ x y _ => initialSegments_length x y, update_length, grow_length,
    fun _ => rfl, ?_⟩
  intro w hw s hs _
  exact reachable_minLength rng hw s hs

/-- After start-up, a `join`, a `boost_start` and one tick, `gameLoop()` has returned and
every alive snake has at least `INITIAL_SNAKE_LENGTH` segments. -/
theorem min_length_invariant_witness :
    ∃ w', gameLoop rng0 (boost_start "a" (join rng0 "a" none (initial rng0))) = some w' ∧
      ∀ s ∈ w'.snakes, s.alive = true → INITIAL_SNAKE_LENGTH ≤ s.segments.length := by
  have hr : Reachable rng0 (boost_start "a" (join rng0 "a" none (initial rng0))) :=
    Reachable.boost_start "a" (Reachable.join "a" none Reachable.start)
  obtain ⟨w', hw', _⟩ := runSnakes_total rng0 (List.range _) _
    (minLength_bodies (reachable_minLength rng0 hr))
  exact ⟨w', hw', (min_length_invariant rng0).2.2.2.2 w' (Reachable.tick hr hw')⟩

/-! ## C12: boosting and the length of the body -/

/-- Any number of `update()` calls on an alive snake with a head returns a snake of the same
length, still alive and with the same boosting flag. -/
theorem updateN_length (n : ℕ) :
    ∀ s : Snake, s.alive = true → s.segments ≠ [] →
      ∃ s', updateN n s = some s' ∧ s'.segments.length = s.segments.length ∧
        s'.alive = true ∧ s'.boosting = s.boosting := by
  induction n with
  | zero =>
    intro s ha _
    exact ⟨s, rfl, rfl, ha, rfl⟩
  | succ n ih =>
    intro s ha hne
    obtain ⟨head, rest, hs⟩ := List.exists_cons_of_ne_nil hne
    obtain ⟨s', h1, h2, h3, h4⟩ := ih (s.moved head rest) ha (by simp [Snake.moved])
    refine ⟨s', ?_, ?_, h3, h4⟩
    · show (s.update).bind (updateN n) = some s'
      rw [update_eq_moved s head rest hs ha]
      exact h1
    · rw [h2, moved_length s head rest hs]

/-- C12 fails on the code: `boostSnake` is alive, boosting and has 20 segments, and after
any number `n` of `update()` calls it still has 20 segments.  The boost branch of `update()`
pops one segment (`0 < BOOST_LOSS` holds once, `1 < BOOST_LOSS` does not), which only takes
back the head that was just prepended. -/
theorem boost_never_shrinks :
    boostSnake.alive = true ∧ boostSnake.boosting = true ∧
    boostSnake.segments.length = 20 ∧
    ∀ n : ℕ, ∃ s', updateN n boostSnake = some s' ∧ s'.segments.length = 20 ∧
      s'.boosting = true := by
  have hlen : boostSnake.segments.length = 20 := by
    simp [boostSnake]
  refine ⟨rfl, rfl, hlen, ?_⟩
  intro n
  have hne : boostSnake.segments ≠ [] := by
    intro h
    rw [h] at hlen
    cases hlen
  obtain ⟨s', h1, h2, _, h4⟩ := updateN_length n boostSnake rfl hne
  exact ⟨s', h1, by rw [h2, hlen], h4⟩

/-! ## C13: the leaderboard -/

theorem scoreOrder_iff (a b : Snake) : scoreOrder a b = true ↔ b.score ≤ a.score := by
  unfold scoreOrder
  rw [decide_eq_true_iff]
  omega

theorem scoreOrder_trans (a b c : Snake) (h1 : scoreOrder a b = true)
    (h2 : scoreOrder b c = true) : scoreOrder a c = true := by
  rw [scoreOrder_iff] at h1 h2 ⊢
  omega

theorem scoreOrder_total (a b : Snake) : (scoreOrder a b || scoreOrder b a) = true := by
  rw [Bool.or_eq_true, scoreOrder_iff, scoreOrder_iff]
  omega

/-- The sort is stable: the snakes of any one score stand in the sorted list in the order
they had. -/
theorem mergeSort_filter_score (l : List Snake) (v : ℤ) :
    (l.mergeSort scoreOrder).filter (fun s => decide (s.score = v))
      = l.filter (fun s => decide (s.score = v)) := by
  have hpw : (l.filter (fun s => decide (s.score = v))).Pairwise
      (fun a b => scoreOrder a b = true) := by
    rw [List.pairwise_iff_forall_sublist]
    intro a b hab
    have ha : a ∈ l.filter (fun s => decide (s.score = v)) := hab.subset (by simp)
    have hb : b ∈ l.filter (fun s => decide (s.score = v)) := hab.subset (by simp)
    rw [List.mem_filter, decide_eq_true_iff] at ha hb
    rw [scoreOrder_iff, ha.2, hb.2]
  have hsub : List.Sublist (l.filter (fun s => decide (s.score = v)))
      (l.mergeSort scoreOrder) :=
    List.sublist_mergeSort scoreOrder_trans scoreOrder_total hpw (List.filter_sublist l)
  have hsub2 := hsub.filter (fun s => decide (s.score = v))
  simp only [List.filter_filter, Bool.and_self] at hsub2
  have hperm : ((l.mergeSort scoreOrder).filter (fun s => decide (s.score = v))).Perm
      (l.filter (fun s => decide (s.score = v))) :=
    (List.mergeSort_perm l scoreOrder).filter _
  exact (hsub2.eq_of_length hperm.length_eq.symm).symm

theorem take_filter_prefix {α : Type} (p : α → Bool) (l : List α) (n : ℕ) :
    List.IsPrefix ((l.take n).filter p) (l.filter p) := by
  refine ⟨(l.drop n).filter p, ?_⟩
  rw [← List.filter_append, List.take_append_drop]

/-- C13: `getLeaderboard()` is the list of `{ nickname, score }` entries of a list `top` of
alive snakes of the map which, with the alive snakes `rest` it leaves out, is a rearrangement
of the alive snakes; its scores do not increase along the list, its length is
`min(10, number of alive snakes)`, no snake left out has a score above a listed one, and the
listed snakes of any one score are, in their map order, the first alive snakes of that
score. -/
theorem leaderboard_spec (w : World) :
    ∃ top rest : List Snake,
      getLeaderboard w = top.map
        (fun s => ({ nickname := s.nickname, score := s.score } : LeaderboardEntry)) ∧
      (top ++ rest).Perm (w.snakes.filter (fun s => s.alive)) ∧
      (∀ s ∈ top, s ∈ w.snakes ∧ s.alive = true) ∧
      ((getLeaderboard w).map LeaderboardEntry.score).Pairwise (fun a b => b ≤ a) ∧
      (getLeaderboard w).length = min 10 (w.snakes.filter (fun s => s.alive)).length ∧
      (∀ x ∈ rest, ∀ y ∈ top, x.score ≤ y.score) ∧
      (∀ v : ℤ, List.IsPrefix (top.filter (fun s => decide (s.score = v)))
        ((w.snakes.filter (fun s => s.alive)).filter (fun s => decide (s.score = v)))) := by
  have hsorted : ((w.snakes.filter (fun s => s.alive)).mergeSort scoreOrder).Pairwise
      (fun a b => scoreOrder a b = true) :=
    List.sorted_mergeSort scoreOrder_trans scoreOrder_total _
  refine ⟨((w.snakes.filter (fun s : Snake => s.alive)).mergeSort scoreOrder).take 10,
    ((w.snakes.filter (fun s : Snake => s.alive)).mergeSort scoreOrder).drop 10, ?_, ?_, ?_,
    ?_, ?_, ?_, ?_⟩
  · rfl
  · rw [List.take_append_drop]
    exact List.mergeSort_perm _ _
  · intro s hs
    have h1 := List.mem_mergeSort.1 (List.mem_of_mem_take hs)
    rw [List.mem_filter] at h1
    exact h1
  · unfold getLeaderboard
    rw [List.map_map, List.pairwise_map]
    refine (hsorted.sublist (List.take_sublist 10 _)).imp ?_
    intro a b hab
    exact (scoreOrder_iff a b).1 hab
  · unfold getLeaderboard
    rw [List.length_map, List.length_take, List.length_mergeSort]
  · intro x hx y hy
    have h := hsorted
    rw [← List.take_append_drop 10
      ((w.snakes.filter (fun s => s.alive)).mergeSort scoreOrder), List.pairwise_append] at h
    exact (scoreOrder_iff y x).1 (h.2.2 y hy x hx)
  · intro v
    have h := take_filter_prefix (fun s : Snake => decide (s.score = v))
      ((w.snakes.filter (fun s : Snake => s.alive)).mergeSort scoreOrder) 10
    rw [mergeSort_filter_score] at h
    exact h

theorem score_of_ten (s : Snake) (h : s.segments.length = 10) : s.score = 0 := by
  rw [score_eq, h]
  norm_num [INITIAL_SNAKE_LENGTH]

theorem upperSnake_length : upperSnake.segments.length = 10 := by
  rw [upperSnake_segments]
  rfl

/-- In `tripleWorld` the three snakes are alive and have the score 0: the leaderboard lists
them in the order of the map. -/
theorem leaderboard_spec_witness :
    getLeaderboard tripleWorld =
      [{ nickname := "B", score := 0 }, { nickname := "C", score := 0 },
        { nickname := scenarioSnake.nickname, score := 0 }] := by
  obtain ⟨top, rest, hmap, _, hmem, _, hlen, _, hstab⟩ := leaderboard_spec tripleWorld
  have hL : tripleWorld.snakes.filter (fun s => s.alive)
      = [upperSnake, lowerSnake, scenarioSnake] := rfl
  have hscore : ∀ s ∈ tripleWorld.snakes, s.score = 0 := by
    intro s hs
    simp only [tripleWorld, List.mem_cons, List.mem_singleton, List.not_mem_nil,
      or_false] at hs
    rcases hs with rfl | rfl | rfl
    · exact score_of_ten _ upperSnake_length
    · exact score_of_ten _ lowerSnake_length
    · exact score_of_ten _ scenarioSnake_length
  have h0 := hstab 0
  rw [hL] at h0 hlen
  have e1 : top.filter (fun s => decide (s.score = 0)) = top := by
    rw [List.filter_eq_self]
    intro s hs
    rw [decide_eq_true_iff]
    exact hscore s (hmem s hs).1
  have e2 : [upperSnake, lowerSnake, scenarioSnake].filter (fun s => decide (s.score = 0))
      = [upperSnake, lowerSnake, scenarioSnake] := by
    rw [List.filter_eq_self]
    intro s hs
    rw [decide_eq_true_iff]
    exact hscore s hs
  rw [e1, e2] at h0
  have hlen2 : top.length = 3 := by
    rw [hmap, List.length_map] at hlen
    exact hlen
  have htop : top = [upperSnake, lowerSnake, scenarioSnake] := h0.eq_of_length hlen2
  rw [hmap, htop]
  simp only [List.map_cons, List.map_nil, score_of_ten _ upperSnake_length,
    score_of_ten _ lowerSnake_length, score_of_ten _ scenarioSnake_length]
  have n1 : upperSnake.nickname = "B" := by simp [upperSnake, Snake.new]
  have n2 : lowerSnake.nickname = "C" := by simp [lowerSnake, Snake.new]
  rw [n1, n2]

/-! ## C14: the visibility filter -/

theorem viewDist_eq_dist (x y : ℝ) (head : Point) :
    viewDist x y head = dist (euclid x y) (euclid head.x head.y) := by
  rw [dist_euclid]
  unfold viewDist
  rw [sq, sq]

theorem viewDist_lt_iff (head p : Point) :
    viewDist p.x p.y head < VIEW_DISTANCE ↔ inView head p := by
  rw [viewDist_eq_dist]
  rfl

/-- The filter over the snakes returns when every snake it meets has a head, and keeps
exactly the snakes whose head is in view, in their order. -/
theorem visibleSnakes_eq (head : Point) :
    ∀ l : List Snake, (∀ s ∈ l, s.segments ≠ []) →
      visibleSnakes head l = some (l.filter (fun s => decide (headInView head s))) := by
  intro l
  induction l with
  | nil => intro _; rfl
  | cons s rest ih =>
    intro hne
    obtain ⟨h, tl, hs⟩ := List.exists_cons_of_ne_nil (hne s (List.mem_cons_self _ _))
    have ihr := ih (fun t ht => hne t (List.mem_cons_of_mem _ ht))
    unfold visibleSnakes
    rw [hs]
    simp only [ihr]
    by_cases hv : viewDist h.x h.y head < VIEW_DISTANCE
    · have hin : headInView head s := ⟨h, tl, hs, (viewDist_lt_iff head h).1 hv⟩
      rw [if_pos hv, List.filter_cons_of_pos (by simpa using hin)]
    · have hin : ¬ headInView head s := by
        rintro ⟨h', tl', hs', hi⟩
        rw [hs] at hs'
        cases hs'
        exact hv ((viewDist_lt_iff head h).2 hi)
      rw [if_neg hv, List.filter_cons_of_neg (by simpa using hin)]

theorem inView_self (head : Point) : inView head head := by
  unfold inView
  rw [dist_self]
  norm_num [VIEW_DISTANCE]

/-- What `getVisibleEntities` returns for an alive recipient with head `head`, when every
alive snake has a head. -/
theorem getVisibleEntities_alive (w : World) (playerId : String) (r : Snake) (head : Point)
    (tl : List Point) (hget : mapGet w.snakes playerId = some r) (ha : r.alive = true)
    (hs : r.segments = head :: tl)
    (hB : ∀ s ∈ w.snakes, s.alive = true → s.segments ≠ []) :
    getVisibleEntities playerId w =
      some { snakes := (w.snakes.filter (fun s => decide (seenFrom head s))).map Snake.toJSON
             orbs := w.orbs.filter (fun o => decide (inView head ⟨o.x, o.y⟩)) } := by
  have hne : ∀ s ∈ w.snakes.filter (fun s => s.alive), s.segments ≠ [] := by
    intro s hmem
    rw [List.mem_filter] at hmem
    exact hB s hmem.1 hmem.2
  have hsn : (w.snakes.filter (fun s => s.alive)).filter
      (fun s => decide (headInView head s))
      = w.snakes.filter (fun s => decide (seenFrom head s)) := by
    rw [List.filter_filter]
    apply List.filter_congr
    intro s _
    rw [Bool.eq_iff_iff]
    simp only [Bool.and_eq_true, decide_eq_true_iff, seenFrom]
    exact And.comm
  have horb : w.orbs.filter (fun orb => decide (viewDist orb.x orb.y head < VIEW_DISTANCE))
      = w.orbs.filter (fun o => decide (inView head ⟨o.x, o.y⟩)) := by
    apply List.filter_congr
    intro o _
    rw [Bool.eq_iff_iff, decide_eq_true_iff, decide_eq_true_iff]
    exact viewDist_lt_iff head ⟨o.x, o.y⟩
  unfold getVisibleEntities
  rw [hget]
  simp only [ha, Bool.true_eq_false, if_false, hs, visibleSnakes_eq head _ hne, hsn, horb]

/-- C14: for a recipient that is absent from the map or not alive, `getVisibleEntities`
returns two empty lists; for an alive recipient with head `head` (every alive snake having a
head) it returns the `toJSON` of exactly the alive snakes whose head is at Euclidean distance
strictly less than `VIEW_DISTANCE` from `head`, in map order and the recipient among them,
and exactly the orbs at such a distance, in their order; a point at distance exactly
`VIEW_DISTANCE` is not in view and one at `VIEW_DISTANCE - 1` is. -/
theorem visibility_filter (w : World) (playerId : String) :
    (mapGet w.snakes playerId = none →
      getVisibleEntities playerId w = some { snakes := [], orbs := [] }) ∧
    (∀ r : Snake, mapGet w.snakes playerId = some r → r.alive = false →
      getVisibleEntities playerId w = some { snakes := [], orbs := [] }) ∧
    (∀ (r : Snake) (head : Point) (tl : List Point), mapGet w.snakes playerId = some r →
      r.alive = true → r.segments = head :: tl →
      (∀ s ∈ w.snakes, s.alive = true → s.segments ≠ []) →
      getVisibleEntities playerId w =
        some { snakes := (w.snakes.filter (fun s => decide (seenFrom head s))).map Snake.toJSON
               orbs := w.orbs.filter (fun o => decide (inView head ⟨o.x, o.y⟩)) } ∧
      r ∈ w.snakes.filter (fun s => decide (seenFrom head s)) ∧
      (∀ s : Snake, s ∈ w.snakes.filter (fun s => decide (seenFrom head s)) ↔
        s ∈ w.snakes ∧ s.alive = true ∧ ∃ h t, s.segments = h :: t ∧
          dist (euclid h.x h.y) (euclid head.x head.y) < VIEW_DISTANCE) ∧
      (∀ o : Orb, o ∈ w.orbs.filter (fun o => decide (inView head ⟨o.x, o.y⟩)) ↔
        o ∈ w.orbs ∧ dist (euclid o.x o.y) (euclid head.x head.y) < VIEW_DISTANCE) ∧
      (∀ p : Point, dist (euclid p.x p.y) (euclid head.x head.y) = VIEW_DISTANCE →
        ¬ inView head p) ∧
      (∀ p : Point, dist (euclid p.x p.y) (euclid head.x head.y) = VIEW_DISTANCE - 1 →
        inView head p)) := by
  refine ⟨?_, ?_, ?_⟩
  · intro h
    unfold getVisibleEntities
    rw [h]
  · intro r h ha
    unfold getVisibleEntities
    rw [h]
    simp [ha]
  · intro r head tl hget ha hs hB
    refine ⟨getVisibleEntities_alive w playerId r head tl hget ha hs hB, ?_, ?_, ?_, ?_, ?_⟩
    · rw [List.mem_filter, decide_eq_true_iff]
      exact ⟨mapGet_mem _ _ _ hget, ha, head, tl, hs, inView_self head⟩
    · intro s
      rw [List.mem_filter, decide_eq_true_iff]
      rfl
    · intro o
      rw [List.mem_filter, decide_eq_true_iff]
      rfl
    · intro p hp hin
      unfold inView at hin
      rw [hp] at hin
      exact lt_irrefl _ hin
    · intro p hp
      unfold inView
      rw [hp]
      linarith

theorem dist_on_line (a b y : ℝ) (h : b ≤ a) :
    dist (euclid a y) (euclid b y) = a - b := by
  rw [dist_euclid]
  have e : (a - b) * (a - b) + (y - y) * (y - y) = (a - b) ^ 2 := by ring
  rw [e, Real.sqrt_sq (by linarith)]

/-- In `viewWorld` the recipient `"a"` sees itself and the orb at distance 1199, not the orb
at distance exactly 1200. -/
theorem visibility_filter_witness :
    getVisibleEntities "a" viewWorld =
      some { snakes := [scenarioSnake.toJSON]
             orbs := [{ x := 1299, y := 100, color := Color.hsl 0, radius := 4,
                        value := 1 }] } := by
  have hget : mapGet viewWorld.snakes "a" = some scenarioSnake := by
    simp [mapGet, viewWorld, scenarioSnake, Snake.new]
  have hB : ∀ s ∈ viewWorld.snakes, s.alive = true → s.segments ≠ [] := by
    intro s hs _
    simp only [viewWorld, List.mem_singleton] at hs
    subst hs
    rw [scenarioSnake_segments]
    exact List.cons_ne_nil _ _
  obtain ⟨heq, hself, _, _, hfar, hnear⟩ :=
    (visibility_filter viewWorld "a").2.2 scenarioSnake _ _ hget rfl scenarioSnake_segments hB
  have h1 : ¬ inView ⟨100, 100⟩ ⟨1300, 100⟩ :=
    hfar ⟨1300, 100⟩ (by rw [dist_on_line _ _ _ (by norm_num)]; norm_num [VIEW_DISTANCE])
  have h2 : inView ⟨100, 100⟩ ⟨1299, 100⟩ :=
    hnear ⟨1299, 100⟩ (by rw [dist_on_line _ _ _ (by norm_num)]; norm_num [VIEW_DISTANCE])
  have hs : seenFrom ⟨100, 100⟩ scenarioSnake := by
    rw [List.mem_filter, decide_eq_true_iff] at hself
    exact hself.2
  rw [heq]
  have e1 : viewWorld.snakes.filter (fun s => decide (seenFrom ⟨100, 100⟩ s))
      = [scenarioSnake] := by
    show List.filter _ [scenarioSnake] = _
    rw [List.filter_cons_of_pos (by simpa using hs)]
    rfl
  have e2 : viewWorld.orbs.filter (fun o => decide (inView ⟨100, 100⟩ ⟨o.x, o.y⟩))
      = [{ x := 1299, y := 100, color := Color.hsl 0, radius := 4, value := 1 }] := by
    show List.filter _ [_, _] = _
    rw [List.filter_cons_of_neg (by simpa using h1),
      List.filter_cons_of_pos (by simpa using h2)]
    rfl
  rw [e1, e2]
  rfl

/-! ## Numbers with the range of doubles -/

theorem overflow_pos : (1 : ℝ) < OVERFLOW := by
  unfold OVERFLOW
  norm_num

theorem overflow_lt : OVERFLOW < 2 ^ 1024 := by
  unfold OVERFLOW
  norm_num

theorem overflow_gt : (2 : ℝ) ^ 1023 < OVERFLOW := by
  unfold OVERFLOW
  norm_num

theorem underflow_pos : 0 < UNDERFLOW := by
  unfold UNDERFLOW
  positivity

theorem underflow_lt_min : UNDERFLOW < MIN_NORMAL := by
  unfold UNDERFLOW MIN_NORMAL
  apply one_div_lt_one_div_of_lt (by positivity)
  norm_num

theorem min_normal_lt_one : MIN_NORMAL < 1 := by
  unfold MIN_NORMAL
  rw [div_lt_one (by positivity)]
  norm_num

theorem toDouble_zero : toDouble 0 = JSNumber.finite 0 := by
  unfold toDouble
  rw [abs_zero, if_neg (not_le.2 (lt_trans one_pos overflow_pos)), if_pos underflow_pos.le]

theorem toDouble_of_range (r : ℝ) (h1 : UNDERFLOW < |r|) (h2 : |r| < OVERFLOW) :
    toDouble r = JSNumber.finite r := by
  unfold toDouble
  rw [if_neg (not_le.2 h2), if_neg (not_le.2 h1)]

theorem toDouble_of_small (r : ℝ) (h : |r| ≤ UNDERFLOW) : toDouble r = JSNumber.finite 0 := by
  unfold toDouble
  rw [if_neg (not_le.2 (lt_of_le_of_lt h (lt_trans (lt_trans underflow_lt_min
    min_normal_lt_one) overflow_pos))), if_pos h]

theorem toDouble_of_large (r : ℝ) (h : OVERFLOW ≤ |r|) :
    toDouble r = JSNumber.infinite (decide (r < 0)) := by
  unfold toDouble
  rw [if_pos h]

/-- The three outcomes of `toDouble`. -/
theorem toDouble_cases (r : ℝ) :
    (OVERFLOW ≤ |r| ∧ toDouble r = JSNumber.infinite (decide (r < 0))) ∨
    (|r| ≤ UNDERFLOW ∧ toDouble r = JSNumber.finite 0) ∨
    (UNDERFLOW < |r| ∧ |r| < OVERFLOW ∧ toDouble r = JSNumber.finite r) := by
  rcases le_or_lt OVERFLOW |r| with h | h
  · exact Or.inl ⟨h, toDouble_of_large r h⟩
  · rcases le_or_lt |r| UNDERFLOW with h2 | h2
    · exact Or.inr (Or.inl ⟨h2, toDouble_of_small r h2⟩)
    · exact Or.inr (Or.inr ⟨h2, h, toDouble_of_range r h2 h⟩)

theorem underflow_lt_one : UNDERFLOW < 1 := lt_trans underflow_lt_min min_normal_lt_one

theorem underflow_sq_overflow : UNDERFLOW ^ 2 * OVERFLOW < MIN_NORMAL := by
  unfold UNDERFLOW OVERFLOW MIN_NORMAL
  norm_num

/-- A number whose square is at least `MIN_NORMAL` and below `OVERFLOW` is itself between
`UNDERFLOW` and `OVERFLOW` in magnitude. -/
theorem abs_bounds_of_sq (r : ℝ) (h1 : MIN_NORMAL ≤ r ^ 2) (h2 : r ^ 2 < OVERFLOW) :
    UNDERFLOW < |r| ∧ |r| < OVERFLOW := by
  have h0 := abs_nonneg r
  have hsq : |r| ^ 2 = r ^ 2 := sq_abs r
  constructor
  · by_contra hle
    push_neg at hle
    have := underflow_lt_one
    have := underflow_lt_min
    nlinarith
  · by_contra hle
    push_neg at hle
    have := overflow_pos
    nlinarith

theorem toDouble_of_ok (r : ℝ) (h : r = 0 ∨ (UNDERFLOW < |r| ∧ |r| < OVERFLOW)) :
    toDouble r = JSNumber.finite r := by
  rcases h with rfl | ⟨h1, h2⟩
  · exact toDouble_zero
  · exact toDouble_of_range r h1 h2

/-- In range, the offset itself is stored as it is. -/
theorem toDouble_offset (dx : ℝ) (h1 : dx = 0 ∨ MIN_NORMAL ≤ dx ^ 2) (h2 : dx ^ 2 < OVERFLOW) :
    toDouble dx = JSNumber.finite dx := by
  apply toDouble_of_ok
  rcases h1 with h | h
  · exact Or.inl h
  · exact Or.inr (abs_bounds_of_sq dx h h2)

/-- In range, the square of the offset is stored as it is. -/
theorem toDouble_square (dx : ℝ) (h1 : dx = 0 ∨ MIN_NORMAL ≤ dx ^ 2) (h2 : dx ^ 2 < OVERFLOW) :
    toDouble (dx * dx) = JSNumber.finite (dx * dx) := by
  apply toDouble_of_ok
  rcases h1 with h | h
  · left
    rw [h, mul_zero]
  · right
    rw [← sq, abs_of_nonneg (sq_nonneg dx)]
    exact ⟨lt_of_lt_of_le underflow_lt_min h, h2⟩

/-- In range, the quotient of an offset by the distance is stored as it is. -/
theorem toDouble_ratio (dx S : ℝ) (h1 : dx = 0 ∨ MIN_NORMAL ≤ dx ^ 2) (hS : dx ^ 2 ≤ S)
    (h2 : S < OVERFLOW) (hpos : 0 < S) :
    toDouble (dx / Real.sqrt S) = JSNumber.finite (dx / Real.sqrt S) := by
  apply toDouble_of_ok
  rcases h1 with h | h
  · left
    rw [h, zero_div]
  · right
    have hd : 0 < Real.sqrt S := Real.sqrt_pos.2 hpos
    have hsq : Real.sqrt S ^ 2 = S := Real.sq_sqrt hpos.le
    have hq : (dx / Real.sqrt S) ^ 2 * S = dx ^ 2 := by
      rw [div_pow, hsq]
      field_simp
    have h0 := abs_nonneg (dx / Real.sqrt S)
    have habs : |dx / Real.sqrt S| ^ 2 = (dx / Real.sqrt S) ^ 2 := sq_abs _
    constructor
    · by_contra hle
      push_neg at hle
      have hu := underflow_pos
      have hk := underflow_sq_overflow
      have h3 : |dx / Real.sqrt S| ^ 2 ≤ UNDERFLOW ^ 2 := by nlinarith
      have h4 : (dx / Real.sqrt S) ^ 2 * S ≤ UNDERFLOW ^ 2 * OVERFLOW := by
        rw [← habs]
        exact mul_le_mul h3 h2.le hpos.le (sq_nonneg _)
      rw [hq] at h4
      linarith
    · have h5 : |dx / Real.sqrt S| ≤ 1 := by
        by_contra hgt
        push_neg at hgt
        have : 1 < |dx / Real.sqrt S| ^ 2 := by nlinarith
        rw [habs] at this
        nlinarith
      exact lt_of_le_of_lt h5 overflow_pos

theorem toDouble_square_cases (u : ℝ) :
    toDouble (u * u) = JSNumber.infinite false ∨
    ∃ a, toDouble (u * u) = JSNumber.finite a ∧ 0 ≤ a ∧ (a = u * u ∨ u * u ≤ UNDERFLOW) := by
  have hnn : 0 ≤ u * u := mul_self_nonneg u
  rcases toDouble_cases (u * u) with ⟨_, h⟩ | ⟨h1, h⟩ | ⟨_, _, h⟩
  · left
    rw [h]
    simp [not_lt.2 hnn]
  · right
    exact ⟨0, h, le_refl 0, Or.inr (by rwa [abs_of_nonneg hnn] at h1)⟩
  · right
    exact ⟨u * u, h, hnn, Or.inl rfl⟩

/-- The stored quotient of `u` by a distance that is at least `|u|` is at most 1 in
magnitude. -/
theorem ratio_bound (u T a : ℝ) (hT : 0 < T) (hu : u * u ≤ T)
    (h : toDouble (u / Real.sqrt T) = JSNumber.finite a) : |a| ≤ 1 := by
  have hd : 0 < Real.sqrt T := Real.sqrt_pos.2 hT
  have hle : |u / Real.sqrt T| ≤ 1 := by
    rw [abs_div, abs_of_pos hd, div_le_one hd]
    apply Real.le_sqrt_of_sq_le
    rw [sq_abs, sq]
    exact hu
  rcases toDouble_cases (u / Real.sqrt T) with ⟨h1, _⟩ | ⟨_, h2⟩ | ⟨_, _, h2⟩
  · have := overflow_pos
    linarith
  · rw [h2] at h
    cases h
    simp
  · rw [h2] at h
    cases h
    exact hle

/-- Whatever the offsets, a heading that `setDirection` stores has both components at most
1 in magnitude. -/
theorem heading_bound (dx dy : JSNumber) (a b : ℝ)
    (hg : (((dx.mul dx).add (dy.mul dy)).sqrt).gtZero = true)
    (ha : dx.div ((dx.mul dx).add (dy.mul dy)).sqrt = JSNumber.finite a)
    (hb : dy.div ((dx.mul dx).add (dy.mul dy)).sqrt = JSNumber.finite b) :
    |a| ≤ 1 ∧ |b| ≤ 1 := by
  cases dx with
  | nan => simp [JSNumber.mul, JSNumber.add, JSNumber.sqrt, JSNumber.gtZero] at hg
  | infinite s =>
    cases dy with
    | nan => simp [JSNumber.mul, JSNumber.add, JSNumber.sqrt, JSNumber.gtZero] at hg
    | infinite t => simp [JSNumber.mul, JSNumber.add, JSNumber.sqrt, JSNumber.div] at ha
    | finite v =>
      rcases toDouble_square_cases v with h | ⟨c, h, _⟩
      · simp [JSNumber.mul, JSNumber.add, JSNumber.sqrt, JSNumber.div, h] at ha
      · simp [JSNumber.mul, JSNumber.add, JSNumber.sqrt, JSNumber.div, h] at ha
  | finite u =>
    cases dy with
    | nan => simp [JSNumber.div] at hb
    | infinite t =>
      rcases toDouble_square_cases u with h | ⟨c, h, _⟩
      · simp [JSNumber.mul, JSNumber.add, JSNumber.sqrt, JSNumber.div, h] at hb
      · simp [JSNumber.mul, JSNumber.add, JSNumber.sqrt, JSNumber.div, h] at hb
    | finite v =>
      have zero_case : ∀ D : JSNumber, D = JSNumber.infinite false →
          (JSNumber.finite u).div D = JSNumber.finite a →
          (JSNumber.finite v).div D = JSNumber.finite b → |a| ≤ 1 ∧ |b| ≤ 1 := by
        intro D hD h1 h2
        rw [hD] at h1 h2
        simp only [JSNumber.div] at h1 h2
        cases h1
        cases h2
        simp
      rcases toDouble_square_cases u with hA | ⟨p, hA, hp, hpu⟩
      · apply zero_case _ _ ha hb
        rcases toDouble_square_cases v with hB | ⟨q, hB, _⟩
        · simp [JSNumber.mul, JSNumber.add, JSNumber.sqrt, hA, hB]
        · simp [JSNumber.mul, JSNumber.add, JSNumber.sqrt, hA, hB]
      · rcases toDouble_square_cases v with hB | ⟨q, hB, hq, hqv⟩
        · apply zero_case _ _ ha hb
          simp [JSNumber.mul, JSNumber.add, JSNumber.sqrt, hA, hB]
        · have hsum : (((JSNumber.finite u).mul (JSNumber.finite u)).add
              ((JSNumber.finite v).mul (JSNumber.finite v))) = toDouble (p + q) := by
            simp [JSNumber.mul, JSNumber.add, hA, hB]
          have hnn : 0 ≤ p + q := add_nonneg hp hq
          rw [hsum] at hg ha hb
          rcases toDouble_cases (p + q) with ⟨_, hT⟩ | ⟨_, hT⟩ | ⟨h1, _, hT⟩
          · apply zero_case _ _ ha hb
            rw [hT]
            simp [JSNumber.sqrt, not_lt.2 hnn]
          · rw [hT] at hg
            simp [JSNumber.sqrt, JSNumber.gtZero] at hg
          · rw [hT] at hg ha hb
            rw [abs_of_nonneg hnn] at h1
            have hpos : 0 < p + q := lt_trans underflow_pos h1
            have hd : Real.sqrt (p + q) ≠ 0 := (Real.sqrt_pos.2 hpos).ne'
            simp only [JSNumber.sqrt, if_neg (not_lt.2 hnn), JSNumber.div, if_neg hd] at ha hb
            constructor
            · apply ratio_bound u (p + q) a hpos _ ha
              rcases hpu with h | h
              · rw [← h]
                linarith
              · linarith
            · apply ratio_bound v (p + q) b hpos _ hb
              rcases hqv with h | h
              · rw [← h]
                linarith
              · linarith

/-! ## C15: `setDirection` -/

/-- In range and off the head, `setDirection` stores the offset divided by the distance. -/
theorem setDirection_in_range (s : Snake) (h : Point) (tl : List Point)
    (hs : s.segments = h :: tl) (x y : ℝ) (hne : x ≠ h.x ∨ y ≠ h.y)
    (hr : InRange (x - h.x) (y - h.y)) :
    s.setDirection (JSNumber.finite x) (JSNumber.finite y) = some { s with direction :=
      { x := (x - h.x) / Real.sqrt ((x - h.x) * (x - h.x) + (y - h.y) * (y - h.y))
        y := (y - h.y) / Real.sqrt ((x - h.x) * (x - h.x) + (y - h.y) * (y - h.y)) } } := by
  obtain ⟨hx, hy, hsum⟩ := hr
  have hx2 : (x - h.x) ^ 2 < OVERFLOW := by nlinarith [sq_nonneg (y - h.y)]
  have hy2 : (y - h.y) ^ 2 < OVERFLOW := by nlinarith [sq_nonneg (x - h.x)]
  have hS : (x - h.x) * (x - h.x) + (y - h.y) * (y - h.y) < OVERFLOW := by
    rw [← sq, ← sq]
    exact hsum
  have hmin : MIN_NORMAL ≤ (x - h.x) * (x - h.x) + (y - h.y) * (y - h.y) := by
    rw [← sq, ← sq]
    rcases hne with hn | hn
    · rcases hx with h0 | h0
      · exact absurd (sub_eq_zero.1 h0) hn
      · nlinarith [sq_nonneg (y - h.y)]
    · rcases hy with h0 | h0
      · exact absurd (sub_eq_zero.1 h0) hn
      · nlinarith [sq_nonneg (x - h.x)]
  have hpos : 0 < (x - h.x) * (x - h.x) + (y - h.y) * (y - h.y) :=
    lt_of_lt_of_le (lt_trans underflow_pos underflow_lt_min) hmin
  have hd : 0 < Real.sqrt ((x - h.x) * (x - h.x) + (y - h.y) * (y - h.y)) :=
    Real.sqrt_pos.2 hpos
  have e1 := toDouble_offset (x - h.x) hx hx2
  have e2 := toDouble_offset (y - h.y) hy hy2
  have e3 := toDouble_square (x - h.x) hx hx2
  have e4 := toDouble_square (y - h.y) hy hy2
  have e5 : toDouble ((x - h.x) * (x - h.x) + (y - h.y) * (y - h.y))
      = JSNumber.finite ((x - h.x) * (x - h.x) + (y - h.y) * (y - h.y)) := by
    apply toDouble_of_range
    · rw [abs_of_pos hpos]
      exact lt_of_lt_of_le underflow_lt_min hmin
    · rw [abs_of_pos hpos]
      exact hS
  have e6 := toDouble_ratio (x - h.x) _ hx
    (by rw [sq]; linarith [mul_self_nonneg (y - h.y)]) hS hpos
  have e7 := toDouble_ratio (y - h.y) _ hy
    (by rw [sq]; linarith [mul_self_nonneg (x - h.x)]) hS hpos
  unfold Snake.setDirection
  rw [hs]
  simp only [JSNumber.sub, e1, e2, JSNumber.mul, e3, e4, JSNumber.add, e5, JSNumber.sqrt,
    if_neg (not_lt.2 hpos.le), JSNumber.gtZero, decide_eq_true hd, if_true, JSNumber.div,
    if_neg hd.ne', e6, e7]

/-- An offset whose square is at most `UNDERFLOW` is stored as a number whose square is
stored as zero. -/
theorem toDouble_near (d : ℝ) (h : d ^ 2 ≤ UNDERFLOW) :
    ∃ u, toDouble d = JSNumber.finite u ∧ toDouble (u * u) = JSNumber.finite 0 := by
  rcases toDouble_cases d with ⟨h1, _⟩ | ⟨_, h2⟩ | ⟨_, _, h2⟩
  · have := overflow_pos
    have := underflow_lt_one
    have := abs_nonneg d
    have : |d| ^ 2 = d ^ 2 := sq_abs d
    nlinarith
  · exact ⟨0, h2, by rw [mul_zero]; exact toDouble_zero⟩
  · refine ⟨d, h2, toDouble_of_small _ ?_⟩
    rw [← sq, abs_of_nonneg (sq_nonneg d)]
    exact h

/-- So near the head that both squared offsets are stored as zero, `setDirection` changes
nothing. -/
theorem setDirection_near (s : Snake) (h : Point) (tl : List Point)
    (hs : s.segments = h :: tl) (x y : ℝ) (hx : (x - h.x) ^ 2 ≤ UNDERFLOW)
    (hy : (y - h.y) ^ 2 ≤ UNDERFLOW) :
    s.setDirection (JSNumber.finite x) (JSNumber.finite y) = some s := by
  obtain ⟨u, hu1, hu2⟩ := toDouble_near _ hx
  obtain ⟨v, hv1, hv2⟩ := toDouble_near _ hy
  unfold Snake.setDirection
  rw [hs]
  simp [JSNumber.sub, hu1, hv1, JSNumber.mul, hu2, hv2, JSNumber.add, toDouble_zero,
    JSNumber.sqrt, JSNumber.gtZero]

/-- An offset below `OVERFLOW` in magnitude is stored as a finite number, and as itself
when its square is at least `OVERFLOW`. -/
theorem toDouble_finite (d : ℝ) (h : |d| < OVERFLOW) :
    ∃ u, toDouble d = JSNumber.finite u ∧ (OVERFLOW ≤ d ^ 2 → u = d) := by
  rcases toDouble_cases d with ⟨h1, _⟩ | ⟨h1, h2⟩ | ⟨_, _, h2⟩
  · linarith
  · refine ⟨0, h2, ?_⟩
    intro hbig
    have := overflow_pos
    have := underflow_lt_one
    have := abs_nonneg d
    have : |d| ^ 2 = d ^ 2 := sq_abs d
    nlinarith
  · exact ⟨d, h2, fun _ => rfl⟩

/-- The distance is `Infinity` as soon as one squared offset is at least `OVERFLOW`. -/
theorem distance_far (u v : ℝ) (hfar : OVERFLOW ≤ u ^ 2 ∨ OVERFLOW ≤ v ^ 2) :
    (((JSNumber.finite u).mul (JSNumber.finite u)).add
      ((JSNumber.finite v).mul (JSNumber.finite v))).sqrt = JSNumber.infinite false := by
  have big : ∀ r : ℝ, OVERFLOW ≤ r ^ 2 → toDouble (r * r) = JSNumber.infinite false := by
    intro r hr
    rw [toDouble_of_large]
    · simp [not_lt.2 (mul_self_nonneg r)]
    · rw [← sq, abs_of_nonneg (sq_nonneg r)]
      exact hr
  rcases hfar with hu | hv
  · rcases toDouble_square_cases v with hB | ⟨q, hB, _⟩
    · simp [JSNumber.mul, JSNumber.add, JSNumber.sqrt, big u hu, hB]
    · simp [JSNumber.mul, JSNumber.add, JSNumber.sqrt, big u hu, hB]
  · rcases toDouble_square_cases u with hA | ⟨q, hA, _⟩
    · simp [JSNumber.mul, JSNumber.add, JSNumber.sqrt, big v hv, hA]
    · simp [JSNumber.mul, JSNumber.add, JSNumber.sqrt, big v hv, hA]

/-- For a finite offset with a square of at least `OVERFLOW` in one coordinate, the distance
is `Infinity` and `setDirection` stores the heading `(0, 0)`. -/
theorem setDirection_far (s : Snake) (h : Point) (tl : List Point)
    (hs : s.segments = h :: tl) (x y : ℝ) (hx : |x - h.x| < OVERFLOW)
    (hy : |y - h.y| < OVERFLOW)
    (hfar : OVERFLOW ≤ (x - h.x) ^ 2 ∨ OVERFLOW ≤ (y - h.y) ^ 2) :
    s.setDirection (JSNumber.finite x) (JSNumber.finite y)
      = some { s with direction := { x := 0, y := 0 } } := by
  obtain ⟨u, hu1, hu2⟩ := toDouble_finite _ hx
  obtain ⟨v, hv1, hv2⟩ := toDouble_finite _ hy
  have hfar2 : OVERFLOW ≤ u ^ 2 ∨ OVERFLOW ≤ v ^ 2 := by
    rcases hfar with hf | hf
    · left
      rw [hu2 hf]
      exact hf
    · right
      rw [hv2 hf]
      exact hf
  unfold Snake.setDirection
  rw [hs]
  simp only [JSNumber.sub, hu1, hv1]
  rw [distance_far u v hfar2]
  simp [JSNumber.gtZero, JSNumber.div]

/-- A target with a `NaN` coordinate changes nothing: the distance is `NaN`, and `NaN > 0`
is false. -/
theorem setDirection_nan (s : Snake) (h : Point) (tl : List Point)
    (hs : s.segments = h :: tl) (c : JSNumber) :
    s.setDirection JSNumber.nan c = some s ∧ s.setDirection c JSNumber.nan = some s := by
  constructor
  · unfold Snake.setDirection
    rw [hs]
    simp [JSNumber.sub, JSNumber.mul, JSNumber.add, JSNumber.sqrt, JSNumber.gtZero]
  · have hadd : ∀ A : JSNumber, A.add JSNumber.nan = JSNumber.nan := by
      intro A
      cases A <;> rfl
    unfold Snake.setDirection
    rw [hs]
    simp [JSNumber.sub, JSNumber.mul, hadd, JSNumber.sqrt, JSNumber.gtZero]

/-- A target with an infinite first coordinate and a finite second one gives no snake of the
model: the distance is `Infinity` and the first component of the heading is
`Infinity / Infinity`, which is `NaN`. -/
theorem setDirection_infinite (s : Snake) (h : Point) (tl : List Point)
    (hs : s.segments = h :: tl) (negative : Bool) (y : ℝ) :
    s.setDirection (JSNumber.infinite negative) (JSNumber.finite y) = none := by
  have hd : ∀ D : JSNumber, D ≠ JSNumber.nan →
      (((JSNumber.infinite negative).mul (JSNumber.infinite negative)).add (D.mul D)).sqrt
        = JSNumber.infinite false := by
    intro D hD
    cases D with
    | nan => exact absurd rfl hD
    | infinite t => simp [JSNumber.mul, JSNumber.add, JSNumber.sqrt]
    | finite v =>
      rcases toDouble_square_cases v with hB | ⟨q, hB, _⟩
      · simp [JSNumber.mul, JSNumber.add, JSNumber.sqrt, hB]
      · simp [JSNumber.mul, JSNumber.add, JSNumber.sqrt, hB]
  have hne : toDouble (y - h.y) ≠ JSNumber.nan := by
    rcases toDouble_cases (y - h.y) with ⟨_, e⟩ | ⟨_, e⟩ | ⟨_, _, e⟩ <;>
      simp [e]
  unfold Snake.setDirection
  rw [hs]
  simp only [JSNumber.sub]
  rw [hd _ hne]
  simp [JSNumber.gtZero, JSNumber.div]

/-- Whatever the target, a call of `setDirection` that returns a snake leaves the body alone,
and either leaves the heading alone or stores one with both components at most 1 in
magnitude. -/
theorem setDirection_cases (s s' : Snake) (X Y : JSNumber)
    (h : s.setDirection X Y = some s') :
    s'.segments = s.segments ∧
      (s'.direction = s.direction ∨ BoundedHeading s'.direction) := by
  unfold Snake.setDirection at h
  split at h
  · cases h
  · rename_i head tl hs
    simp only at h
    split at h
    · rename_i hg
      split at h
      · rename_i a b ha hb
        cases h
        exact ⟨rfl, Or.inr (heading_bound _ _ a b hg ha hb)⟩
      · cases h
    · cases h
      exact ⟨rfl, Or.inl rfl⟩

/-- C15, as stated, fails for a far target: `scenarioSnake` is alive with its head at
`(100, 100)`, the target `(1e200, 100)` is not the head, and `setDirection` stores the
heading `(0, 0)`, of norm 0: the square of the offset `1e200 - 100` is beyond the largest
double, so the distance is `Infinity` and both quotients are 0. -/
theorem setDirection_far_target :
    scenarioSnake.alive = true ∧ scenarioSnake.segments.head? = some ⟨100, 100⟩ ∧
    (10 : ℝ) ^ 200 ≠ 100 ∧
    ∃ s', scenarioSnake.setDirection (JSNumber.finite (10 ^ 200)) (JSNumber.finite 100)
        = some s' ∧
      s'.direction = ⟨0, 0⟩ ∧ Real.sqrt (s'.direction.x ^ 2 + s'.direction.y ^ 2) = 0 ∧
      Real.sqrt (s'.direction.x ^ 2 + s'.direction.y ^ 2) ≠ 1 := by
  refine ⟨rfl, by rw [scenarioSnake_segments]; rfl, by norm_num, _,
    setDirection_far scenarioSnake _ _ scenarioSnake_segments (10 ^ 200) 100 ?_ ?_ ?_,
    rfl, ?_, ?_⟩
  · show |(10 : ℝ) ^ 200 - 100| < OVERFLOW
    rw [abs_of_pos (by norm_num)]
    unfold OVERFLOW
    norm_num
  · show |(100 : ℝ) - 100| < OVERFLOW
    rw [sub_self, abs_zero]
    exact lt_trans one_pos overflow_pos
  · left
    show OVERFLOW ≤ ((10 : ℝ) ^ 200 - 100) ^ 2
    unfold OVERFLOW
    norm_num
  · show Real.sqrt ((0 : ℝ) ^ 2 + 0 ^ 2) = 0
    norm_num
  · show Real.sqrt ((0 : ℝ) ^ 2 + 0 ^ 2) ≠ 1
    norm_num

/-- C15 (amended): for a snake with head `h` and a target `(x, y)` with finite coordinates,
(1) when the target is not the head and its offsets are in range (each offset zero or with a
square of at least `MIN_NORMAL`, squared distance below `OVERFLOW`), `setDirection(x, y)`
returns the snake with `direction = ((x, y) - h) / |(x, y) - h|`, a vector of Euclidean norm
1, and every other field unchanged; (2) when both squared offsets are at most `UNDERFLOW`,
and so (3) on the head itself, it returns the snake unchanged; (4) when both offsets are
below `OVERFLOW` in magnitude and the square of one is at least `OVERFLOW`, it returns the
snake with `direction = (0, 0)` and every other field unchanged. -/
theorem setDirection_spec (s : Snake) (h : Point) (tl : List Point)
    (hs : s.segments = h :: tl) :
    (∀ x y : ℝ, (x ≠ h.x ∨ y ≠ h.y) → InRange (x - h.x) (y - h.y) →
      ∃ s', s.setDirection (JSNumber.finite x) (JSNumber.finite y) = some s' ∧
        0 < dist (euclid x y) (euclid h.x h.y) ∧
        s'.direction = { x := (x - h.x) / dist (euclid x y) (euclid h.x h.y)
                         y := (y - h.y) / dist (euclid x y) (euclid h.x h.y) } ∧
        Real.sqrt (s'.direction.x ^ 2 + s'.direction.y ^ 2) = 1 ∧
        s' = { s with direction := s'.direction }) ∧
    (∀ x y : ℝ, (x - h.x) ^ 2 ≤ UNDERFLOW → (y - h.y) ^ 2 ≤ UNDERFLOW →
      s.setDirection (JSNumber.finite x) (JSNumber.finite y) = some s) ∧
    s.setDirection (JSNumber.finite h.x) (JSNumber.finite h.y) = some s ∧
    (∀ x y : ℝ, |x - h.x| < OVERFLOW → |y - h.y| < OVERFLOW →
      (OVERFLOW ≤ (x - h.x) ^ 2 ∨ OVERFLOW ≤ (y - h.y) ^ 2) →
      s.setDirection (JSNumber.finite x) (JSNumber.finite y)
        = some { s with direction := { x := 0, y := 0 } }) := by
  refine ⟨?_, fun x y hx hy => setDirection_near s h tl hs x y hx hy, ?_,
    fun x y hx hy hfar => setDirection_far s h tl hs x y hx hy hfar⟩
  · intro x y hne hr
    have hpos : 0 < (x - h.x) * (x - h.x) + (y - h.y) * (y - h.y) := by
      rcases hne with hx | hy
      · have : 0 < (x - h.x) * (x - h.x) := mul_self_pos.2 (sub_ne_zero.2 hx)
        nlinarith [mul_self_nonneg (y - h.y)]
      · have : 0 < (y - h.y) * (y - h.y) := mul_self_pos.2 (sub_ne_zero.2 hy)
        nlinarith [mul_self_nonneg (x - h.x)]
    have hd : 0 < Real.sqrt ((x - h.x) * (x - h.x) + (y - h.y) * (y - h.y)) :=
      Real.sqrt_pos.2 hpos
    have hsq : Real.sqrt ((x - h.x) * (x - h.x) + (y - h.y) * (y - h.y)) ^ 2
        = (x - h.x) * (x - h.x) + (y - h.y) * (y - h.y) := Real.sq_sqrt hpos.le
    refine ⟨_, setDirection_in_range s h tl hs x y hne hr, ?_, ?_, ?_, rfl⟩
    · rw [dist_euclid]
      exact hd
    · rw [dist_euclid]
    · have e : ((x - h.x) / Real.sqrt ((x - h.x) * (x - h.x) + (y - h.y) * (y - h.y))) ^ 2
          + ((y - h.y) / Real.sqrt ((x - h.x) * (x - h.x) + (y - h.y) * (y - h.y))) ^ 2
          = 1 := by
        rw [div_pow, div_pow, ← add_div, hsq]
        rw [show (x - h.x) ^ 2 + (y - h.y) ^ 2
          = (x - h.x) * (x - h.x) + (y - h.y) * (y - h.y) by ring]
        exact div_self hpos.ne'
      show Real.sqrt (_ ^ 2 + _ ^ 2) = 1
      rw [e, Real.sqrt_one]
  · apply setDirection_near s h tl hs
    · rw [sub_self, zero_pow two_ne_zero]
      exact underflow_pos.le
    · rw [sub_self, zero_pow two_ne_zero]
      exact underflow_pos.le

/-- The snake at `(100, 100)` told to head for `(100, 200)`, a target in range, gets the
heading `(0, 1)`. -/
theorem setDirection_spec_witness :
    ((100 : ℝ) ≠ 100 ∨ (200 : ℝ) ≠ 100) ∧ InRange ((100 : ℝ) - 100) ((200 : ℝ) - 100) ∧
    ∃ s', scenarioSnake.setDirection (JSNumber.finite 100) (JSNumber.finite 200) = some s' ∧
      s'.direction = ⟨0, 1⟩ := by
  have hne : (100 : ℝ) ≠ 100 ∨ (200 : ℝ) ≠ 100 := Or.inr (by norm_num)
  have hr : InRange ((100 : ℝ) - 100) ((200 : ℝ) - 100) := by
    refine ⟨Or.inl (by norm_num), Or.inr ?_, ?_⟩
    · have := min_normal_lt_one
      norm_num
      linarith
    · unfold OVERFLOW
      norm_num
  obtain ⟨s', h1, _, h3, _, _⟩ :=
    (setDirection_spec scenarioSnake _ _ scenarioSnake_segments).1 100 200 hne hr
  refine ⟨hne, hr, s', h1, ?_⟩
  have hd : dist (euclid 100 200) (euclid 100 100) = 100 := by
    rw [dist_euclid]
    rw [show ((100 : ℝ) - 100) * (100 - 100) + (200 - 100) * (200 - 100) = 100 ^ 2 by norm_num]
    exact Real.sqrt_sq (by norm_num)
  rw [h3, hd]
  norm_num

/-! ## C16: commands on a missing or dead snake -/

theorem mapDelete_of_absent (l : List Snake) (id : String) (h : mapGet l id = none) :
    mapDelete l id = l := by
  unfold mapGet at h
  rw [List.find?_eq_none] at h
  unfold mapDelete
  rw [List.filter_eq_self]
  intro s hs
  have := h s hs
  simpa using this

theorem deadWorld_get :
    mapGet deadWorld.snakes "a" = some (scenarioSnake.setAlive false) := by
  simp [mapGet, deadWorld, Snake.setAlive, scenarioSnake, Snake.new]

/-- C16, as stated, fails for `disconnect`: in `deadWorld` the snake `"a"` is in the map and
not alive, and `disconnect` for `"a"` empties the map: the handler deletes the id without
looking at the snake. -/
theorem disconnect_removes_dead :
    (∃ s, mapGet deadWorld.snakes "a" = some s ∧ s.alive = false) ∧
    (disconnect "a" deadWorld).snakes = [] ∧ deadWorld.snakes ≠ [] ∧
    disconnect "a" deadWorld ≠ deadWorld := by
  have hd : (disconnect "a" deadWorld).snakes = [] := by
    simp [disconnect, mapDelete, deadWorld, Snake.setAlive, scenarioSnake, Snake.new]
  have hne : deadWorld.snakes ≠ [] := by
    simp [deadWorld]
  refine ⟨⟨_, deadWorld_get, rfl⟩, hd, hne, ?_⟩
  intro h
  rw [h] at hd
  exact hne hd

/-- C16 (amended): for an id that is not in the map or whose snake is not alive, `mouse_move`,
`boost_start` and `boost_end` leave the whole world unchanged; `disconnect` leaves it
unchanged for an id that is not in the map, and otherwise removes the snakes of that id from
the map, alive or not, and leaves the orbs as they are. -/
theorem commands_noop (w : World) (id : String)
    (hid : mapGet w.snakes id = none ∨ ∃ s, mapGet w.snakes id = some s ∧ s.alive = false) :
    (∀ x y : JSNumber, mouse_move id x y w = some w) ∧ boost_start id w = w ∧
    boost_end id w = w ∧
    (mapGet w.snakes id = none → disconnect id w = w) ∧
    (disconnect id w).orbs = w.orbs ∧
    (disconnect id w).snakes = w.snakes.filter (fun s => s.id ≠ id) := by
  refine ⟨?_, ?_, ?_, ?_, rfl, rfl⟩
  · intro x y
    unfold mouse_move
    rcases hid with h | ⟨s, h, ha⟩
    · rw [h]
    · rw [h]
      simp [ha]
  · unfold boost_start
    rcases hid with h | ⟨s, h, ha⟩
    · rw [h]
    · rw [h]
      simp [ha]
  · unfold boost_end
    rcases hid with h | ⟨s, h, ha⟩
    · rw [h]
    · rw [h]
      simp [ha]
  · intro h
    unfold disconnect
    rw [mapDelete_of_absent _ _ h]

/-- In `deadWorld`, where `"a"` is not alive, `mouse_move`, `boost_start` and `boost_end`
for `"a"` change nothing. -/
theorem commands_noop_witness :
    mouse_move "a" (JSNumber.finite 0) (JSNumber.finite 0) deadWorld = some deadWorld ∧
      boost_start "a" deadWorld = deadWorld ∧ boost_end "a" deadWorld = deadWorld := by
  obtain ⟨h1, h2, h3, _⟩ := commands_noop deadWorld "a" (Or.inr ⟨_, deadWorld_get, rfl⟩)
  exact ⟨h1 _ _, h2, h3⟩

/-! ## C17: the bounded snapshot of a snake -/

/-- C17: the `segments` of `toJSON()` are the first `min(50, length)` segments of the body,
in their order; `score` and `radius` are computed from the length of the whole body; `id`,
`nickname` and `color` are copied. -/
theorem toJSON_spec (s : Snake) :
    (s.toJSON).segments = s.segments.take (min 50 s.segments.length) ∧
    (s.toJSON).segments.length = min 50 s.segments.length ∧
    List.IsPrefix (s.toJSON).segments s.segments ∧
    (s.toJSON).score = ⌊((s.segments.length : ℝ) - (INITIAL_SNAKE_LENGTH : ℝ)) * 10⌋ ∧
    (s.toJSON).radius = SEGMENT_RADIUS + Real.sqrt (s.segments.length : ℝ) * 0.3 ∧
    (s.toJSON).id = s.id ∧ (s.toJSON).nickname = s.nickname ∧ (s.toJSON).color = s.color := by
  refine ⟨?_, ?_, List.take_prefix 50 s.segments, rfl, rfl, rfl, rfl, rfl⟩
  · show s.segments.take 50 = _
    rcases Nat.le_total 50 s.segments.length with h | h
    · rw [Nat.min_eq_left h]
    · rw [Nat.min_eq_right h, List.take_of_length_le h, List.take_of_length_le (le_refl _)]
  · show (s.segments.take 50).length = _
    rw [List.length_take]

/-! ## C18: the test without the square root -/

/-- C18: when `r1 + r2 ≥ 0`, `checkCollision` holds if and only if the squared distance of
the centres is strictly less than `(r1 + r2)²`. -/
theorem checkCollision_iff_sq (x1 y1 r1 x2 y2 r2 : ℝ) (hr : 0 ≤ r1 + r2) :
    checkCollision x1 y1 r1 x2 y2 r2 ↔ checkCollisionSq x1 y1 r1 x2 y2 r2 := by
  unfold checkCollision checkCollisionSq
  simp only
  have e : (x1 - x2) * (x1 - x2) + (y1 - y2) * (y1 - y2) = (x1 - x2) ^ 2 + (y1 - y2) ^ 2 := by
    ring
  have hnn : 0 ≤ (x1 - x2) ^ 2 + (y1 - y2) ^ 2 := by positivity
  rw [e]
  rcases hr.eq_or_lt with h0 | hpos
  · rw [← h0]
    constructor
    · intro h
      exact absurd h (not_lt.2 (Real.sqrt_nonneg _))
    · intro h
      norm_num at h
      exact absurd h (not_lt.2 hnn)
  · exact Real.sqrt_lt' hpos

/-- The scenario of the pickup, through the test without the square root: `64 < 196`. -/
theorem checkCollision_iff_sq_witness : checkCollision 0 0 10 8 0 4 :=
  (checkCollision_iff_sq 0 0 10 8 0 4 (by norm_num)).2
    (by unfold checkCollisionSq; norm_num)

/-! ## C19: `update` keeps the length -/

/-- C19: for an alive snake with a head, boosting or not and of any length, `update()`
returns the body with the new head prepended and exactly one segment removed at the tail,
so of the same length; on a snake that is not alive it returns the snake unchanged. -/
theorem update_keeps_length :
    (∀ (s : Snake) (head : Point) (rest : List Point), s.alive = true →
      s.segments = head :: rest →
      ∃ s', s.update = some s' ∧
        s'.segments = (s.newHead head :: s.segments).dropLast ∧
        s'.segments.length = s.segments.length) ∧
    (∀ s : Snake, s.alive = false → s.update = some s) := by
  constructor
  · intro s head rest ha hs
    refine ⟨_, Snake.update_eq s head rest hs ha, ?_, ?_⟩
    · rw [hs]
      rfl
    · rw [hs]
      simp
  · exact update_dead

/-- The boosting snake `boostSnake` (20 segments) has 20 segments after `update()`. -/
theorem update_keeps_length_witness :
    ∃ s', boostSnake.update = some s' ∧ s'.segments.length = 20 := by
  have hl : boostSnake.segments.length = 20 := by simp [boostSnake]
  obtain ⟨head, rest, hs⟩ := List.exists_cons_of_ne_nil
    (show boostSnake.segments ≠ [] by
      intro h
      rw [h] at hl
      cases hl)
  obtain ⟨s', h1, _, h3⟩ := update_keeps_length.1 boostSnake head rest rfl hs
  exact ⟨s', h1, by rw [h3, hl]⟩

/-! ## C20: heads inside the map, headings of norm 1 -/

theorem unit_bounded (d : Point) (h : UnitHeading d) : BoundedHeading d := by
  unfold UnitHeading at h
  exact ⟨abs_le.2 ⟨by nlinarith [sq_nonneg d.y], by nlinarith [sq_nonneg d.y]⟩,
    abs_le.2 ⟨by nlinarith [sq_nonneg d.x], by nlinarith [sq_nonneg d.x]⟩⟩

/-- A snake whose body starts with the new head `update` computes for a placed snake `A`,
and which has the heading of `A`, is placed. -/
theorem placed_of_moved (N : Point → Prop) (hN : ∀ d, N d → BoundedHeading d) (A X : Snake)
    (head : Point) (rest t : List Point) (hP : PlacedWith N A)
    (hs : A.segments = head :: rest) (hX : X.segments = A.newHead head :: t)
    (hd : X.direction = A.direction) : PlacedWith N X := by
  obtain ⟨head2, tl2, hs2, hx, hy, hu⟩ := hP
  rw [hs] at hs2
  cases hs2
  have hsp := stepSpeed_pos A
  have hlt := stepSpeed_lt_map A
  obtain ⟨b1, b2⟩ := hN _ hu
  have h1 := (abs_le.1 b1).1
  have h2 := (abs_le.1 b2).1
  refine ⟨A.newHead head, t, hX, ?_, ?_, by rw [hd]; exact hu⟩
  · exact wrap_mem _ (by nlinarith [hx.1])
  · exact wrap_mem _ (by nlinarith [hy.1])

theorem placed_bodies {N : Point → Prop} {w : World} (h : ∀ s ∈ w.snakes, PlacedWith N s) :
    Bodies w := by
  intro s hs hnil
  obtain ⟨head, tl, hseg, _⟩ := h s hs
  rw [hnil] at hseg
  cases hseg

/-- One callback of the outer `forEach` keeps every snake of the map placed. -/
theorem processSnake_placed (N : Point → Prop) (hN : ∀ d, N d → BoundedHeading d)
    (rng : ℕ → Random) (k : ℕ) (w w1 : World)
    (hP : ∀ s ∈ w.snakes, PlacedWith N s) (h1 : processSnake rng k w = some w1) :
    ∀ s ∈ w1.snakes, PlacedWith N s := by
  rcases processSnake_cases rng k w (placed_bodies hP) with
    ⟨h, _⟩ | ⟨A, head, rest, tail, hk, ha, hs, hl, h⟩
  · rw [h] at h1
    cases h1
    exact hP
  · rw [h] at h1
    cases h1
    have hsn := processed_snakes rng k w (A.moved head rest) (A.newHead head) tail
    obtain ⟨g, hfed, _⟩ := sweep_snake (A.newHead head) tail w.orbs (A.moved head rest)
    intro s hsmem
    rw [hsn] at hsmem
    rcases mem_set_cases _ _ _ _ hsmem with rfl | hmem
    · apply placed_of_moved N hN A _ head rest
        ((head :: rest).dropLast ++ List.replicate g tail) (hP A (List.getElem?_mem hk)) hs
      · show (sweep (A.newHead head) tail (A.moved head rest) w.orbs).1.segments = _
        rw [hfed]
        rfl
      · show (sweep (A.newHead head) tail (A.moved head rest) w.orbs).1.direction = _
        rw [hfed]
        rfl
    · exact hP s hmem

theorem runSnakes_placed (N : Point → Prop) (hN : ∀ d, N d → BoundedHeading d)
    (rng : ℕ → Random) (ks : List ℕ) :
    ∀ w w' : World, (∀ s ∈ w.snakes, PlacedWith N s) → runSnakes rng ks w = some w' →
      ∀ s ∈ w'.snakes, PlacedWith N s := by
  induction ks with
  | nil =>
    intro w w' hP h
    rw [runSnakes_nil] at h
    cases h
    exact hP
  | cons k ks ih =>
    intro w w' hP h
    obtain ⟨w1, h1, _⟩ := processSnake_total rng k w (placed_bodies hP)
    rw [runSnakes_cons, h1, Option.some_bind] at h
    exact ih w1 w' (processSnake_placed N hN rng k w w1 hP h1) h

theorem placed_mapSet {N : Point → Prop} {w : World} (h : ∀ s ∈ w.snakes, PlacedWith N s)
    (v : Snake) (hv : PlacedWith N v) : ∀ s ∈ mapSet w.snakes v, PlacedWith N s := by
  intro s hs
  rcases mem_mapSet _ _ _ hs with rfl | hs
  · exact hv
  · exact h s hs

theorem placed_new (N : Point → Prop) (h0 : N { x := 1, y := 0 }) (id : String)
    (nickname : Option String) (u v c : Random) :
    PlacedWith N (Snake.new id nickname (u.val * MAP_SIZE) (v.val * MAP_SIZE) c) := by
  have hM : (0 : ℝ) < MAP_SIZE := by norm_num [MAP_SIZE]
  refine ⟨⟨u.val * MAP_SIZE, v.val * MAP_SIZE⟩, _, initialSegments_eq _ _, ?_, ?_, h0⟩
  · exact ⟨mul_nonneg u.2.1 hM.le, mul_lt_of_lt_one_left hM u.2.2⟩
  · exact ⟨mul_nonneg v.2.1 hM.le, mul_lt_of_lt_one_left hM v.2.2⟩

theorem placed_boost_start (N : Point → Prop) (socketId : String) {w : World}
    (h : ∀ s ∈ w.snakes, PlacedWith N s) :
    ∀ s ∈ (boost_start socketId w).snakes, PlacedWith N s := by
  unfold boost_start
  split
  · exact h
  · rename_i snake hg
    split
    · exact placed_mapSet h _ (h snake (mapGet_mem _ _ snake hg))
    · exact h

theorem placed_boost_end (N : Point → Prop) (socketId : String) {w : World}
    (h : ∀ s ∈ w.snakes, PlacedWith N s) :
    ∀ s ∈ (boost_end socketId w).snakes, PlacedWith N s := by
  unfold boost_end
  split
  · exact h
  · rename_i snake hg
    split
    · exact placed_mapSet h _ (h snake (mapGet_mem _ _ snake hg))
    · exact h

/-- A `mouse_move` that returns a world keeps every snake placed when the heading
`setDirection` returns for a placed snake satisfies `N`. -/
theorem placed_mouse_move (N : Point → Prop) (socketId : String) (x y : JSNumber)
    {w w' : World} (h : ∀ s ∈ w.snakes, PlacedWith N s)
    (hm : mouse_move socketId x y w = some w')
    (hturn : ∀ snake turned, mapGet w.snakes socketId = some snake → snake.alive = true →
      snake.setDirection x y = some turned → N turned.direction) :
    ∀ s ∈ w'.snakes, PlacedWith N s := by
  unfold mouse_move at hm
  split at hm
  · cases hm
    exact h
  · rename_i snake hg
    split at hm
    · rename_i halive
      split at hm
      · cases hm
      · rename_i turned ht
        cases hm
        apply placed_mapSet h
        obtain ⟨head, tl, hs, hx, hy, _⟩ := h snake (mapGet_mem _ _ snake hg)
        refine ⟨head, tl, ?_, hx, hy, hturn snake turned hg halive ht⟩
        rw [setDirection_segments _ _ _ _ ht]
        exact hs
    · cases hm
      exact h

/-- Every snake of a reachable world has its head inside the map and a heading with both
components at most 1 in magnitude. -/
theorem reachable_bounded (rng : ℕ → Random) {w : World} (h : Reachable rng w) :
    ∀ s ∈ w.snakes, PlacedWith BoundedHeading s := by
  induction h with
  | start => intro s hs; cases hs
  | join socketId nickname _ ih =>
    exact placed_mapSet ih _ (placed_new _ (by simp [BoundedHeading]) _ _ _ _ _)
  | mouse_move socketId x y _ hm ih =>
    apply placed_mouse_move _ socketId x y ih hm
    intro snake turned hg _ ht
    rcases (setDirection_cases _ _ _ _ ht).2 with hsame | hb
    · rw [hsame]
      obtain ⟨_, _, _, _, _, hu⟩ := ih snake (mapGet_mem _ _ snake hg)
      exact hu
    · exact hb
  | boost_start socketId _ ih => exact placed_boost_start _ socketId ih
  | boost_end socketId _ ih => exact placed_boost_end _ socketId ih
  | disconnect socketId _ ih =>
    intro s hs
    exact ih s (List.mem_of_mem_filter hs)
  | tick _ ht ih => exact runSnakes_placed _ (fun _ hd => hd) rng _ _ _ ih ht

/-- A world reached with every target in range is a reachable world. -/
theorem reachableInRange_reachable (rng : ℕ → Random) {w : World}
    (h : ReachableInRange rng w) : Reachable rng w := by
  induction h with
  | start => exact Reachable.start
  | join socketId nickname _ ih => exact Reachable.join socketId nickname ih
  | mouse_move socketId x y _ _ hm ih => exact Reachable.mouse_move socketId x y ih hm
  | boost_start socketId _ ih => exact Reachable.boost_start socketId ih
  | boost_end socketId _ ih => exact Reachable.boost_end socketId ih
  | disconnect socketId _ ih => exact Reachable.disconnect socketId ih
  | tick _ ht ih => exact Reachable.tick ih ht

/-- Every snake of a world reached with every target in range is placed: its head is inside
the map and its heading has norm 1. -/
theorem reachableInRange_placed (rng : ℕ → Random) {w : World}
    (h : ReachableInRange rng w) : ∀ s ∈ w.snakes, Placed s := by
  induction h with
  | start => intro s hs; cases hs
  | join socketId nickname _ ih =>
    exact placed_mapSet ih _ (placed_new _ (by simp [UnitHeading]) _ _ _ _ _)
  | mouse_move socketId x y _ hr hm ih =>
    apply placed_mouse_move _ socketId x y ih hm
    intro snake turned hg halive ht
    obtain ⟨head, tl, hs, _, _, hu⟩ := ih snake (mapGet_mem _ _ snake hg)
    obtain ⟨a, b, rfl, rfl, hab⟩ := hr snake head tl hg halive hs
    by_cases hne : a ≠ head.x ∨ b ≠ head.y
    · rw [setDirection_in_range snake head tl hs a b hne hab] at ht
      cases ht
      have hpos : 0 < (a - head.x) * (a - head.x) + (b - head.y) * (b - head.y) := by
        rcases hne with hx | hy
        · have : 0 < (a - head.x) * (a - head.x) := mul_self_pos.2 (sub_ne_zero.2 hx)
          nlinarith [mul_self_nonneg (b - head.y)]
        · have : 0 < (b - head.y) * (b - head.y) := mul_self_pos.2 (sub_ne_zero.2 hy)
          nlinarith [mul_self_nonneg (a - head.x)]
      have hsq := Real.sq_sqrt hpos.le
      show (_ / _) ^ 2 + (_ / _) ^ 2 = (1 : ℝ)
      rw [div_pow, div_pow, ← add_div, hsq]
      rw [show (a - head.x) ^ 2 + (b - head.y) ^ 2
        = (a - head.x) * (a - head.x) + (b - head.y) * (b - head.y) by ring]
      exact div_self hpos.ne'
    · push_neg at hne
      have e := setDirection_near snake head tl hs a b
        (by rw [hne.1, sub_self, zero_pow two_ne_zero]; exact underflow_pos.le)
        (by rw [hne.2, sub_self, zero_pow two_ne_zero]; exact underflow_pos.le)
      rw [e] at ht
      cases ht
      exact hu
  | boost_start socketId _ ih => exact placed_boost_start _ socketId ih
  | boost_end socketId _ ih => exact placed_boost_end _ socketId ih
  | disconnect socketId _ ih =>
    intro s hs
    exact ih s (List.mem_of_mem_filter hs)
  | tick _ ht ih => exact runSnakes_placed _ unit_bounded rng _ _ _ ih ht

theorem joinedWorld_snakes : joinedWorld.snakes = [joinedSnake] := by
  simp [joinedWorld, join, initial, mapSet, rng0, draw0, joinedSnake]

theorem joinedWorld_get : mapGet joinedWorld.snakes "a" = some joinedSnake := by
  rw [joinedWorld_snakes]
  simp [mapGet, joinedSnake, Snake.new]

theorem joinedSnake_segments :
    joinedSnake.segments = ⟨0, 0⟩ :: [⟨0 - 8, 0⟩, ⟨0 - 16, 0⟩, ⟨0 - 24, 0⟩, ⟨0 - 32, 0⟩,
      ⟨0 - 40, 0⟩, ⟨0 - 48, 0⟩, ⟨0 - 56, 0⟩, ⟨0 - 64, 0⟩, ⟨0 - 72, 0⟩] :=
  initialSegments_eq _ _

/-- The world `mouse_move` returns when the alive snake of the socket turns into `turned`. -/
theorem mouse_move_turned (socketId : String) (x y : JSNumber) (w : World)
    (snake turned : Snake) (hg : mapGet w.snakes socketId = some snake)
    (ha : snake.alive = true) (h : snake.setDirection x y = some turned) :
    mouse_move socketId x y w = some { w with snakes := mapSet w.snakes turned } := by
  unfold mouse_move
  rw [hg]
  simp only [ha, if_true, h]

theorem mapSet_mem_self (l : List Snake) (v : Snake) : v ∈ mapSet l v := by
  induction l with
  | nil => simp [mapSet]
  | cons s rest ih =>
    unfold mapSet
    split
    · exact List.mem_cons_self _ _
    · exact List.mem_cons_of_mem _ ih

/-- C20, as stated, fails: after start-up, `join` of the socket `"a"` and the set-heading
command `mouse_move` with the target `(1e200, 0)`, a reachable world, the snake of `"a"` is
alive and its heading is `(0, 0)`, of norm 0. -/
theorem far_target_stalls :
    ∃ w, mouse_move "a" (JSNumber.finite (10 ^ 200)) (JSNumber.finite 0) joinedWorld = some w ∧
      Reachable rng0 w ∧
      ∃ s ∈ w.snakes, s.id = "a" ∧ s.alive = true ∧ s.direction = ⟨0, 0⟩ ∧
        Real.sqrt (s.direction.x ^ 2 + s.direction.y ^ 2) ≠ 1 := by
  have ht := setDirection_far joinedSnake _ _ joinedSnake_segments (10 ^ 200) 0
    (by
      show |(10 : ℝ) ^ 200 - 0| < OVERFLOW
      rw [sub_zero, abs_of_pos (by positivity)]
      unfold OVERFLOW
      norm_num)
    (by
      show |(0 : ℝ) - 0| < OVERFLOW
      rw [sub_self, abs_zero]
      exact lt_trans one_pos overflow_pos)
    (Or.inl (by
      show OVERFLOW ≤ ((10 : ℝ) ^ 200 - 0) ^ 2
      unfold OVERFLOW
      norm_num))
  have hm := mouse_move_turned "a" _ _ joinedWorld joinedSnake _ joinedWorld_get rfl ht
  refine ⟨_, hm, Reachable.mouse_move "a" _ _
    (Reachable.join "a" none Reachable.start) hm, _, mapSet_mem_self _ _, rfl, rfl, rfl, ?_⟩
  show Real.sqrt ((0 : ℝ) ^ 2 + 0 ^ 2) ≠ 1
  norm_num

/-- C20 (amended): in every world reachable from start-up through `join` (which places a
snake at a position of `[0, MAP_SIZE)²`), the other handlers and ticks (no heading having
been given a `NaN` component, which takes an infinite target coordinate), every snake of the
map has a head with both coordinates in `[0, MAP_SIZE)`; and when every `mouse_move` on the
way had its target in range of the head it steered (finite coordinates, each offset zero or
with a square of at least `MIN_NORMAL`, squared distance below `OVERFLOW`), every snake of
the map has a heading of Euclidean norm 1. -/
theorem reachable_placed (rng : ℕ → Random) (w : World) (h : Reachable rng w) :
    (∀ s ∈ w.snakes, ∃ head tl, s.segments = head :: tl ∧
      (0 ≤ head.x ∧ head.x < MAP_SIZE) ∧ (0 ≤ head.y ∧ head.y < MAP_SIZE)) ∧
    (ReachableInRange rng w →
      ∀ s ∈ w.snakes, Real.sqrt (s.direction.x ^ 2 + s.direction.y ^ 2) = 1) := by
  constructor
  · intro s hs
    obtain ⟨head, tl, hseg, hx, hy, _⟩ := reachable_bounded rng h s hs
    exact ⟨head, tl, hseg, hx, hy⟩
  · intro hr s hs
    obtain ⟨_, _, _, _, _, hu⟩ := reachableInRange_placed rng hr s hs
    have hu2 : s.direction.x ^ 2 + s.direction.y ^ 2 = 1 := hu
    rw [hu2, Real.sqrt_one]

/-- After start-up, a `join`, a `mouse_move` with the target `(0, 100)`, in range of the head
`(0, 0)`, and one tick, `gameLoop()` has returned and every snake has its head inside the map
and a heading of norm 1. -/
theorem reachable_placed_witness :
    ∃ w1 w', mouse_move "a" (JSNumber.finite 0) (JSNumber.finite 100) joinedWorld = some w1 ∧
      gameLoop rng0 w1 = some w' ∧ Reachable rng0 w' ∧
      (∀ s ∈ w'.snakes, ∃ head tl, s.segments = head :: tl ∧
        (0 ≤ head.x ∧ head.x < MAP_SIZE) ∧ (0 ≤ head.y ∧ head.y < MAP_SIZE)) ∧
      ∀ s ∈ w'.snakes, Real.sqrt (s.direction.x ^ 2 + s.direction.y ^ 2) = 1 := by
  have hrange : InRange ((0 : ℝ) - 0) ((100 : ℝ) - 0) := by
    refine ⟨Or.inl (by norm_num), Or.inr ?_, ?_⟩
    · have := min_normal_lt_one
      norm_num
      linarith
    · unfold OVERFLOW
      norm_num
  have ht := setDirection_in_range joinedSnake _ _ joinedSnake_segments 0 100
    (Or.inr (by norm_num)) hrange
  have hm := mouse_move_turned "a" _ _ joinedWorld joinedSnake _ joinedWorld_get rfl ht
  have hj : ReachableInRange rng0 joinedWorld :=
    ReachableInRange.join "a" none ReachableInRange.start
  have hr1 := ReachableInRange.mouse_move "a" (JSNumber.finite 0) (JSNumber.finite 100) hj
    (by
      intro snake head tl hg _ hs
      rw [joinedWorld_get] at hg
      cases hg
      rw [joinedSnake_segments] at hs
      cases hs
      exact ⟨0, 100, rfl, rfl, hrange⟩) hm
  obtain ⟨w', hw', _⟩ := runSnakes_total rng0 (List.range _) _
    (minLength_bodies (reachable_minLength rng0 (reachableInRange_reachable rng0 hr1)))
  have hr2 := ReachableInRange.tick hr1 hw'
  have hall := reachable_placed rng0 w' (reachableInRange_reachable rng0 hr2)
  exact ⟨_, w', hm, hw', reachableInRange_reachable rng0 hr2, hall.1, hall.2 hr2⟩

end Slither

end
